import Mathlib

/-!
Verification development for the Harbor automated code-review service.

The TypeScript sources are shallowly embedded: strings are modelled over
`List Char`, JS `Map`s as insertion-ordered association lists, the
filesystem as a partial function from absolute path strings to nodes, and
stateful classes as explicit state-passing functions returning
`Except String _ × State` (a thrown exception corresponds to `.error`,
with the mutations performed before the throw kept in the state).
-/

namespace Harbor

/-! ### JS string primitives, modelled over `List Char` -/

/-- Character-list prefix test (first argument is the pattern). -/
def listStartsWith : List Char → List Char → Bool
  | [], _ => true
  | _ :: _, [] => false
  | p :: ps, s :: ss => if p = s then listStartsWith ps ss else false

/-- JS `s.startsWith(p)`. -/
def jsStartsWith (s p : String) : Bool := listStartsWith p.data s.data

/-- Split a character list at every occurrence of `c` (JS `s.split(c)`). -/
def splitChar (c : Char) : List Char → List (List Char)
  | [] => [[]]
  | x :: xs =>
    match splitChar c xs with
    | [] => [[]]
    | h :: t => if x = c then [] :: h :: t else (x :: h) :: t

/-- JS `s.split("\n")` as a list of line strings. -/
def splitLines (s : String) : List String := (splitChar '\n' s.data).map String.mk

/-- Join character lists with a separator (JS `array.join(sep)`). -/
def joinWith (sep : List Char) : List (List Char) → List Char
  | [] => []
  | [x] => x
  | x :: y :: t => x ++ sep ++ joinWith sep (y :: t)

/-- JS `xs.join(sep)` on strings. -/
def jsJoin (sep : String) (xs : List String) : String :=
  String.mk (joinWith sep.data (xs.map String.data))

/-- Whitespace as recognised by JS `trim` (ASCII part; the sources only
meet ASCII whitespace). -/
def jsWsChar (c : Char) : Bool :=
  (c == ' ') || (c == Char.ofNat 9) || (c == Char.ofNat 10) ||
    (c == Char.ofNat 13) || (c == Char.ofNat 11) || (c == Char.ofNat 12)

def trimRightList (cs : List Char) : List Char :=
  (cs.reverse.dropWhile (fun c => jsWsChar c)).reverse

def trimLeftList (cs : List Char) : List Char := cs.dropWhile (fun c => jsWsChar c)

/-- JS `s.trim()`. -/
def jsTrim (s : String) : String := String.mk (trimLeftList (trimRightList s.data))

/-- JS `s.trimEnd()`. -/
def jsTrimEnd (s : String) : String := String.mk (trimRightList s.data)

/-- JS `s.replaceAll(a, b)` for single characters. -/
def mapReplace (a b : Char) (cs : List Char) : List Char :=
  cs.map (fun c => if c = a then b else c)

/-- JS `s.toLowerCase()` (ASCII). -/
def jsToLower (s : String) : String := String.mk (s.data.map Char.toLower)

/-- JS `s.slice(0, n)`. -/
def jsSliceTo (s : String) (n : Nat) : String := String.mk (s.data.take n)

/-- First index at which `needle` occurs in the hay (JS `indexOf`). -/
def findSubIdx (needle : List Char) : List Char → Option Nat
  | [] => if listStartsWith needle [] then some 0 else none
  | x :: t =>
    if listStartsWith needle (x :: t) then some 0
    else (findSubIdx needle t).map (· + 1)

/-- JS `s.includes(sub)`. -/
def jsIncludes (s sub : String) : Bool := (findSubIdx sub.data s.data).isSome

def isDigitChar (c : Char) : Bool := '0' ≤ c && c ≤ '9'

def digitToNat (c : Char) : Nat := c.toNat - '0'.toNat

/-- Greedy digit run: returns the digits and the remaining characters. -/
def takeDigits : List Char → List Char × List Char
  | [] => ([], [])
  | c :: t =>
    if isDigitChar c then
      let p := takeDigits t
      (c :: p.1, p.2)
    else ([], c :: t)

/-- Value of a decimal digit run (JS `Number.parseInt`, base 10). -/
def digitsVal (ds : List Char) : Nat := ds.foldl (fun acc c => 10 * acc + digitToNat c) 0

def digitChar : Nat → Char
  | 0 => '0' | 1 => '1' | 2 => '2' | 3 => '3' | 4 => '4'
  | 5 => '5' | 6 => '6' | 7 => '7' | 8 => '8' | _ => '9'

/-- Digit accumulation; the fuel (first argument) only needs to cover the
digit count, and `natDec` passes `n` itself. -/
def natDecGo : Nat → Nat → List Char → List Char
  | 0, n, acc => digitChar n :: acc
  | fuel + 1, n, acc =>
    if n < 10 then digitChar n :: acc
    else natDecGo fuel (n / 10) (digitChar (n % 10) :: acc)

/-- Decimal rendering of a natural number (JS template `${n}`). -/
def natDec (n : Nat) : String := String.mk (natDecGo n n [])

/-! ### JS `Map`: insertion-ordered association list with replace-on-set -/

def mapSet {α β : Type} [DecidableEq α] : List (α × β) → α → β → List (α × β)
  | [], k, v => [(k, v)]
  | (k', v') :: t, k, v =>
    if k' = k then (k', v) :: t else (k', v') :: mapSet t k v

def mapGet? {α β : Type} [DecidableEq α] : List (α × β) → α → Option β
  | [], _ => none
  | (k', v) :: t, k => if k' = k then some v else mapGet? t k

/-! ### Diff position mapping (`apps/api/src/security/signature.ts`) -/

structure HunkHeader where
  oldStart : Nat
  newStart : Nat
deriving DecidableEq

/-- After a digit run, `(?:,\d+)?` consumes an optional comma plus a
mandatory digit run; a comma without digits fails the whole parse (the
pattern would then require a space at the comma). -/
def skipCommaLen : List Char → Option (List Char)
  | ',' :: r =>
    match takeDigits r with
    | ([], _) => none
    | (_, rr) => some rr
  | r => some r

/-- Parse of `^@@ -(\d+)(?:,\d+)? \+(\d+)(?:,\d+)? @@` (`parseHunkHeader`). -/
def parseHunkHeader (line : String) : Option HunkHeader :=
  match line.data with
  | '@' :: '@' :: ' ' :: '-' :: r0 =>
    match takeDigits r0 with
    | ([], _) => none
    | (d1, r1) =>
      match skipCommaLen r1 with
      | none => none
      | some r2 =>
        match r2 with
        | ' ' :: '+' :: r3 =>
          match takeDigits r3 with
          | ([], _) => none
          | (d2, r4) =>
            match skipCommaLen r4 with
            | none => none
            | some r5 =>
              match r5 with
              | ' ' :: '@' :: '@' :: _ => some ⟨digitsVal d1, digitsVal d2⟩
              | _ => none
        | _ => none
  | _ => none

/-- Loop state of `buildAddedLineToPositionMap`. -/
structure PosState where
  newLine : Nat
  hasActiveHunk : Bool
  position : Nat
  map : List (Nat × Nat)
deriving DecidableEq

def posInit : PosState := ⟨0, false, 0, []⟩

/-- One iteration of the `for` loop of `buildAddedLineToPositionMap`. -/
def posStep (st : PosState) (line : String) : PosState :=
  if jsStartsWith line "@@ " then
    match parseHunkHeader line with
    | none => st
    | some h => { st with newLine := h.newStart, hasActiveHunk := true }
  else if !st.hasActiveHunk then st
  else if jsStartsWith line "\\" then st
  else if jsStartsWith line "+" && !jsStartsWith line "+++" then
    { st with
      position := st.position + 1
      map := mapSet st.map st.newLine (st.position + 1)
      newLine := st.newLine + 1 }
  else if jsStartsWith line "-" && !jsStartsWith line "---" then
    { st with position := st.position + 1 }
  else if jsStartsWith line " " then
    { st with position := st.position + 1, newLine := st.newLine + 1 }
  else st

/-- Embedding of `buildAddedLineToPositionMap` (new-file line → patch position). -/
def buildAddedLineToPositionMap (patch : String) : List (Nat × Nat) :=
  ((splitLines patch).foldl posStep posInit).map

/-- Parse of `^diff --git a\/(.+?) b\/(.+)$`: find the first split point
with a non-empty lazy first group and a non-empty rest after ` b/`. -/
def findTailAfterB : List Char → Option (List Char)
  | [] => none
  | _ :: t =>
    if listStartsWith (String.data " b/") t then
      if (t.drop 3).isEmpty then findTailAfterB t else some (t.drop 3)
    else findTailAfterB t

/-- Second path of a `diff --git a/X b/Y` header line. -/
def parseDiffHeader (line : String) : Option String :=
  if jsStartsWith line "diff --git a/" then
    (findTailAfterB (line.data.drop 13)).map String.mk
  else none

/-- Loop state of `extractPatchByFile`. -/
structure EPState where
  currentPath : Option String
  currentLines : List String
  result : List (String × String)
deriving DecidableEq

def epInit : EPState := ⟨none, [], []⟩

/-- The `flush` closure of `extractPatchByFile`. -/
def epFlush (st : EPState) : List (String × String) :=
  match st.currentPath with
  | none => st.result
  | some p =>
    if st.currentLines = [] then st.result
    else
      match st.currentLines.findIdx? (fun l => jsStartsWith l "@@ ") with
      | none => st.result
      | some i =>
        let patch := jsTrimEnd (jsJoin "\n" (st.currentLines.drop i))
        if patch = "" then st.result else mapSet st.result p patch

/-- One iteration of the `for` loop of `extractPatchByFile`. -/
def epStep (st : EPState) (line : String) : EPState :=
  if jsStartsWith line "diff --git " then
    { currentPath := parseDiffHeader line, currentLines := [], result := epFlush st }
  else
    match st.currentPath with
    | some _ => { st with currentLines := st.currentLines ++ [line] }
    | none => st

/-- Embedding of `extractPatchByFile` (filename → patch text from the first
hunk header on). -/
def extractPatchByFile (diffText : String) : List (String × String) :=
  epFlush ((splitLines diffText).foldl epStep epInit)

/-! ### LLM review result normalisation (`apps/api/src/github/client.ts`,
`apps/api/src/llm/types.ts`) -/

/-- The canonical "no issues" sentinel (`REVIEW_OK_COMMENT`). -/
def REVIEW_OK_COMMENT : String := "REVIEW_OK: No actionable issues found in changed lines."

/-- JS `path.replace(/^\.\//, "")`: strip one leading `./`. -/
def stripDotSlashOnce (s : String) : String :=
  if jsStartsWith s "./" then String.mk (s.data.drop 2) else s

/-- Search through candidate block sizes 1..half of
`dedupeConsecutiveDuplicateBlock`, returning the collapsed block on the
first size whose first/second (or first/third) block copies agree. -/
def dedupeGo (lines : List String) : Nat → Nat → Option String
  | 0, _ => none
  | fuel + 1, size =>
    let first := jsJoin "\n" (lines.take size)
    let second := jsJoin "\n" ((lines.drop size).take size)
    if first = second then some (jsTrim first)
    else
      let third := jsJoin "\n" ((lines.drop (2 * size)).take size)
      if third ≠ "" ∧ first = third then some (jsTrim first)
      else dedupeGo lines fuel (size + 1)

/-- Embedding of `dedupeConsecutiveDuplicateBlock`. -/
def dedupeConsecutiveDuplicateBlock (content : String) : String :=
  let lines := (splitLines (jsTrim content)).map jsTrimEnd
  if lines.length < 2 then jsTrim content
  else
    match dedupeGo lines (lines.length / 2) 1 with
    | some r => r
    | none => jsTrim content

/-- Embedding of `sanitizeSuggestionBody`: extract the first
triple-backtick `suggestion` fence, collapse repeated copies, enforce the
ten-line cap, and rebuild the body around the collapsed block. -/
def sanitizeSuggestionBody (body : String) : Option String :=
  if !jsIncludes body "```suggestion" then none
  else
    match findSubIdx (String.data ("```suggestion" ++ "\n")) body.data with
    | none => none
    | some i =>
      let rest := body.data.drop (i + 14)
      match findSubIdx (String.data ("\n" ++ "```")) rest with
      | none => none
      | some j =>
        let blockContent := String.mk (rest.take j)
        let cleanBlockContent := dedupeConsecutiveDuplicateBlock blockContent
        let lines := splitLines cleanBlockContent
        if lines.length = 0 ∨ lines.length > 10 then none
        else
          let matchLen := 14 + j + 4
          let before := String.mk (body.data.take i)
          let after := String.mk (body.data.drop (i + matchLen))
          some (jsTrim (before ++ "\n" ++ "```suggestion" ++ "\n" ++ cleanBlockContent
            ++ "\n" ++ "```" ++ after))

/-- `SuggestionCandidate` of `@workspace/shared`; `normalizeResult` only
admits positive integer lines, modelled as `Nat`. -/
structure SuggestionCandidate where
  path : String
  line : Nat
  body : String
deriving DecidableEq

/-- Raw engine suggestion item; `none` also models an absent or
wrongly-typed field. -/
structure RawSuggestionItem where
  path : Option String
  line : Option Int
  body : Option String
deriving DecidableEq

/-- Raw engine payload as consumed by `normalizeResult`. -/
structure RawReviewPayload where
  suggestions : List RawSuggestionItem
  overallStatus : Option String
  allowAutoApprove : Option Bool
  overallComment : Option String
deriving DecidableEq

inductive ReviewOverallStatus
  | ok
  | uncertain
deriving DecidableEq

/-- `ReviewSuggestionResult` of `apps/api/src/llm/types.ts`. -/
structure ReviewSuggestionResult where
  suggestions : List SuggestionCandidate
  overallStatus : Option ReviewOverallStatus
  allowAutoApprove : Option Bool
  overallComment : Option String
deriving DecidableEq

/-- The suggestion-filtering loop of `normalizeResult` (999-item cap,
checked after each push). -/
def normSuggestionsGo : List RawSuggestionItem → List SuggestionCandidate →
    List SuggestionCandidate
  | [], acc => acc
  | item :: rest, acc =>
    match item.path with
    | none => normSuggestionsGo rest acc
    | some p =>
      if p = "" then normSuggestionsGo rest acc
      else
        match item.line with
        | none => normSuggestionsGo rest acc
        | some l =>
          if l ≤ 0 then normSuggestionsGo rest acc
          else
            match item.body with
            | none => normSuggestionsGo rest acc
            | some b =>
              if b = "" then normSuggestionsGo rest acc
              else
                match sanitizeSuggestionBody b with
                | none => normSuggestionsGo rest acc
                | some safeBody =>
                  let acc' := acc ++ [⟨stripDotSlashOnce p, l.toNat, safeBody⟩]
                  if acc'.length ≥ 999 then acc' else normSuggestionsGo rest acc'

/-- Embedding of `normalizeResult`. -/
def normalizeResult (payload : RawReviewPayload) : ReviewSuggestionResult :=
  { suggestions := normSuggestionsGo payload.suggestions []
    overallStatus :=
      if payload.overallStatus = some "ok" then some .ok
      else if payload.overallStatus = some "uncertain" then some .uncertain
      else none
    allowAutoApprove := some (decide (payload.allowAutoApprove = some true))
    overallComment := payload.overallComment.map jsTrim }

/-- The auto-approval gate of `runReviewForPullRequest`
(`workers/process-pr.ts`): the review run calls the approval API exactly
when this condition holds of the engine result. -/
def canApprove (r : ReviewSuggestionResult) : Bool :=
  let explicitReviewOk :=
    match r.overallComment with
    | some c => decide (jsTrim c = REVIEW_OK_COMMENT)
    | none => false
  let explicitApprovalKey := decide (r.allowAutoApprove = some true)
  decide (r.overallStatus = some .ok) && decide (r.suggestions.length = 0)
    && (explicitReviewOk || explicitApprovalKey)

/-! ### Review payload assembly (`workers/process-pr.ts`) -/

/-- Changed-file descriptor; only the `filename` and `patch` fields are
consulted by the embedded code. -/
structure GitHubPullRequestFile where
  filename : String
  patch : Option String
deriving DecidableEq

/-- JS `normalizePath` of `workers/process-pr.ts`. -/
def normalizePath (path : String) : String :=
  String.mk (mapReplace '\\' '/' (stripDotSlashOnce path).data)

structure FallbackSuggestion where
  path : String
  line : Nat
  reason : String
deriving DecidableEq

structure ReviewCommentInput where
  path : String
  position : Nat
  body : String
deriving DecidableEq

def MAX_FALLBACK_SUGGESTIONS : Nat := 12

/-- Embedding of `buildFallbackSection`. -/
def buildFallbackSection (items : List FallbackSuggestion) : String :=
  let normalized := items.map
    (fun it => it.path ++ ":" ++ natDec it.line ++ " (" ++ it.reason ++ ")")
  let lines := (natDec items.length ++ " suggestion(s) could not be attached inline:") ::
    (normalized.take MAX_FALLBACK_SUGGESTIONS).map (fun l => "- " ++ l)
  let lines :=
    if normalized.length > MAX_FALLBACK_SUGGESTIONS then
      lines ++ ["- ... and " ++ natDec (normalized.length - MAX_FALLBACK_SUGGESTIONS) ++ " more"]
    else lines
  jsTrim (jsJoin "\n" lines)

/-- The file map of `buildReviewPayload`: each file is registered under its
raw and its normalised filename. -/
def buildFileMap (files : List GitHubPullRequestFile) :
    List (String × GitHubPullRequestFile) :=
  files.foldl
    (fun m file => mapSet (mapSet m file.filename file) (normalizePath file.filename) file) []

/-- JS `fileMap.get(path) ?? fileMap.get("./" + path)`. -/
def lookupFile (fileMap : List (String × GitHubPullRequestFile)) (path : String) :
    Option GitHubPullRequestFile :=
  match mapGet? fileMap path with
  | some f => some f
  | none => mapGet? fileMap ("./" ++ path)

/-- JS `!file || !file.patch`, as the patch the loop proceeds with:
`none` when the file is unknown or its patch is absent or empty. -/
def truthyPatch (fileMap : List (String × GitHubPullRequestFile)) (path : String) :
    Option String :=
  match lookupFile fileMap path with
  | none => none
  | some f =>
    match f.patch with
    | none => none
    | some p => if p = "" then none else some p

/-- String key `path:position:body` used by the inline-comment dedup set. -/
def commentKey (path : String) (position : Nat) (body : String) : String :=
  path ++ ":" ++ natDec position ++ ":" ++ body

/-- String key `path:line:tag` used by the fallback dedup set. -/
def fallbackKey (path : String) (line : Nat) (tag : String) : String :=
  path ++ ":" ++ natDec line ++ ":" ++ tag

/-- Loop state of `buildReviewPayload`. -/
structure BRPState where
  comments : List ReviewCommentInput
  fallbackItems : List FallbackSuggestion
  seen : List String
  fallbackSeen : List String
deriving DecidableEq

def brpInit : BRPState := ⟨[], [], [], []⟩

/-- The suggestion loop of `buildReviewPayload` (the `break` at twenty
pushed comments returns the state without touching later candidates). -/
def brpGo (fileMap : List (String × GitHubPullRequestFile)) :
    List SuggestionCandidate → BRPState → BRPState
  | [], st => st
  | sg :: rest, st =>
    let path := normalizePath sg.path
    match truthyPatch fileMap path with
    | none =>
      let key := fallbackKey path sg.line "missing-patch"
      if st.fallbackSeen.contains key then brpGo fileMap rest st
      else
        brpGo fileMap rest
          { st with
            fallbackSeen := st.fallbackSeen ++ [key]
            fallbackItems := st.fallbackItems ++ [⟨path, sg.line, "patch is unavailable"⟩] }
    | some patch =>
      let positionMap := buildAddedLineToPositionMap patch
      let pos? := mapGet? positionMap sg.line
      -- JS `if (!position)`: a missing lookup and a zero position are both falsy
      if pos?.getD 0 = 0 then
        let key := fallbackKey path sg.line "not-added"
        if st.fallbackSeen.contains key then brpGo fileMap rest st
        else
          brpGo fileMap rest
            { st with
              fallbackSeen := st.fallbackSeen ++ [key]
              fallbackItems :=
                st.fallbackItems ++ [⟨path, sg.line, "line is not an added diff line"⟩] }
      else
        let position := pos?.getD 0
        let key := commentKey path position sg.body
        if st.seen.contains key then brpGo fileMap rest st
        else
          let st' :=
            { st with
              seen := st.seen ++ [key]
              comments := st.comments ++ [⟨path, position, sg.body⟩] }
          if st'.comments.length ≥ 20 then st' else brpGo fileMap rest st'

structure ReviewPayload where
  comments : List ReviewCommentInput
  body : Option String
deriving DecidableEq

/-- Embedding of `buildReviewPayload`. -/
def buildReviewPayload (suggestions : List SuggestionCandidate)
    (overallComment : Option String) (files : List GitHubPullRequestFile) :
    Option ReviewPayload :=
  let fileMap := buildFileMap files
  let st := brpGo fileMap suggestions brpInit
  let bodyParts : List String :=
    match overallComment with
    | some c => if jsTrim c ≠ "" then [jsTrim c] else []
    | none => []
  let bodyParts :=
    if st.fallbackItems ≠ [] then bodyParts ++ [buildFallbackSection st.fallbackItems]
    else bodyParts
  let bodyParts :=
    if bodyParts.length = 0 ∧ st.comments.length > 0 then
      bodyParts ++ ["Automated review comments from @deniai-app."]
    else bodyParts
  let bodyStr := jsTrim (jsJoin ("\n" ++ "\n") bodyParts)
  let body : Option String := if bodyStr = "" then none else some bodyStr
  if st.comments.length = 0 ∧ body = none then none
  else some ⟨st.comments, body⟩

/-! ### Virtual IDE tool surface: shared path machinery
(`apps/api/src/virtual-ide/context.ts`, both profiles) -/

def listEndsWith (p s : List Char) : Bool := listStartsWith p.reverse s.reverse

/-- JS `s.endsWith(p)`. -/
def jsEndsWith (s p : String) : Bool := listEndsWith p.data s.data

def EXCLUDED_DIRS : List String :=
  [".git", "node_modules", "dist", "build", ".next", "coverage", ".cache", ".turbo"]

def DEFAULT_CONFIG_ALLOWLIST : List String :=
  ["package.json", "tsconfig.json", "tsconfig.base.json", "pnpm-workspace.yaml",
   "bunfig.toml", ".eslintrc.js", ".oxlintrc.json"]

/-- Embedding of `isHiddenSecretFile`. -/
def isHiddenSecretFile (fileName : String) : Bool :=
  let lower := jsToLower fileName
  jsStartsWith lower ".env" || jsEndsWith lower ".pem" || lower == "id_rsa"
    || jsStartsWith lower "credentials"

/-- Test of `^[a-zA-Z]:\//` (drive-letter path, after backslash replacement). -/
def hasDrivePrefixSlash (cs : List Char) : Bool :=
  match cs with
  | c :: ':' :: '/' :: _ => c.isAlpha
  | _ => false

/-- Embedding of `normalizeRepoRelativePath`; a thrown `Error` is `.error`. -/
def normalizeRepoRelativePath (inputPath : String) : Except String String :=
  let path := jsTrim (String.mk (mapReplace '\\' '/' inputPath.data))
  if path = "" ∨ path = "." then .ok "."
  else if jsStartsWith path "/" ∨ hasDrivePrefixSlash path.data then
    .error "Absolute paths are not allowed."
  else
    let segments := (splitChar '/' path.data).map String.mk
    if segments.contains ".." then .error "Path traversal is not allowed."
    else .ok (jsJoin "/" (segments.filter (fun s => s ≠ "")))

/-- Stack-based segment normalisation of POSIX `path.resolve`. -/
def resolveSegs : List String → List String → List String
  | [], acc => acc.reverse
  | s :: rest, acc =>
    if s = "" ∨ s = "." then resolveSegs rest acc
    else if s = ".." then resolveSegs rest acc.tail
    else resolveSegs rest (s :: acc)

/-- POSIX `path.resolve(root, rel)`, modelled for the absolute workdir
roots the service passes in. -/
def nodeResolve (root rel : String) : String :=
  let joined := if jsStartsWith rel "/" then rel else root ++ "/" ++ rel
  "/" ++ jsJoin "/" (resolveSegs ((splitChar '/' joined.data).map String.mk) [])

/-- POSIX `path.join(a, b)` for a resolved directory and an entry name. -/
def nodeJoin (a b : String) : String :=
  if jsEndsWith a "/" then a ++ b else a ++ "/" ++ b

/-- The `safeRoot` of `resolveRepoPath`: the root with a trailing separator
(`sep` is `/`, the service runs on POSIX). -/
def safeRoot (rootDir : String) : String :=
  if jsEndsWith rootDir "/" then rootDir else rootDir ++ "/"

/-- Embedding of `resolveRepoPath` (identical in both profiles). -/
def resolveRepoPath (rootDir repoRelativePath : String) : Except String String :=
  match normalizeRepoRelativePath repoRelativePath with
  | .error e => .error e
  | .ok normalized =>
    let candidate := if normalized = "." then rootDir else nodeResolve rootDir normalized
    if candidate ≠ rootDir ∧ ¬ jsStartsWith candidate (safeRoot rootDir) then
      .error "Path escaped repository root."
    else .ok candidate

def trimTrailingSlashes (cs : List Char) : List Char :=
  (cs.reverse.dropWhile (fun c => c = '/')).reverse

/-- POSIX `path.basename`. -/
def basename (p : String) : String :=
  let cs := trimTrailingSlashes p.data
  if cs.isEmpty then (if p.data.any (fun c => c = '/') then "/" else "")
  else String.mk ((cs.reverse.takeWhile (fun c => c ≠ '/')).reverse)

/-- POSIX `path.extname`, modelled for regular filenames (an all-dots
basename has no extension). -/
def extname (p : String) : String :=
  let b := (basename p).data
  if b.all (fun c => c = '.') then ""
  else
    match ((List.range b.length).filter
        (fun i => b.get? i = some '.' ∧ i ≠ 0)).getLast? with
    | none => ""
    | some i => String.mk (b.drop i)

/-! ### Filesystem model -/

/-- Filesystem node: a regular file with its text content, or a directory
whose entries carry the `Dirent.isDirectory` flag. -/
inductive FsNode
  | file (content : String)
  | dir (entries : List (String × Bool))
deriving DecidableEq

/-- Filesystem: absolute path → node; `none` is a missing path. -/
def Fs : Type := String → Option FsNode

def fsReaddir (fs : Fs) (p : String) : Except String (List (String × Bool)) :=
  match fs p with
  | some (.dir es) => .ok es
  | _ => .error "ENOTDIR: not a directory"

def fsStatIsFile (fs : Fs) (p : String) : Except String Bool :=
  match fs p with
  | some (.file _) => .ok true
  | some (.dir _) => .ok false
  | none => .error "ENOENT: no such file"

def fsReadFile (fs : Fs) (p : String) : Except String String :=
  match fs p with
  | some (.file c) => .ok c
  | some (.dir _) => .error "EISDIR: illegal operation on a directory"
  | none => .error "ENOENT: no such file"

/-- JS `content.split(/\r?\n/)`. -/
def splitCRLF (s : String) : List String :=
  (splitChar '\n' s.data).map (fun cs =>
    String.mk (if cs.getLast? = some '\r' then cs.dropLast else cs))

/-- The numbered window built by `readFile`
(`Math.max(1, startLine) - 1` up to `Math.min(lines.length, endLine)`). -/
def numberedWindow (lines : List String) (startLine endLine : Int) : List String :=
  let startIndex : Nat := (max 1 startLine - 1).toNat
  let endIndex : Int := min (lines.length : Int) endLine
  (List.range' startIndex (endIndex - (startIndex : Int)).toNat).map
    (fun i => natDec (i + 1) ++ "| " ++ ((lines.get? i).getD ""))

/-! ### The directory walk of `listDir` -/

def insertSorted (e : String × Bool) : List (String × Bool) → List (String × Bool)
  | [] => [e]
  | x :: t => if e.1 ≤ x.1 then e :: x :: t else x :: insertSorted e t

/-- Per-directory sort (JS `localeCompare`, modelled as code-point order;
the order never affects which entries appear). -/
def sortEntries (es : List (String × Bool)) : List (String × Bool) :=
  es.foldr insertSorted []

/-- The entry loop inside `walk`. The `descend` argument is the
continuation used for directory entries: it is `none` exactly when the
source's `entry.isDirectory() && depthLeft > 0` guard blocks the
recursion (`depthLeft = 0`), and `walk` at `depthLeft - 1` otherwise. -/
def walkEntries (resolvedMax : Nat)
    (descend : Option (String → String → List String → Except String (List String))) :
    List (String × Bool) → String → String → List String →
    Except String (List String)
  | [], _, _, output => .ok output
  | e :: rest, absoluteDir, currentRelative, output =>
    if output.length ≥ resolvedMax then .ok output
    else if EXCLUDED_DIRS.contains e.1 ∨ isHiddenSecretFile e.1 then
      walkEntries resolvedMax descend rest absoluteDir currentRelative output
    else
      let rel := if currentRelative = "." then e.1 else currentRelative ++ "/" ++ e.1
      let output2 := output ++ [if e.2 then rel ++ "/" else rel]
      match (if e.2 then descend else none) with
      | some f =>
        match f (nodeJoin absoluteDir e.1) rel output2 with
        | .error er => .error er
        | .ok output3 =>
          walkEntries resolvedMax descend rest absoluteDir currentRelative output3
      | none => walkEntries resolvedMax descend rest absoluteDir currentRelative output2

/-- The recursive `walk` closure of `listDir`: list one directory.
The `depthLeft < 0` early return of the source is unreachable because the
initial depth is clamped to `≥ 0` and descents are guarded by
`depthLeft > 0`. -/
def walkDir (fs : Fs) (resolvedMax : Nat) :
    Nat → String → String → List String → Except String (List String)
  | depthLeft, absoluteDir, currentRelative, output =>
    if output.length ≥ resolvedMax then .ok output
    else
      match fsReaddir fs absoluteDir with
      | .error e => .error e
      | .ok entries =>
        walkEntries resolvedMax
          (match depthLeft with
           | 0 => none
           | d + 1 => some (fun a r o => walkDir fs resolvedMax d a r o))
          (sortEntries entries) absoluteDir currentRelative output

/-- Core of `listDir` (shared by both profiles; the depth and entry clamps
differ and are passed in). -/
def listDirCore (fs : Fs) (rootDir path : String) (depth maxEntries : Int)
    (depthCap maxCap : Nat) : Except String (List String) :=
  let resolvedDepth : Nat := (max 0 (min depth (depthCap : Int))).toNat
  let resolvedMax : Nat := (max 1 (min maxEntries (maxCap : Int))).toNat
  match normalizeRepoRelativePath path with
  | .error e => .error e
  | .ok relative =>
    match resolveRepoPath rootDir relative with
    | .error e => .error e
    | .ok startDir =>
      walkDir fs resolvedMax resolvedDepth startDir
        (if relative = "" then "." else relative) []

/-! ### Security sink scanner: pattern matchers

Each regular expression of the scanner is hand-compiled into a matcher
over a tiny token language; all of them are backtracking-free because in
every pattern a greedy run (digits, identifier characters, whitespace,
`[^x]+`) is followed by a character that run can never consume. -/

/-- JS `\w` (the `$` of identifiers is not a word character). -/
def isWordChar (c : Char) : Bool :=
  (('a' ≤ c) && (c ≤ 'z')) || (('A' ≤ c) && (c ≤ 'Z')) ||
    (('0' ≤ c) && (c ≤ '9')) || (c == '_')

/-- Tokens covering the scanner's regular expressions. -/
inductive RTok
  | lit (s : String)
  | litCI (s : String)
  | ws0
  | ws1
  | anyOf (cs : List Char)
  | notPlus (c : Char)
  | wb

/-- Consume a case-sensitive literal. -/
def dropLit : List Char → List Char → Option (List Char)
  | [], s => some s
  | _ :: _, [] => none
  | p :: ps, c :: cs => if p = c then dropLit ps cs else none

/-- Consume a case-insensitive literal (pattern given in lower case). -/
def dropLitCI : List Char → List Char → Option (List Char)
  | [], s => some s
  | _ :: _, [] => none
  | p :: ps, c :: cs => if p = c.toLower then dropLitCI ps cs else none

def dropWs0 (s : List Char) : List Char := s.dropWhile (fun c => jsWsChar c)

/-- JS `\s+`: at least one whitespace character, consumed greedily. -/
def dropWs1 : List Char → Option (List Char)
  | [] => none
  | c :: r => if jsWsChar c then some (r.dropWhile (fun x => jsWsChar x)) else none

/-- Match a token list at the head of `s`; `prev` is the character before
the current position (for `\b`). -/
def matchToks : List RTok → Option Char → List Char → Bool
  | [], _, _ => true
  | .lit p :: ts, prev, s =>
    match dropLit p.data s with
    | none => false
    | some rest => matchToks ts (p.data.getLast?.orElse (fun _ => prev)) rest
  | .litCI p :: ts, prev, s =>
    match dropLitCI p.data s with
    | none => false
    | some rest => matchToks ts (p.data.getLast?.orElse (fun _ => prev)) rest
  | .ws0 :: ts, prev, s =>
    let s' := dropWs0 s
    matchToks ts (if s'.length < s.length then some ' ' else prev) s'
  | .ws1 :: ts, _, s =>
    match dropWs1 s with
    | none => false
    | some rest => matchToks ts (some ' ') rest
  | .anyOf cs :: ts, _, s =>
    match s with
    | [] => false
    | c :: r => if cs.contains c then matchToks ts (some c) r else false
  | .notPlus c :: ts, _, s =>
    let taken := s.takeWhile (fun x => x ≠ c)
    if taken = [] then false
    else matchToks ts taken.getLast? (s.drop taken.length)
  | .wb :: ts, prev, s =>
    let prevW := match prev with | some c => isWordChar c | none => false
    let curW := match s with | c :: _ => isWordChar c | [] => false
    if prevW != curW then matchToks ts prev s else false

/-- Word boundary between `prev` and the head of `s`. -/
def wbAt (prev : Option Char) (s : List Char) : Bool :=
  let prevW := match prev with | some c => isWordChar c | none => false
  let curW := match s with | c :: _ => isWordChar c | [] => false
  prevW != curW

def searchToksGo (toks : List RTok) (withWb : Bool) : Option Char → List Char → Bool
  | prev, [] => (!withWb || wbAt prev []) && matchToks toks prev []
  | prev, c :: r =>
    ((!withWb || wbAt prev (c :: r)) && matchToks toks prev (c :: r))
      || searchToksGo toks withWb (some c) r

/-- Unanchored search (JS `re.test(line)`): try every start position,
optionally requiring a word boundary before the match. -/
def searchToks (toks : List RTok) (withWb : Bool) (line : String) : Bool :=
  searchToksGo toks withWb none line.data

/-- A `\b`-delimited case-insensitive alternation. -/
def wordAltCI (alts : List String) (line : String) : Bool :=
  alts.any (fun a => searchToks [.litCI a, .wb] true line)

/-- `USER_INPUT_MARKERS`: hint and compiled test per marker. -/
def USER_INPUT_MARKERS : List (String × (String → Bool)) :=
  [("req.body", wordAltCI ["req.body", "req.rawbody"]),
   ("req.query", wordAltCI ["req.query"]),
   ("req.params", wordAltCI ["req.params"]),
   ("req.headers", wordAltCI ["req.headers", "req.header"]),
   ("req.cookies", wordAltCI ["req.cookies"]),
   ("req.path", wordAltCI ["req.path", "req.url", "req.originalurl"]),
   ("ctx", wordAltCI ["ctx.body", "ctx.query", "ctx.params", "c.body", "c.query", "c.params"]),
   ("search params",
     wordAltCI ["urlsearchparams", "location.search", "window.location", "document.location"]),
   ("request body/query object", fun line =>
     ["body", "query", "params", "cookies"].any (fun a =>
       searchToks [.litCI a, .lit "[", .notPlus ']', .lit "]"] true line))]

/-- `SANITIZER_PATTERNS` (the optional `Html` suffix of `sanitize` is the
second alternative). -/
def SANITIZER_PATTERNS : List (String → Bool) :=
  [wordAltCI ["dompurify"],
   wordAltCI ["sanitize", "sanitizehtml"],
   wordAltCI ["htmlescape"],
   wordAltCI ["encodeuricomponent"]]

/-- Embedding of `hasUserInputSource`. -/
def hasUserInputSource (line : String) : Bool :=
  USER_INPUT_MARKERS.any (fun m => m.2 line)

/-- Embedding of `extractUserInputHint` (first marker in declaration order). -/
def extractUserInputHint (line : String) : Option String :=
  (USER_INPUT_MARKERS.find? (fun m => m.2 line)).map (fun m => m.1)

inductive SecurityScanConfidence
  | low
  | medium
  | high
deriving DecidableEq

/-- Embedding of `inferConfidence`. -/
def inferConfidence (line : String) : SecurityScanConfidence :=
  if hasUserInputSource line then .high
  else if SANITIZER_PATTERNS.any (fun p => p line) then .low
  else .medium

def quoteChars : List Char := [Char.ofNat 34, Char.ofNat 39, Char.ofNat 96]

/-- `xssPatterns` (case-sensitive). -/
def xssPatterns : List (String → Bool) :=
  [fun l => searchToks [.lit "innerHTML", .ws0, .lit "="] true l,
   fun l => searchToks [.lit "dangerouslySetInnerHTML", .wb] true l,
   fun l => searchToks [.lit "srcdoc", .ws0, .lit "="] true l,
   fun l => searchToks [.lit "document.write", .ws0, .lit "("] true l]

/-- `injectionPatterns` (case-sensitive). -/
def injectionPatterns : List (String → Bool) :=
  [fun l => searchToks [.lit "eval", .ws0, .lit "("] true l,
   fun l => searchToks [.lit "new", .ws1, .lit "Function", .ws0, .lit "("] true l,
   fun l => ["setTimeout", "setInterval"].any (fun a =>
     searchToks [.lit a, .ws0, .lit "(", .ws0, .anyOf quoteChars] true l)]

/-- `pathTraversalPatterns` (case-sensitive). -/
def pathTraversalPatterns : List (String → Bool) :=
  [fun l => searchToks [.lit "path.join", .ws0, .lit "("] true l,
   fun l => searchToks [.lit "path.resolve", .ws0, .lit "("] true l,
   fun l => searchToks [.lit "path.normalize", .ws0, .lit "("] true l]

/-- Remove every lazily-matched `/* ... */` block, left to right
(first replace of `stripScanNoise`); the fuel is the input length. -/
def stripBlockCommentsGo (fuel : Nat) (cs : List Char) : List Char :=
  match fuel with
  | 0 => cs
  | fuel + 1 =>
    match findSubIdx ['/', '*'] cs with
    | none => cs
    | some i =>
      let rest := cs.drop (i + 2)
      match findSubIdx ['*', '/'] rest with
      | none => cs
      | some j => cs.take i ++ stripBlockCommentsGo fuel (rest.drop (j + 2))

/-- Second replace of `stripScanNoise`: drop from the first `//` on. -/
def stripLineComment (cs : List Char) : List Char :=
  match findSubIdx ['/', '/'] cs with
  | none => cs
  | some i => cs.take i

/-- Embedding of `stripScanNoise`. -/
def stripScanNoise (raw : String) : String :=
  jsTrim (String.mk (stripLineComment (stripBlockCommentsGo raw.data.length raw.data)))

/-! ### Security sink scanner: `child_process` alias tracking -/

def isIdentStart (c : Char) : Bool :=
  ('a' ≤ c && c ≤ 'z') || ('A' ≤ c && c ≤ 'Z') || c == '_' || c == Char.ofNat 36

def isIdentChar (c : Char) : Bool := isWordChar c || c == Char.ofNat 36

/-- `[A-Za-z_$][\w$]*`. -/
def identParse : List Char → Option (List Char × List Char)
  | [] => none
  | c :: t =>
    if isIdentStart c then
      let body := t.takeWhile isIdentChar
      some (c :: body, t.drop body.length)
    else none

/-- `["']`. -/
def dropQuote : List Char → Option (List Char)
  | [] => none
  | c :: r => if c = Char.ofNat 34 ∨ c = Char.ofNat 39 then some r else none

def lbrace : Char := Char.ofNat 123

def rbrace : Char := Char.ofNat 125

def dropChar (ch : Char) : List Char → Option (List Char)
  | [] => none
  | c :: r => if c = ch then some r else none

/-- `import\s+([A-Za-z_$][\w$]*)\s+from\s+["']child_process["']`. -/
def matchImportDefault (s : List Char) : Option (List Char × List Char) := do
  let s ← dropLit (String.data "import") s
  let s ← dropWs1 s
  let (a, s) ← identParse s
  let s ← dropWs1 s
  let s ← dropLit (String.data "from") s
  let s ← dropWs1 s
  let s ← dropQuote s
  let s ← dropLit (String.data "child_process") s
  let s ← dropQuote s
  pure (a, s)

/-- `import\s+\*\s+as\s+([A-Za-z_$][\w$]*)\s+from\s+["']child_process["']`. -/
def matchNamespaceImport (s : List Char) : Option (List Char × List Char) := do
  let s ← dropLit (String.data "import") s
  let s ← dropWs1 s
  let s ← dropChar '*' s
  let s ← dropWs1 s
  let s ← dropLit (String.data "as") s
  let s ← dropWs1 s
  let (a, s) ← identParse s
  let s ← dropWs1 s
  let s ← dropLit (String.data "from") s
  let s ← dropWs1 s
  let s ← dropQuote s
  let s ← dropLit (String.data "child_process") s
  let s ← dropQuote s
  pure (a, s)

/-- `import\s*\{([^}]+)\}\s*from\s+["']child_process["']` (captures the
brace content). -/
def matchNamedImport (s : List Char) : Option (List Char × List Char) := do
  let s ← dropLit (String.data "import") s
  let s := dropWs0 s
  let s ← dropChar lbrace s
  let cap := s.takeWhile (fun c => c ≠ rbrace)
  if cap = [] then none else
  let s ← dropChar rbrace (s.drop cap.length)
  let s := dropWs0 s
  let s ← dropLit (String.data "from") s
  let s ← dropWs1 s
  let s ← dropQuote s
  let s ← dropLit (String.data "child_process") s
  let s ← dropQuote s
  pure (cap, s)

def keywordAlt (s : List Char) : Option (List Char) :=
  (dropLit (String.data "const") s).orElse (fun _ =>
    (dropLit (String.data "let") s).orElse (fun _ =>
      dropLit (String.data "var") s))

/-- `(?:const|let|var)\s+([A-Za-z_$][\w$]*)\s*=\s*require\(["']child_process["']\)`. -/
def matchCjsRequireAlias (s : List Char) : Option (List Char × List Char) := do
  let s ← keywordAlt s
  let s ← dropWs1 s
  let (a, s) ← identParse s
  let s := dropWs0 s
  let s ← dropChar '=' s
  let s := dropWs0 s
  let s ← dropLit (String.data "require(") s
  let s ← dropQuote s
  let s ← dropLit (String.data "child_process") s
  let s ← dropQuote s
  let s ← dropChar ')' s
  pure (a, s)

/-- `(?:const|let|var)\s*\{([^}]+)\}\s*=\s*require\(["']child_process["']\)`. -/
def matchCjsRequireDestructure (s : List Char) : Option (List Char × List Char) := do
  let s ← keywordAlt s
  let s := dropWs0 s
  let s ← dropChar lbrace s
  let cap := s.takeWhile (fun c => c ≠ rbrace)
  if cap = [] then none else
  let s ← dropChar rbrace (s.drop cap.length)
  let s := dropWs0 s
  let s ← dropChar '=' s
  let s := dropWs0 s
  let s ← dropLit (String.data "require(") s
  let s ← dropQuote s
  let s ← dropLit (String.data "child_process") s
  let s ← dropQuote s
  let s ← dropChar ')' s
  pure (cap, s)

/-- Collect the successive non-overlapping matches of a pattern, as the
`exec` loop with the `g` flag does. -/
def scanAll (m : List Char → Option (List Char × List Char)) :
    Nat → List Char → List (List Char)
  | 0, _ => []
  | fuel + 1, s =>
    match m s with
    | some (cap, rest) => cap :: scanAll m fuel rest
    | none =>
      match s with
      | [] => []
      | _ :: t => scanAll m fuel t

/-- First position where a sub-pattern matches (plain `exec`). -/
def scanFirst {α : Type} (m : List Char → Option α) : List Char → Option α
  | [] => m []
  | c :: t =>
    match m (c :: t) with
    | some r => some r
    | none => scanFirst m t

/-- `([A-Za-z_$][\w$]*)\s+as\s+([A-Za-z_$][\w$]*)` with the `i` flag;
returns the second capture. -/
def matchAsRebind (s : List Char) : Option (List Char) := do
  let (_, s) ← identParse s
  let s ← dropWs1 s
  let s ← dropLitCI (String.data "as") s
  let s ← dropWs1 s
  let (g2, _) ← identParse s
  pure g2

/-- `([A-Za-z_$][\w$]*)\s*:\s*([A-Za-z_$][\w$]*)` with the `i` flag;
returns the second capture. -/
def matchColonRebind (s : List Char) : Option (List Char) := do
  let (_, s) ← identParse s
  let s := dropWs0 s
  let s ← dropChar ':' s
  let s := dropWs0 s
  let (g2, _) ← identParse s
  pure g2

structure ChildProcessAliasSet where
  objectAliases : List String
  functionAliases : List String
deriving DecidableEq

/-- JS `Set.add`: append when not yet present. -/
def setAdd (xs : List String) (x : String) : List String :=
  if xs.contains x then xs else xs ++ [x]

/-- Process one comma-separated token of a named import or destructuring
list: an `as`/`:` rebinding contributes its right-hand name, otherwise the
first whitespace-separated word is added. -/
def addNamedToken (rebind : List Char → Option (List Char))
    (fa : List String) (tok : List Char) : List String :=
  let t := trimLeftList (trimRightList tok)
  if t = [] then fa
  else
    match scanFirst rebind t with
    | some g2 => setAdd fa (String.mk g2)
    | none => setAdd fa (String.mk (t.takeWhile (fun c => ¬ jsWsChar c)))

/-- Embedding of `collectChildProcessAliases` (two-pass alias analysis,
first pass). -/
def collectChildProcessAliases (lines : List String) : ChildProcessAliasSet :=
  lines.foldl
    (fun al rawLine =>
      let cs := rawLine.data
      let fuel := cs.length + 1
      let obj := (scanAll matchImportDefault fuel cs
          ++ scanAll matchNamespaceImport fuel cs
          ++ scanAll matchCjsRequireAlias fuel cs).foldl
        (fun o a => setAdd o (String.mk a)) al.objectAliases
      let fn1 := (scanAll matchNamedImport fuel cs).foldl
        (fun f cap => (splitChar ',' cap).foldl (addNamedToken matchAsRebind) f)
        al.functionAliases
      let fn2 := (scanAll matchCjsRequireDestructure fuel cs).foldl
        (fun f cap => (splitChar ',' cap).foldl (addNamedToken matchColonRebind) f)
        fn1
      { objectAliases := obj, functionAliases := fn2 })
    { objectAliases := ["child_process"], functionAliases := [] }

def COMMAND_CALL_METHODS : List String := ["exec", "spawn", "execSync", "spawnSync"]

/-- Embedding of `hasChildProcessCall`; `escapeRegExp` makes the aliases
plain literals, so alias alternation is a disjunction of literal
matches. -/
def hasChildProcessCall (line : String) (aliases : ChildProcessAliasSet) : Bool :=
  let objectHit :=
    if aliases.objectAliases.isEmpty then false
    else aliases.objectAliases.any (fun a =>
      COMMAND_CALL_METHODS.any (fun m =>
        searchToks [.lit a, .lit ".", .lit m, .ws0, .lit "("] true line))
  if objectHit then true
  else if aliases.functionAliases.isEmpty then false
  else aliases.functionAliases.any (fun a =>
    searchToks [.lit a, .ws0, .lit "("] true line)

/-! ### Security sink scanner: the scan itself -/

structure SecuritySinkFinding where
  path : String
  line : Nat
  category : String
  excerpt : String
  confidence : SecurityScanConfidence
  sourceHint : Option String
deriving DecidableEq

def SECURITY_SCAN_EXTENSIONS : List String := [".js", ".jsx", ".ts", ".tsx", ".mjs", ".cjs"]

/-- Embedding of `isScannableFile`. -/
def isScannableFile (path : String) : Bool :=
  SECURITY_SCAN_EXTENSIONS.contains (jsToLower (extname path))

/-- The per-line loop of `scanSecuritySinks` over one file's lines
(`i` is the zero-based index of the head line). -/
def scanLinesGo (path : String) (aliases : ChildProcessAliasSet) :
    Nat → List String → List SecuritySinkFinding → List String →
    List SecuritySinkFinding × List String
  | _, [], findings, seen => (findings, seen)
  | i, rawLine :: rest, findings, seen =>
    let line := stripScanNoise rawLine
    if line = "" then scanLinesGo path aliases (i + 1) rest findings seen
    else
      let hasSource := hasUserInputSource line
      let confidence := inferConfidence line
      let sourceHint := extractUserInputHint line
      if xssPatterns.any (fun p => p line) then
        if confidence = .low then scanLinesGo path aliases (i + 1) rest findings seen
        else
          let key := path ++ ":" ++ natDec (i + 1) ++ ":xss"
          if seen.contains key then scanLinesGo path aliases (i + 1) rest findings seen
          else
            scanLinesGo path aliases (i + 1) rest
              (findings ++ [⟨path, i + 1, "xss", jsSliceTo line 260,
                if hasSource then .high else .medium, sourceHint⟩])
              (seen ++ [key])
      else if injectionPatterns.any (fun p => p line) then
        if confidence = .low then scanLinesGo path aliases (i + 1) rest findings seen
        else
          let key := path ++ ":" ++ natDec (i + 1) ++ ":injection"
          if seen.contains key then scanLinesGo path aliases (i + 1) rest findings seen
          else
            scanLinesGo path aliases (i + 1) rest
              (findings ++ [⟨path, i + 1, "injection", jsSliceTo line 260,
                confidence, sourceHint⟩])
              (seen ++ [key])
      else if hasChildProcessCall line aliases then
        let key := path ++ ":" ++ natDec (i + 1) ++ ":cmd"
        if seen.contains key then scanLinesGo path aliases (i + 1) rest findings seen
        else
          scanLinesGo path aliases (i + 1) rest
            (findings ++ [⟨path, i + 1, "cmd-injection", jsSliceTo line 260,
              if hasSource then .high else .medium, sourceHint⟩])
            (seen ++ [key])
      else if pathTraversalPatterns.any (fun p => p line) ∧ hasSource then
        let key := path ++ ":" ++ natDec (i + 1) ++ ":path"
        if seen.contains key then scanLinesGo path aliases (i + 1) rest findings seen
        else
          scanLinesGo path aliases (i + 1) rest
            (findings ++ [⟨path, i + 1, "path-traversal", jsSliceTo line 260,
              .high, sourceHint⟩])
            (seen ++ [key])
      else scanLinesGo path aliases (i + 1) rest findings seen

/-- The per-file loop of `scanSecuritySinks`; I/O failures skip the file. -/
def scanFilesGo (fs : Fs) (root : String) :
    List String → List SecuritySinkFinding → List String → List SecuritySinkFinding
  | [], findings, _ => findings
  | path :: rest, findings, seen =>
    if ¬ isScannableFile path then scanFilesGo fs root rest findings seen
    else
      match resolveRepoPath root path with
      | .error _ => scanFilesGo fs root rest findings seen
      | .ok abs =>
        match fsStatIsFile fs abs with
        | .error _ => scanFilesGo fs root rest findings seen
        | .ok false => scanFilesGo fs root rest findings seen
        | .ok true =>
          match fsReadFile fs abs with
          | .error _ => scanFilesGo fs root rest findings seen
          | .ok content =>
            let lines := splitCRLF content
            let aliases := collectChildProcessAliases lines
            let p := scanLinesGo path aliases 0 lines findings seen
            scanFilesGo fs root rest p.1 p.2

/-- Core of `scanSecuritySinks` (budget handling lives in the calling
session). -/
def scanSecuritySinksCore (fs : Fs) (root : String) (changed : List String) :
    List SecuritySinkFinding :=
  scanFilesGo fs root changed [] []

/-! ### Session plumbing shared by both tool-surface profiles -/

/-- `VirtualIdeOptions` (same shape in both profiles). -/
structure VirtualIdeOptions where
  rootDir : String
  changedFiles : List GitHubPullRequestFile
  allowConfigRead : Bool

def dedupKeepFirstGo (seen : List String) : List String → List String
  | [] => []
  | x :: t =>
    if seen.contains x then dedupKeepFirstGo seen t
    else x :: dedupKeepFirstGo (seen ++ [x]) t

/-- JS `Set` built from a list: first occurrences, in insertion order. -/
def dedupKeepFirst (xs : List String) : List String := dedupKeepFirstGo [] xs

/-- The `changedFileSet` field. -/
def changedFileSet (o : VirtualIdeOptions) : List String :=
  dedupKeepFirst (o.changedFiles.map (fun f => f.filename))

/-- Embedding of `isAllowedReadPath` (identical in both profiles). -/
def isAllowedReadPath (o : VirtualIdeOptions) (path : String) : Bool :=
  if (changedFileSet o).contains path then true
  else if !o.allowConfigRead then false
  else DEFAULT_CONFIG_ALLOWLIST.contains (basename path)

structure SearchHit where
  path : String
  line : Nat
  excerpt : String
deriving DecidableEq

/-- The line loop of `searchText` in one file; the `Bool` signals the
early `return hits` that ends the whole search. -/
def searchFileLines (path q : String) (resolvedMax : Nat) :
    Nat → List String → List SearchHit → List SearchHit × Bool
  | _, [], hits => (hits, false)
  | idx, l :: rest, hits =>
    if !jsIncludes (jsToLower l) q then searchFileLines path q resolvedMax (idx + 1) rest hits
    else
      let hits2 := hits ++ [⟨path, idx + 1, jsSliceTo (jsTrim l) 240⟩]
      if hits2.length ≥ resolvedMax then (hits2, true)
      else searchFileLines path q resolvedMax (idx + 1) rest hits2

/-- The file loop of `searchText`; per-file I/O failures skip the file. -/
def searchFilesGo (fs : Fs) (root q : String) (resolvedMax : Nat) :
    List String → List SearchHit → List SearchHit
  | [], hits => hits
  | path :: rest, hits =>
    if isHiddenSecretFile (basename path) then searchFilesGo fs root q resolvedMax rest hits
    else
      match resolveRepoPath root path with
      | .error _ => searchFilesGo fs root q resolvedMax rest hits
      | .ok abs =>
        match fsStatIsFile fs abs with
        | .error _ => searchFilesGo fs root q resolvedMax rest hits
        | .ok false => searchFilesGo fs root q resolvedMax rest hits
        | .ok true =>
          match fsReadFile fs abs with
          | .error _ => searchFilesGo fs root q resolvedMax rest hits
          | .ok content =>
            match searchFileLines path q resolvedMax 0 (splitCRLF content) hits with
            | (hits2, true) => hits2
            | (hits2, false) => searchFilesGo fs root q resolvedMax rest hits2

def guidelineFiles : List String := ["SECURITY.md", "PRODUCT.md", "README.md", "CONTRIBUTING.md"]

/-- Core of `readGuidelineDocs`: unreadable files map to `""`. -/
def readGuidelineDocsCore (fs : Fs) (root : String) : List (String × String) :=
  guidelineFiles.map (fun file =>
    (file,
      match resolveRepoPath root file with
      | .error _ => ""
      | .ok abs =>
        match fsReadFile fs abs with
        | .error _ => ""
        | .ok content => content))

/-- Raw tool-call arguments; `none` models an absent field. -/
structure RawArgs where
  path : Option String
  depth : Option Int
  max_entries : Option Int
  start_line : Option Int
  end_line : Option Int
  query : Option String
  max_results : Option Int
deriving DecidableEq

def noArgs : RawArgs := ⟨none, none, none, none, none, none, none⟩

/-- JS truthiness of an optional string argument. -/
def argTruthyStr : Option String → Bool
  | some s => s != ""
  | none => false

/-- JS truthiness of an optional numeric argument (zero is falsy). -/
def argTruthyInt : Option Int → Bool
  | some n => n != 0
  | none => false

inductive ToolOutput
  | strings (xs : List String)
  | files (fs : List GitHubPullRequestFile)
  | text (s : String)
  | hits (hs : List SearchHit)
  | docs (ds : List (String × String))
  | findings (fs : List SecuritySinkFinding)
deriving DecidableEq

def orderingErrorMsg : String := "list_dir must be called first once with depth=3."

/-! ### Conservative profile (`VirtualIdeTools`, first variant) -/

namespace Conservative

structure ToolBudgets where
  listDir : Int
  readFile : Int
  searchText : Int
  readGuideline : Int
deriving DecidableEq

def initialBudgets : ToolBudgets := ⟨3, 8, 5, 2⟩

inductive BKind
  | listDir
  | readFile
  | searchText
  | readGuideline
deriving DecidableEq

def getB (b : ToolBudgets) : BKind → Int
  | .listDir => b.listDir
  | .readFile => b.readFile
  | .searchText => b.searchText
  | .readGuideline => b.readGuideline

def setB (b : ToolBudgets) : BKind → Int → ToolBudgets
  | .listDir, v => { b with listDir := v }
  | .readFile, v => { b with readFile := v }
  | .searchText, v => { b with searchText := v }
  | .readGuideline, v => { b with readGuideline := v }

def kindName : BKind → String
  | .listDir => "listDir"
  | .readFile => "readFile"
  | .searchText => "searchText"
  | .readGuideline => "readGuideline"

/-- Embedding of `ensureBudget`: decrement first, then fail when the
stored counter has gone negative; the decrement survives the throw. -/
def ensureBudget (b : ToolBudgets) (tool : BKind) : Except String Unit × ToolBudgets :=
  let b2 := setB b tool (getB b tool - 1)
  if getB b2 tool < 0 then
    (.error ("Tool budget exceeded for " ++ kindName tool ++ "."), b2)
  else (.ok (), b2)

structure SessionState where
  budgets : ToolBudgets
  totalReadLines : Int
  totalCalls : Nat
deriving DecidableEq

def initialState : SessionState := ⟨initialBudgets, 0, 0⟩

/-- Conservative `listDir` (depth clamp 10, entry clamp 2000). -/
def listDirOp (fs : Fs) (o : VirtualIdeOptions) (s : SessionState)
    (path : String) (depth maxEntries : Int) :
    Except String (List String) × SessionState :=
  match ensureBudget s.budgets .listDir with
  | (.error e, b2) => (.error e, { s with budgets := b2 })
  | (.ok _, b2) =>
    (listDirCore fs o.rootDir path depth maxEntries 10 2000, { s with budgets := b2 })

/-- Conservative `readFile`: 200-line span cap and 2000-line cumulative
cap, checked before any filesystem access. -/
def readFileOp (fs : Fs) (o : VirtualIdeOptions) (s : SessionState)
    (path : String) (startLine endLine : Int) :
    Except String String × SessionState :=
  match ensureBudget s.budgets .readFile with
  | (.error e, b2) => (.error e, { s with budgets := b2 })
  | (.ok _, b2) =>
    let s := { s with budgets := b2 }
    if endLine < startLine then (.error "end_line must be >= start_line.", s)
    else
      let requestedLineCount := endLine - startLine + 1
      if requestedLineCount > 200 then
        (.error "read_file can read at most 200 lines per call.", s)
      else
        match normalizeRepoRelativePath path with
        | .error e => (.error e, s)
        | .ok relativePath =>
          if !isAllowedReadPath o relativePath then
            (.error ("read_file is restricted to changed files by default: " ++ relativePath), s)
          else if isHiddenSecretFile (basename relativePath) then
            (.error "Access denied.", s)
          else if s.totalReadLines + requestedLineCount > 2000 then
            (.error "read_file total line budget exceeded (2000 lines per PR).", s)
          else
            match resolveRepoPath o.rootDir relativePath with
            | .error e => (.error e, s)
            | .ok absolutePath =>
              match fsReadFile fs absolutePath with
              | .error e => (.error e, s)
              | .ok content =>
                let lines := splitCRLF content
                (.ok (jsJoin "\n" (numberedWindow lines startLine endLine)),
                  { s with totalReadLines := s.totalReadLines + requestedLineCount })

/-- Conservative `searchText` (result clamp 50). -/
def searchTextOp (fs : Fs) (o : VirtualIdeOptions) (s : SessionState)
    (query : String) (maxResults : Int) :
    Except String (List SearchHit) × SessionState :=
  match ensureBudget s.budgets .searchText with
  | (.error e, b2) => (.error e, { s with budgets := b2 })
  | (.ok _, b2) =>
    let resolvedMax : Nat := (max 1 (min maxResults 50)).toNat
    (.ok (searchFilesGo fs o.rootDir (jsToLower query) resolvedMax (changedFileSet o) []),
      { s with budgets := b2 })

/-- Embedding of `ensureGuidelineBudget` (its message differs from
`ensureBudget`'s). -/
def ensureGuidelineBudget (b : ToolBudgets) : Except String Unit × ToolBudgets :=
  let b2 := { b with readGuideline := b.readGuideline - 1 }
  if b2.readGuideline < 0 then
    (.error "Tool budget exceeded for read_guidelines.", b2)
  else (.ok (), b2)

def readGuidelinesOp (fs : Fs) (o : VirtualIdeOptions) (s : SessionState) :
    Except String (List (String × String)) × SessionState :=
  match ensureGuidelineBudget s.budgets with
  | (.error e, b2) => (.error e, { s with budgets := b2 })
  | (.ok _, b2) => (.ok (readGuidelineDocsCore fs o.rootDir), { s with budgets := b2 })

/-- The `switch` of `call` (after the ordering guard and counter bump). -/
def dispatch (fs : Fs) (o : VirtualIdeOptions) (s : SessionState)
    (toolName : String) (args : RawArgs) : Except String ToolOutput × SessionState :=
  if toolName = "list_dir" then
    match listDirOp fs o s (args.path.getD ".") (args.depth.getD 3) (args.max_entries.getD 400) with
    | (.ok xs, s2) => (.ok (.strings xs), s2)
    | (.error e, s2) => (.error e, s2)
  else if toolName = "get_changed_files" then (.ok (.files o.changedFiles), s)
  else if toolName = "read_file" then
    if !argTruthyStr args.path || !argTruthyInt args.start_line
        || !argTruthyInt args.end_line then
      (.error "read_file requires path, start_line, end_line.", s)
    else
      match readFileOp fs o s (args.path.getD "") (args.start_line.getD 0)
          (args.end_line.getD 0) with
      | (.ok t, s2) => (.ok (.text t), s2)
      | (.error e, s2) => (.error e, s2)
  else if toolName = "search_text" then
    if !argTruthyStr args.query then (.error "search_text requires query.", s)
    else
      match searchTextOp fs o s (args.query.getD "") (args.max_results.getD 20) with
      | (.ok hs, s2) => (.ok (.hits hs), s2)
      | (.error e, s2) => (.error e, s2)
  else if toolName = "read_guidelines" then
    match readGuidelinesOp fs o s with
    | (.ok ds, s2) => (.ok (.docs ds), s2)
    | (.error e, s2) => (.error e, s2)
  else (.error ("Unknown tool: " ++ toolName), s)

/-- Embedding of `VirtualIdeTools.call` (conservative profile): the
ordering guard throws before the call counter is bumped; afterwards the
counter is bumped before the tool body runs. -/
def call (fs : Fs) (o : VirtualIdeOptions) (s : SessionState)
    (toolName : String) (args : RawArgs) : Except String ToolOutput × SessionState :=
  if s.totalCalls = 0 ∧ toolName ≠ "list_dir" then (.error orderingErrorMsg, s)
  else dispatch fs o { s with totalCalls := s.totalCalls + 1 } toolName args

end Conservative

/-! ### High-budget profile (`VirtualIdeTools`, second variant) -/

namespace High

structure ToolBudgets where
  listDir : Int
  readFile : Int
  searchText : Int
  readGuideline : Int
  securityScan : Int
deriving DecidableEq

def initialBudgets : ToolBudgets := ⟨200, 2000, 200, 20, 50⟩

inductive BKind
  | listDir
  | readFile
  | searchText
  | readGuideline
  | securityScan
deriving DecidableEq

def getB (b : ToolBudgets) : BKind → Int
  | .listDir => b.listDir
  | .readFile => b.readFile
  | .searchText => b.searchText
  | .readGuideline => b.readGuideline
  | .securityScan => b.securityScan

def setB (b : ToolBudgets) : BKind → Int → ToolBudgets
  | .listDir, v => { b with listDir := v }
  | .readFile, v => { b with readFile := v }
  | .searchText, v => { b with searchText := v }
  | .readGuideline, v => { b with readGuideline := v }
  | .securityScan, v => { b with securityScan := v }

def kindName : BKind → String
  | .listDir => "listDir"
  | .readFile => "readFile"
  | .searchText => "searchText"
  | .readGuideline => "readGuideline"
  | .securityScan => "securityScan"

/-- Embedding of `ensureBudget` (same decrement-then-check shape as the
conservative profile). -/
def ensureBudget (b : ToolBudgets) (tool : BKind) : Except String Unit × ToolBudgets :=
  let b2 := setB b tool (getB b tool - 1)
  if getB b2 tool < 0 then
    (.error ("Tool budget exceeded for " ++ kindName tool ++ "."), b2)
  else (.ok (), b2)

structure SessionState where
  budgets : ToolBudgets
  totalCalls : Nat
deriving DecidableEq

def initialState : SessionState := ⟨initialBudgets, 0⟩

/-- High-budget `listDir` (depth clamp 24, entry clamp 10000). -/
def listDirOp (fs : Fs) (o : VirtualIdeOptions) (s : SessionState)
    (path : String) (depth maxEntries : Int) :
    Except String (List String) × SessionState :=
  match ensureBudget s.budgets .listDir with
  | (.error e, b2) => (.error e, { s with budgets := b2 })
  | (.ok _, b2) =>
    (listDirCore fs o.rootDir path depth maxEntries 24 10000, { s with budgets := b2 })

/-- High-budget `readFile`: no per-call span cap and no cumulative
read-line cap. -/
def readFileOp (fs : Fs) (o : VirtualIdeOptions) (s : SessionState)
    (path : String) (startLine endLine : Int) :
    Except String String × SessionState :=
  match ensureBudget s.budgets .readFile with
  | (.error e, b2) => (.error e, { s with budgets := b2 })
  | (.ok _, b2) =>
    let s := { s with budgets := b2 }
    if endLine < startLine then (.error "end_line must be >= start_line.", s)
    else
      match normalizeRepoRelativePath path with
      | .error e => (.error e, s)
      | .ok relativePath =>
        if !isAllowedReadPath o relativePath then
          (.error ("read_file is restricted to changed files by default: " ++ relativePath), s)
        else if isHiddenSecretFile (basename relativePath) then
          (.error "Access denied.", s)
        else
          match resolveRepoPath o.rootDir relativePath with
          | .error e => (.error e, s)
          | .ok absolutePath =>
            match fsReadFile fs absolutePath with
            | .error e => (.error e, s)
            | .ok content =>
              let lines := splitCRLF content
              (.ok (jsJoin "\n" (numberedWindow lines startLine endLine)), s)

/-- High-budget `searchText` (result clamp 1000). -/
def searchTextOp (fs : Fs) (o : VirtualIdeOptions) (s : SessionState)
    (query : String) (maxResults : Int) :
    Except String (List SearchHit) × SessionState :=
  match ensureBudget s.budgets .searchText with
  | (.error e, b2) => (.error e, { s with budgets := b2 })
  | (.ok _, b2) =>
    let resolvedMax : Nat := (max 1 (min maxResults 1000)).toNat
    (.ok (searchFilesGo fs o.rootDir (jsToLower query) resolvedMax (changedFileSet o) []),
      { s with budgets := b2 })

/-- Embedding of `ensureGuidelineBudget`. -/
def ensureGuidelineBudget (b : ToolBudgets) : Except String Unit × ToolBudgets :=
  let b2 := { b with readGuideline := b.readGuideline - 1 }
  if b2.readGuideline < 0 then
    (.error "Tool budget exceeded for read_guidelines.", b2)
  else (.ok (), b2)

def readGuidelinesOp (fs : Fs) (o : VirtualIdeOptions) (s : SessionState) :
    Except String (List (String × String)) × SessionState :=
  match ensureGuidelineBudget s.budgets with
  | (.error e, b2) => (.error e, { s with budgets := b2 })
  | (.ok _, b2) => (.ok (readGuidelineDocsCore fs o.rootDir), { s with budgets := b2 })

def scanSecuritySinksOp (fs : Fs) (o : VirtualIdeOptions) (s : SessionState) :
    Except String (List SecuritySinkFinding) × SessionState :=
  match ensureBudget s.budgets .securityScan with
  | (.error e, b2) => (.error e, { s with budgets := b2 })
  | (.ok _, b2) =>
    (.ok (scanSecuritySinksCore fs o.rootDir (changedFileSet o)), { s with budgets := b2 })

/-- The `switch` of `call` (high-budget profile adds
`scan_security_sinks`). -/
def dispatch (fs : Fs) (o : VirtualIdeOptions) (s : SessionState)
    (toolName : String) (args : RawArgs) : Except String ToolOutput × SessionState :=
  if toolName = "list_dir" then
    match listDirOp fs o s (args.path.getD ".") (args.depth.getD 3) (args.max_entries.getD 400) with
    | (.ok xs, s2) => (.ok (.strings xs), s2)
    | (.error e, s2) => (.error e, s2)
  else if toolName = "get_changed_files" then (.ok (.files o.changedFiles), s)
  else if toolName = "read_file" then
    if !argTruthyStr args.path || !argTruthyInt args.start_line
        || !argTruthyInt args.end_line then
      (.error "read_file requires path, start_line, end_line.", s)
    else
      match readFileOp fs o s (args.path.getD "") (args.start_line.getD 0)
          (args.end_line.getD 0) with
      | (.ok t, s2) => (.ok (.text t), s2)
      | (.error e, s2) => (.error e, s2)
  else if toolName = "search_text" then
    if !argTruthyStr args.query then (.error "search_text requires query.", s)
    else
      match searchTextOp fs o s (args.query.getD "") (args.max_results.getD 20) with
      | (.ok hs, s2) => (.ok (.hits hs), s2)
      | (.error e, s2) => (.error e, s2)
  else if toolName = "read_guidelines" then
    match readGuidelinesOp fs o s with
    | (.ok ds, s2) => (.ok (.docs ds), s2)
    | (.error e, s2) => (.error e, s2)
  else if toolName = "scan_security_sinks" then
    match scanSecuritySinksOp fs o s with
    | (.ok fds, s2) => (.ok (.findings fds), s2)
    | (.error e, s2) => (.error e, s2)
  else (.error ("Unknown tool: " ++ toolName), s)

/-- Embedding of `VirtualIdeTools.call` (high-budget profile). -/
def call (fs : Fs) (o : VirtualIdeOptions) (s : SessionState)
    (toolName : String) (args : RawArgs) : Except String ToolOutput × SessionState :=
  if s.totalCalls = 0 ∧ toolName ≠ "list_dir" then (.error orderingErrorMsg, s)
  else dispatch fs o { s with totalCalls := s.totalCalls + 1 } toolName args

end High

/-! ### Helper lemmas -/

theorem startsWith_cons {l p : String} {c : Char} {cs : List Char} (hp : p.data = c :: cs)
    (h : jsStartsWith l p = true) : ∃ t, l.data = c :: t ∧ listStartsWith cs t = true := by
  unfold jsStartsWith at h
  rw [hp] at h
  cases hd : l.data with
  | nil => rw [hd] at h; simp [listStartsWith] at h
  | cons b bs =>
    rw [hd] at h
    unfold listStartsWith at h
    by_cases hcb : c = b
    · subst hcb; exact ⟨bs, rfl, by simpa using h⟩
    · rw [if_neg hcb] at h; cases h

/-! ### Test fixtures (concrete filesystems and option records used by
closed witnesses and counterexamples) -/

/-- Fixture: an empty repository at `/repo`. -/
def fsEmptyRepo : Fs := fun p => if p = "/repo" then some (.dir []) else none

/-- Fixture: a repository whose only file is the changed file `a.ts`. -/
def fsRepoA : Fs := fun p =>
  if p = "/repo" then some (.dir [("a.ts", false)])
  else if p = "/repo/a.ts" then some (.file "hello\nworld req\nthird")
  else none

/-- Fixture options binding `fsRepoA`'s changed file. -/
def optsA : VirtualIdeOptions :=
  ⟨"/repo", [⟨"a.ts", some "@@ -1,1 +1,1 @@\n-a\n+b"⟩], false⟩

/-! ### C1: the auto-approval gate -/

/-- C1: a review run auto-approves exactly when the engine result's
`overallStatus` is `ok`, its suggestion list is empty, and either the
trimmed `overallComment` equals the `REVIEW_OK` sentinel or
`allowAutoApprove` is exactly `true`; and any raw engine payload whose
status field is missing or not `"ok"` — even one with
`allowAutoApprove: true` — normalises to a result the gate rejects. -/
theorem C1_auto_approval_gate :
    (∀ r : ReviewSuggestionResult,
      canApprove r = true ↔
        (r.overallStatus = some .ok ∧ r.suggestions = [] ∧
          ((∃ c, r.overallComment = some c ∧ jsTrim c = REVIEW_OK_COMMENT) ∨
            r.allowAutoApprove = some true))) ∧
    (∀ p : RawReviewPayload, p.overallStatus ≠ some "ok" →
      canApprove (normalizeResult p) = false) := by
  constructor
  · intro r
    unfold canApprove
    cases hc : r.overallComment with
    | none =>
      simp [hc, List.length_eq_zero]
      tauto
    | some c =>
      simp [hc, List.length_eq_zero]
      tauto
  · intro p hp
    unfold canApprove normalizeResult
    simp only [if_neg hp]
    by_cases h2 : p.overallStatus = some "uncertain" <;> simp [h2]

/-- C1 witness: the gate rejects a concrete `uncertain` payload that sets
the approval flag, and accepts a concrete all-clear result. -/
theorem C1_auto_approval_gate_witness :
    canApprove (normalizeResult ⟨[], some "uncertain", some true, some "fine"⟩) = false ∧
    canApprove ⟨[], some .ok, some true, some "irrelevant"⟩ = true :=
  ⟨C1_auto_approval_gate.2 ⟨[], some "uncertain", some true, some "fine"⟩ (by decide),
   (C1_auto_approval_gate.1 ⟨[], some .ok, some true, some "irrelevant"⟩).mpr
     ⟨rfl, rfl, Or.inr rfl⟩⟩

/-! ### C7: budget counters -/

theorem Conservative.getB_setB_same_cons (b : Conservative.ToolBudgets)
    (k : Conservative.BKind) (v : Int) :
    Conservative.getB (Conservative.setB b k v) k = v := by
  cases k <;> rfl

theorem High.getB_setB_same_high (b : High.ToolBudgets) (k : High.BKind) (v : Int) :
    High.getB (High.setB b k v) k = v := by
  cases k <;> rfl

/-- C7 counterexample: on a fresh conservative session, the fourth
`list_dir` call fails with the budget error but leaves the stored
`listDir` counter at `-1`, which is negative — the counter is not kept
non-negative. -/
theorem C7_budget_counter_counterexample :
    (Conservative.call fsEmptyRepo optsA
        ((Conservative.call fsEmptyRepo optsA
          ((Conservative.call fsEmptyRepo optsA
            ((Conservative.call fsEmptyRepo optsA Conservative.initialState
              "list_dir" noArgs).2)
            "list_dir" noArgs).2)
          "list_dir" noArgs).2)
        "list_dir" noArgs).1 = .error "Tool budget exceeded for listDir." ∧
    (Conservative.call fsEmptyRepo optsA
        ((Conservative.call fsEmptyRepo optsA
          ((Conservative.call fsEmptyRepo optsA
            ((Conservative.call fsEmptyRepo optsA Conservative.initialState
              "list_dir" noArgs).2)
            "list_dir" noArgs).2)
          "list_dir" noArgs).2)
        "list_dir" noArgs).2.budgets.listDir = -1 := by
  constructor
  · rfl
  · rfl

/-- C7 amended: every attempted call of a kind decrements that kind's
stored counter by exactly one (also on failure — the decrement is not
rolled back and not clamped); the call fails with the budget-exceeded
error exactly when the decremented counter is negative, so the counter is
never negative after a successful call of that kind. -/
theorem C7_budget_counter_amended :
    (∀ (b : Conservative.ToolBudgets) (k : Conservative.BKind),
      (Conservative.ensureBudget b k).2 =
          Conservative.setB b k (Conservative.getB b k - 1) ∧
        ((Conservative.ensureBudget b k).1 =
            .error ("Tool budget exceeded for " ++ Conservative.kindName k ++ ".") ↔
          Conservative.getB b k - 1 < 0) ∧
        ((Conservative.ensureBudget b k).1 = .ok () ↔ 0 ≤ Conservative.getB b k - 1)) ∧
    (∀ (b : High.ToolBudgets) (k : High.BKind),
      (High.ensureBudget b k).2 = High.setB b k (High.getB b k - 1) ∧
        ((High.ensureBudget b k).1 =
            .error ("Tool budget exceeded for " ++ High.kindName k ++ ".") ↔
          High.getB b k - 1 < 0) ∧
        ((High.ensureBudget b k).1 = .ok () ↔ 0 ≤ High.getB b k - 1)) := by
  constructor
  · intro b k
    simp only [Conservative.ensureBudget, Conservative.getB_setB_same_cons]
    by_cases h : Conservative.getB b k - 1 < 0
    · rw [if_pos h]
      refine ⟨rfl, ?_, ?_⟩
      · simpa using h
      · simp
        omega
    · rw [if_neg h]
      refine ⟨rfl, ?_, ?_⟩
      · simp
        omega
      · simp
        omega
  · intro b k
    simp only [High.ensureBudget, High.getB_setB_same_high]
    by_cases h : High.getB b k - 1 < 0
    · rw [if_pos h]
      refine ⟨rfl, ?_, ?_⟩
      · simpa using h
      · simp
        omega
    · rw [if_neg h]
      refine ⟨rfl, ?_, ?_⟩
      · simp
        omega
      · simp
        omega

/-! ### C6: read_file caps -/

/-- True exactly on `Except.error`. -/
def isErr {α : Type} : Except String α → Bool
  | .error _ => true
  | .ok _ => false

theorem Conservative.listDirOp_totalCalls_cons (fs : Fs) (o : VirtualIdeOptions)
    (s : Conservative.SessionState) (p : String) (d m : Int) :
    (Conservative.listDirOp fs o s p d m).2.totalCalls = s.totalCalls := by
  unfold Conservative.listDirOp
  rcases hE : Conservative.ensureBudget s.budgets .listDir with ⟨r, b2⟩
  cases r <;> simp

theorem High.listDirOp_totalCalls_high (fs : Fs) (o : VirtualIdeOptions)
    (s : High.SessionState) (p : String) (d m : Int) :
    (High.listDirOp fs o s p d m).2.totalCalls = s.totalCalls := by
  unfold High.listDirOp
  rcases hE : High.ensureBudget s.budgets .listDir with ⟨r, b2⟩
  cases r <;> simp

/-- C6 counterexample: on the high-budget profile, a `read_file` call with
a 201-line span (which exceeds the conservative 200-line per-call cap)
succeeds and returns file content — the high-budget `readFile` has no
per-call span cap at all. -/
theorem C6_span_cap_counterexample :
    (High.readFileOp fsRepoA optsA High.initialState "a.ts" 1 201).1 =
      .ok ("1| hello" ++ "\n" ++ "2| world req" ++ "\n" ++ "3| third") ∧
    (201 : Int) - 1 + 1 > 200 := by
  exact ⟨rfl, by decide⟩

/-- C6 amended: on the conservative profile, a `read_file` call whose span
exceeds the 200-line per-call cap (or has `end_line < start_line`) fails
with an error and touches no file — its outcome does not depend on the
filesystem; on the high-budget profile only the `end_line < start_line`
rejection exists, and it equally precedes any read. -/
theorem C6_read_file_caps_amended :
    (∀ (fs fs' : Fs) (o : VirtualIdeOptions) (s : Conservative.SessionState)
        (path : String) (a b : Int), b < a ∨ b - a + 1 > 200 →
      Conservative.readFileOp fs o s path a b = Conservative.readFileOp fs' o s path a b ∧
      isErr (Conservative.readFileOp fs o s path a b).1 = true) ∧
    (∀ (fs fs' : Fs) (o : VirtualIdeOptions) (s : High.SessionState)
        (path : String) (a b : Int), b < a →
      High.readFileOp fs o s path a b = High.readFileOp fs' o s path a b ∧
      isErr (High.readFileOp fs o s path a b).1 = true) := by
  constructor
  · intro fs fs' o s path a b hab
    unfold Conservative.readFileOp
    rcases hE : Conservative.ensureBudget s.budgets .readFile with ⟨r, b2⟩
    cases r with
    | error e => simp [isErr]
    | ok u =>
      by_cases h1 : b < a
      · simp [if_pos h1, isErr]
      · have h2 : b - a + 1 > 200 := by omega
        simp [if_neg h1, if_pos h2, isErr]
  · intro fs fs' o s path a b hab
    unfold High.readFileOp
    rcases hE : High.ensureBudget s.budgets .readFile with ⟨r, b2⟩
    cases r with
    | error e => simp [isErr]
    | ok u => simp [if_pos hab, isErr]

/-- C6 witness: a concrete conservative call with a 250-line span fails,
and its outcome is the same under two different filesystems. -/
theorem C6_read_file_caps_witness :
    Conservative.readFileOp fsRepoA optsA Conservative.initialState "a.ts" 1 250 =
      Conservative.readFileOp fsEmptyRepo optsA Conservative.initialState "a.ts" 1 250 ∧
    isErr (Conservative.readFileOp fsRepoA optsA Conservative.initialState "a.ts" 1 250).1
      = true ∧
    High.readFileOp fsRepoA optsA High.initialState "a.ts" 7 2 =
      High.readFileOp fsEmptyRepo optsA High.initialState "a.ts" 7 2 := by
  refine ⟨?_, ?_, ?_⟩
  · exact (C6_read_file_caps_amended.1 fsRepoA fsEmptyRepo optsA Conservative.initialState
      "a.ts" 1 250 (by right; decide)).1
  · exact (C6_read_file_caps_amended.1 fsRepoA fsEmptyRepo optsA Conservative.initialState
      "a.ts" 1 250 (by right; decide)).2
  · exact (C6_read_file_caps_amended.2 fsRepoA fsEmptyRepo optsA High.initialState
      "a.ts" 7 2 (by decide)).1

/-! ### C10: the ordering guard and the call counter -/

/-- C10: the `list_dir`-first check is keyed on the total-call counter,
which is bumped after the guard and before the tool body: a first call
that is not `list_dir` fails with the ordering error and leaves the state
(and hence the counter) untouched; a first `list_dir` call sets the
counter to `1` whatever its own outcome; and once the counter is nonzero
the guard can never fire again — every call is handed straight to the
dispatcher. -/
theorem C10_ordering_guard :
    (∀ (fs : Fs) (o : VirtualIdeOptions) (s : Conservative.SessionState) (tool : String)
        (args : RawArgs), s.totalCalls = 0 → tool ≠ "list_dir" →
      Conservative.call fs o s tool args = (.error orderingErrorMsg, s)) ∧
    (∀ (fs : Fs) (o : VirtualIdeOptions) (s : Conservative.SessionState) (args : RawArgs),
      s.totalCalls = 0 →
      (Conservative.call fs o s "list_dir" args).2.totalCalls = 1) ∧
    (∀ (fs : Fs) (o : VirtualIdeOptions) (s : Conservative.SessionState) (tool : String)
        (args : RawArgs), s.totalCalls ≠ 0 →
      Conservative.call fs o s tool args =
        Conservative.dispatch fs o { s with totalCalls := s.totalCalls + 1 } tool args) ∧
    (∀ (fs : Fs) (o : VirtualIdeOptions) (s : High.SessionState) (tool : String)
        (args : RawArgs), s.totalCalls = 0 → tool ≠ "list_dir" →
      High.call fs o s tool args = (.error orderingErrorMsg, s)) ∧
    (∀ (fs : Fs) (o : VirtualIdeOptions) (s : High.SessionState) (args : RawArgs),
      s.totalCalls = 0 →
      (High.call fs o s "list_dir" args).2.totalCalls = 1) ∧
    (∀ (fs : Fs) (o : VirtualIdeOptions) (s : High.SessionState) (tool : String)
        (args : RawArgs), s.totalCalls ≠ 0 →
      High.call fs o s tool args =
        High.dispatch fs o { s with totalCalls := s.totalCalls + 1 } tool args) := by
  refine ⟨?_, ?_, ?_, ?_, ?_, ?_⟩
  · intro fs o s tool args hs ht
    rw [Conservative.call, if_pos ⟨hs, ht⟩]
  · intro fs o s args hs
    rw [Conservative.call, if_neg (by simp)]
    unfold Conservative.dispatch
    rw [if_pos rfl]
    rcases hL : Conservative.listDirOp fs o { s with totalCalls := s.totalCalls + 1 }
      (args.path.getD ".") (args.depth.getD 3) (args.max_entries.getD 400) with ⟨r, s2⟩
    have := Conservative.listDirOp_totalCalls_cons fs o { s with totalCalls := s.totalCalls + 1 }
      (args.path.getD ".") (args.depth.getD 3) (args.max_entries.getD 400)
    rw [hL] at this
    cases r <;> simp_all
  · intro fs o s tool args hs
    rw [Conservative.call, if_neg (by tauto)]
  · intro fs o s tool args hs ht
    rw [High.call, if_pos ⟨hs, ht⟩]
  · intro fs o s args hs
    rw [High.call, if_neg (by simp)]
    unfold High.dispatch
    rw [if_pos rfl]
    rcases hL : High.listDirOp fs o { s with totalCalls := s.totalCalls + 1 }
      (args.path.getD ".") (args.depth.getD 3) (args.max_entries.getD 400) with ⟨r, s2⟩
    have := High.listDirOp_totalCalls_high fs o { s with totalCalls := s.totalCalls + 1 }
      (args.path.getD ".") (args.depth.getD 3) (args.max_entries.getD 400)
    rw [hL] at this
    cases r <;> simp_all
  · intro fs o s tool args hs
    rw [High.call, if_neg (by tauto)]

/-- C10 witness: on a fresh session a `read_file` call fails with the
ordering error and leaves the counter at zero; a first `list_dir` call —
here one that itself fails on path validation — still sets the counter to
one; afterwards a call is dispatched directly. -/
theorem C10_ordering_guard_witness :
    Conservative.call fsEmptyRepo optsA Conservative.initialState "read_file" noArgs =
      (.error orderingErrorMsg, Conservative.initialState) ∧
    (Conservative.call fsEmptyRepo optsA Conservative.initialState "list_dir"
      { noArgs with path := some "../etc" }).2.totalCalls = 1 ∧
    High.call fsEmptyRepo optsA { High.initialState with totalCalls := 1 }
        "scan_security_sinks" noArgs =
      High.dispatch fsEmptyRepo optsA
        { High.initialState with totalCalls := 2 } "scan_security_sinks" noArgs := by
  refine ⟨?_, ?_, ?_⟩
  · exact C10_ordering_guard.1 fsEmptyRepo optsA Conservative.initialState "read_file" noArgs
      rfl (by decide)
  · exact C10_ordering_guard.2.1 fsEmptyRepo optsA Conservative.initialState
      { noArgs with path := some "../etc" } rfl
  · exact C10_ordering_guard.2.2.2.2.2 fsEmptyRepo optsA
      { High.initialState with totalCalls := 1 } "scan_security_sinks" noArgs (by decide)

/-! ### C3: position-map replay -/

theorem posStep_backslash (st : PosState) (l : String)
    (h : jsStartsWith l "\\" = true) : posStep st l = st := by
  obtain ⟨t, ht, -⟩ := startsWith_cons (show ("\\" : String).data = '\\' :: [] from rfl) h
  have h0 : jsStartsWith l "@@ " = false := by unfold jsStartsWith; rw [ht]; rfl
  unfold posStep
  rw [h0]
  simp only [Bool.false_eq_true, if_false]
  by_cases ha : st.hasActiveHunk
  · rw [ha]
    simp [h]
  · rw [Bool.not_eq_true] at ha
    rw [ha]
    simp

theorem posStep_inactive (st : PosState) (l : String)
    (ha : st.hasActiveHunk = false)
    (hp : jsStartsWith l "@@ " = true → parseHunkHeader l = none) :
    posStep st l = st := by
  unfold posStep
  by_cases hc : jsStartsWith l "@@ " = true
  · rw [if_pos hc, hp hc]
  · rw [if_neg hc, ha]
    simp

theorem posRun_inactive (lines : List String) (st : PosState)
    (ha : st.hasActiveHunk = false)
    (hp : ∀ l ∈ lines, jsStartsWith l "@@ " = true → parseHunkHeader l = none) :
    lines.foldl posStep st = st := by
  induction lines with
  | nil => rfl
  | cons l ls ih =>
    rw [List.foldl_cons, posStep_inactive st l ha (hp l (by simp))]
    exact ih (fun x hx hsw => hp x (by simp [hx]) hsw)

/-- C3: the worked two-hunk example yields exactly `{1 → 2, 11 → 4}`; a
patch without a parsable hunk header yields the empty map; a `\`
no-newline marker line changes nothing wherever it occurs; and inside an
active hunk an added line bumps the position, records `newLine → position`
and bumps `newLine`, a removed line bumps only the position, a context
line bumps both counters, and a later hunk header only reseeds `newLine`
from its `+newStart` field. -/
theorem C3_position_map_replay :
    buildAddedLineToPositionMap
        "@@ -1,1 +1,1 @@\n-a\n+b\n@@ -10,2 +10,3 @@\n c\n+d\n e" = [(1, 2), (11, 4)] ∧
    (∀ patch : String,
      (∀ l ∈ splitLines patch, jsStartsWith l "@@ " = true → parseHunkHeader l = none) →
      buildAddedLineToPositionMap patch = []) ∧
    (∀ (st : PosState) (pre post : List String) (l : String), jsStartsWith l "\\" = true →
      (pre ++ l :: post).foldl posStep st = (pre ++ post).foldl posStep st) ∧
    (∀ (st : PosState) (l : String), st.hasActiveHunk = true →
      (jsStartsWith l "+" = true → jsStartsWith l "+++" = false →
        posStep st l = ⟨st.newLine + 1, st.hasActiveHunk, st.position + 1,
          mapSet st.map st.newLine (st.position + 1)⟩) ∧
      (jsStartsWith l "-" = true → jsStartsWith l "---" = false →
        posStep st l = ⟨st.newLine, st.hasActiveHunk, st.position + 1, st.map⟩) ∧
      (jsStartsWith l " " = true →
        posStep st l = ⟨st.newLine + 1, st.hasActiveHunk, st.position + 1, st.map⟩) ∧
      (∀ h : HunkHeader, jsStartsWith l "@@ " = true → parseHunkHeader l = some h →
        posStep st l = ⟨h.newStart, true, st.position, st.map⟩)) := by
  refine ⟨?_, ?_, ?_, ?_⟩
  · rfl
  · intro patch hp
    unfold buildAddedLineToPositionMap
    rw [posRun_inactive (splitLines patch) posInit rfl hp]
    rfl
  · intro st pre post l h
    rw [List.foldl_append, List.foldl_cons, posStep_backslash _ l h, ← List.foldl_append]
  · intro st l hact
    refine ⟨?_, ?_, ?_, ?_⟩
    · intro h1 h3
      obtain ⟨t, ht, -⟩ := startsWith_cons (show ("+" : String).data = '+' :: [] from rfl) h1
      have h0 : jsStartsWith l "@@ " = false := by unfold jsStartsWith; rw [ht]; rfl
      have hb : jsStartsWith l "\\" = false := by unfold jsStartsWith; rw [ht]; rfl
      unfold posStep
      rw [h0, hact, hb, h1, h3]
      simp
    · intro h1 h3
      obtain ⟨t, ht, -⟩ := startsWith_cons (show ("-" : String).data = '-' :: [] from rfl) h1
      have h0 : jsStartsWith l "@@ " = false := by unfold jsStartsWith; rw [ht]; rfl
      have hb : jsStartsWith l "\\" = false := by unfold jsStartsWith; rw [ht]; rfl
      have hplus : jsStartsWith l "+" = false := by unfold jsStartsWith; rw [ht]; rfl
      unfold posStep
      rw [h0, hact, hb, hplus, h1, h3]
      simp
    · intro h1
      obtain ⟨t, ht, -⟩ := startsWith_cons (show (" " : String).data = ' ' :: [] from rfl) h1
      have h0 : jsStartsWith l "@@ " = false := by unfold jsStartsWith; rw [ht]; rfl
      have hb : jsStartsWith l "\\" = false := by unfold jsStartsWith; rw [ht]; rfl
      have hplus : jsStartsWith l "+" = false := by unfold jsStartsWith; rw [ht]; rfl
      have hminus : jsStartsWith l "-" = false := by unfold jsStartsWith; rw [ht]; rfl
      unfold posStep
      rw [h0, hact, hb, hplus, hminus, h1]
      simp
    · intro h hsw hparse
      unfold posStep
      rw [hsw, hparse]
      simp

/-- C3 witness: the empty-map clause at a concrete headerless patch, the
inertness clause at a concrete marker line, and the added-line rule at a
concrete active state. -/
theorem C3_position_map_replay_witness :
    buildAddedLineToPositionMap "no header\n+x" = [] ∧
    ([" a"] ++ ["\\ No newline at end of file"] ++ ["+b"]).foldl posStep posInit =
      ([" a"] ++ ["+b"]).foldl posStep posInit ∧
    posStep ⟨5, true, 7, []⟩ "+zz" = ⟨6, true, 8, [(5, 8)]⟩ := by
  refine ⟨?_, ?_, ?_⟩
  · exact C3_position_map_replay.2.1 "no header\n+x" (by decide)
  · exact C3_position_map_replay.2.2.1 posInit [" a"] ["+b"]
      "\\ No newline at end of file" (by decide)
  · have h := C3_position_map_replay.2.2.2 ⟨5, true, 7, []⟩ "+zz" rfl
    exact h.1 (by decide) (by decide)

/-! ### C8: list_dir exclusions -/

/-- The `rel` construction of the walk (`currentRelative` extended by an
entry name). -/
def relChild (rel name : String) : String :=
  if rel = "." then name else rel ++ "/" ++ name

def relJoin (rel : String) (segs : List String) : String := segs.foldl relChild rel

/-- Every segment is neither an excluded directory nor secret-shaped. -/
def CleanSegs (segs : List String) : Prop :=
  ∀ sg ∈ segs, sg ∉ EXCLUDED_DIRS ∧ isHiddenSecretFile sg = false

/-- A listing entry lying strictly below the requested start, reached only
through clean names (possibly with the directory marker suffix). -/
def GoodEntry (rel0 e : String) : Prop :=
  ∃ segs, segs ≠ [] ∧ CleanSegs segs ∧
    (e = relJoin rel0 segs ∨ e = relJoin rel0 segs ++ "/")

/-- A `currentRelative` the walk can be at: the start itself or a clean
extension of it. -/
def GoodDir (rel0 rel : String) : Prop :=
  rel = rel0 ∨ ∃ segs, segs ≠ [] ∧ CleanSegs segs ∧ rel = relJoin rel0 segs

theorem relJoin_append_one (rel0 : String) (segs : List String) (x : String) :
    relJoin rel0 (segs ++ [x]) = relChild (relJoin rel0 segs) x := by
  unfold relJoin
  rw [List.foldl_append]
  rfl

theorem goodDir_child (rel0 rel name : String) (h : GoodDir rel0 rel)
    (hc : name ∉ EXCLUDED_DIRS ∧ isHiddenSecretFile name = false) :
    ∃ segs, segs ≠ [] ∧ CleanSegs segs ∧ relChild rel name = relJoin rel0 segs := by
  rcases h with h | ⟨segs, hne, hcl, hrel⟩
  · refine ⟨[name], by simp, ?_, ?_⟩
    · intro sg hsg
      simp only [List.mem_singleton] at hsg
      rw [hsg]
      exact hc
    · rw [h]
      rfl
  · refine ⟨segs ++ [name], by simp, ?_, ?_⟩
    · intro sg hsg
      rcases List.mem_append.mp hsg with h1 | h2
      · exact hcl sg h1
      · simp only [List.mem_singleton] at h2
        rw [h2]
        exact hc
    · rw [relJoin_append_one, hrel]

theorem walkEntries_good (resolvedMax : Nat)
    (descend : Option (String → String → List String → Except String (List String)))
    (rel0 : String)
    (hdesc : ∀ f, descend = some f → ∀ a r o out2, GoodDir rel0 r →
      (∀ e ∈ o, GoodEntry rel0 e) → f a r o = .ok out2 → ∀ e ∈ out2, GoodEntry rel0 e) :
    ∀ (es : List (String × Bool)) (absoluteDir rel : String) (output out' : List String),
      GoodDir rel0 rel → (∀ e ∈ output, GoodEntry rel0 e) →
      walkEntries resolvedMax descend es absoluteDir rel output = .ok out' →
      ∀ e ∈ out', GoodEntry rel0 e := by
  intro es
  induction es with
  | nil =>
    intro a rel output out' _ hout hw
    simp only [walkEntries, Except.ok.injEq] at hw
    subst hw
    exact hout
  | cons ent rest ih =>
    intro a rel output out' hrel hout hw
    simp only [walkEntries] at hw
    by_cases hmax : output.length ≥ resolvedMax
    · rw [if_pos hmax] at hw
      simp only [Except.ok.injEq] at hw
      subst hw
      exact hout
    · rw [if_neg hmax] at hw
      by_cases hfilter : EXCLUDED_DIRS.contains ent.1 = true ∨ isHiddenSecretFile ent.1 = true
      · rw [if_pos hfilter] at hw
        exact ih a rel output out' hrel hout hw
      · rw [if_neg hfilter] at hw
        push_neg at hfilter
        have hclean : ent.1 ∉ EXCLUDED_DIRS ∧ isHiddenSecretFile ent.1 = false := by
          constructor
          · intro hm
            exact hfilter.1 (List.contains_iff_exists_mem_beq.mpr ⟨ent.1, hm, by simp⟩)
          · simpa using hfilter.2
        obtain ⟨segs2, hne2, hcl2, hrel2⟩ := goodDir_child rel0 rel ent.1 hrel hclean
        have hgood2 : ∀ e ∈ output ++ [if ent.2 then relChild rel ent.1 ++ "/"
            else relChild rel ent.1], GoodEntry rel0 e := by
          intro e he
          rcases List.mem_append.mp he with h1 | h2
          · exact hout e h1
          · simp only [List.mem_singleton] at h2
            subst h2
            by_cases hd : ent.2 = true
            · rw [if_pos hd]
              exact ⟨segs2, hne2, hcl2, Or.inr (by rw [hrel2])⟩
            · rw [if_neg hd]
              exact ⟨segs2, hne2, hcl2, Or.inl (by rw [hrel2])⟩
        cases hD : (if ent.2 then descend else none) with
        | none =>
          rw [hD] at hw
          exact ih a rel _ out' hrel hgood2 hw
        | some f =>
          rw [hD] at hw
          have hdf : descend = some f := by
            by_cases hd : ent.2 = true
            · rw [if_pos hd] at hD
              exact hD
            · rw [if_neg hd] at hD
              cases hD
          have hw2 : (match f (nodeJoin a ent.1) (relChild rel ent.1)
              (output ++ [if ent.2 then relChild rel ent.1 ++ "/"
                else relChild rel ent.1]) with
            | Except.error er => Except.error er
            | Except.ok output3 => walkEntries resolvedMax descend rest a rel output3)
              = Except.ok out' := hw
          cases hcall : f (nodeJoin a ent.1) (relChild rel ent.1)
              (output ++ [if ent.2 then relChild rel ent.1 ++ "/" else relChild rel ent.1]) with
          | error er =>
            rw [hcall] at hw2
            cases hw2
          | ok out3 =>
            rw [hcall] at hw2
            have hgood3 := hdesc f hdf (nodeJoin a ent.1) (relChild rel ent.1) _ out3
              (Or.inr ⟨segs2, hne2, hcl2, hrel2⟩) hgood2 hcall
            exact ih a rel out3 out' hrel hgood3 hw2

theorem walkDir_good (fs : Fs) (resolvedMax : Nat) (rel0 : String) :
    ∀ (depth : Nat) (absoluteDir rel : String) (output out' : List String),
      GoodDir rel0 rel → (∀ e ∈ output, GoodEntry rel0 e) →
      walkDir fs resolvedMax depth absoluteDir rel output = .ok out' →
      ∀ e ∈ out', GoodEntry rel0 e := by
  intro depth
  induction depth with
  | zero =>
    intro a rel output out' hrel hout hw
    simp only [walkDir] at hw
    by_cases hmax : output.length ≥ resolvedMax
    · rw [if_pos hmax] at hw
      simp only [Except.ok.injEq] at hw
      subst hw
      exact hout
    · rw [if_neg hmax] at hw
      cases hrd : fsReaddir fs a with
      | error e => rw [hrd] at hw; cases hw
      | ok entries =>
        rw [hrd] at hw
        exact walkEntries_good resolvedMax none rel0 (fun f hf => by cases hf)
          (sortEntries entries) a rel output out' hrel hout hw
  | succ d ihd =>
    intro a rel output out' hrel hout hw
    simp only [walkDir] at hw
    by_cases hmax : output.length ≥ resolvedMax
    · rw [if_pos hmax] at hw
      simp only [Except.ok.injEq] at hw
      subst hw
      exact hout
    · rw [if_neg hmax] at hw
      cases hrd : fsReaddir fs a with
      | error e => rw [hrd] at hw; cases hw
      | ok entries =>
        rw [hrd] at hw
        refine walkEntries_good resolvedMax
          (some (fun a2 r2 o2 => walkDir fs resolvedMax d a2 r2 o2)) rel0 ?_
          (sortEntries entries) a rel output out' hrel hout hw
        intro f hf a2 r2 o2 out2 hr2 ho2 hcall
        cases hf
        exact ihd a2 r2 o2 out2 hr2 ho2 hcall

/-- Fixture: a repository whose only content is `.git/config`. -/
def fsDotGit : Fs := fun p =>
  if p = "/repo" then some (.dir [(".git", true)])
  else if p = "/repo/.git" then some (.dir [("config", false)])
  else if p = "/repo/.git/config" then some (.file "secrets")
  else none

/-- C8 counterexample: `list_dir` called with path `.git` returns
`.git/config` — an entry located underneath the excluded `.git`
directory — so the listing is not free of entries under excluded
directories for every path argument. -/
theorem C8_excluded_dirs_counterexample :
    listDirCore fsDotGit "/repo" ".git" 3 400 10 2000 = .ok [".git/config"] ∧
    ".git" ∈ EXCLUDED_DIRS ∧
    jsStartsWith ".git/config" (".git" ++ "/") = true := by
  exact ⟨rfl, by decide, by decide⟩

/-- C8 amended: every entry of a successful `list_dir` listing lies
strictly below the requested (normalised) start path and is reached only
through name components that are neither in the excluded-directory set nor
secret-shaped — in particular its own final name component is clean; when
the requested path itself lies inside an excluded directory (e.g. `.git`),
the listing may still expose that subtree. -/
theorem C8_excluded_dirs_amended (fs : Fs) (rootDir path : String)
    (depth maxEntries : Int) (depthCap maxCap : Nat) (out : List String)
    (h : listDirCore fs rootDir path depth maxEntries depthCap maxCap = .ok out) :
    ∃ rel, normalizeRepoRelativePath path = .ok rel ∧
      ∀ e ∈ out, ∃ segs, segs ≠ [] ∧
        (∀ sg ∈ segs, sg ∉ EXCLUDED_DIRS ∧ isHiddenSecretFile sg = false) ∧
        (e = relJoin (if rel = "" then "." else rel) segs ∨
          e = relJoin (if rel = "" then "." else rel) segs ++ "/") := by
  unfold listDirCore at h
  cases hn : normalizeRepoRelativePath path with
  | error e => rw [hn] at h; cases h
  | ok rel =>
    rw [hn] at h
    have h2 : (match resolveRepoPath rootDir rel with
      | Except.error e => Except.error e
      | Except.ok startDir =>
        walkDir fs (max 1 (min maxEntries (maxCap : Int))).toNat
          (max 0 (min depth (depthCap : Int))).toNat startDir
          (if rel = "" then "." else rel) []) = Except.ok out := h
    cases hr : resolveRepoPath rootDir rel with
    | error e => rw [hr] at h2; cases h2
    | ok startDir =>
      rw [hr] at h2
      refine ⟨rel, rfl, ?_⟩
      intro e he
      exact walkDir_good fs _ (if rel = "" then "." else rel) _ startDir
        (if rel = "" then "." else rel) [] out (Or.inl rfl) (by simp) h2 e he

/-- C8 witness: the amended guarantee applied to the concrete `.git`
listing: the single entry decomposes as the clean segment list
`["config"]` below the start path `.git`. -/
theorem C8_excluded_dirs_witness :
    ∃ rel, normalizeRepoRelativePath ".git" = .ok rel ∧
      ∀ e ∈ [".git/config"], ∃ segs, segs ≠ [] ∧
        (∀ sg ∈ segs, sg ∉ EXCLUDED_DIRS ∧ isHiddenSecretFile sg = false) ∧
        (e = relJoin (if rel = "" then "." else rel) segs ∨
          e = relJoin (if rel = "" then "." else rel) segs ++ "/") :=
  C8_excluded_dirs_amended fsDotGit "/repo" ".git" 3 400 10 2000 [".git/config"] rfl

/-! ### C5: scanner confidence -/

/-- Fixture: a changed file whose only line is a `child_process` call on a
sanitised value (sanitizer present, no taint marker). -/
def fsSanitizedCmd : Fs := fun p =>
  if p = "/repo" then some (.dir [("a.ts", false)])
  else if p = "/repo/a.ts" then some (.file "child_process.exec(sanitizeHtml(x))")
  else none

/-- C5 counterexample: a sanitizer-only `cmd-injection` line is kept with
confidence `medium`, not `low` — although a sanitizer call occurs on the
line and no taint marker is present (`inferConfidence` is `low` there), so
the claim's "low exactly when a sanitizer occurs and no taint marker is
present … kept (with confidence low) for the other categories" is false. -/
theorem C5_confidence_counterexample :
    scanSecuritySinksCore fsSanitizedCmd "/repo" ["a.ts"] =
      [⟨"a.ts", 1, "cmd-injection", "child_process.exec(sanitizeHtml(x))",
        .medium, none⟩] ∧
    inferConfidence "child_process.exec(sanitizeHtml(x))" = .low ∧
    hasUserInputSource "child_process.exec(sanitizeHtml(x))" = false ∧
    SecurityScanConfidence.medium ≠ SecurityScanConfidence.low := by
  exact ⟨rfl, rfl, rfl, by decide⟩

/-- The raw text of line `n` (1-based) of `path`, obtained the way the
scanner obtains it. -/
def fileLineAt (fs : Fs) (root path : String) (n : Nat) : Option String :=
  match resolveRepoPath root path with
  | .error _ => none
  | .ok abs =>
    match fsReadFile fs abs with
    | .error _ => none
    | .ok content => (splitCRLF content).get? (n - 1)

/-- What every emitted finding satisfies about its source line. -/
def FindingAccurate (fs : Fs) (root : String) (f : SecuritySinkFinding) : Prop :=
  ∃ raw, fileLineAt fs root f.path f.line = some raw ∧
    f.confidence =
      (if hasUserInputSource (stripScanNoise raw) then .high else .medium) ∧
    ((f.category = "xss" ∨ f.category = "injection") →
      inferConfidence (stripScanNoise raw) ≠ .low) ∧
    (f.category = "path-traversal" → hasUserInputSource (stripScanNoise raw) = true)

theorem drop_cons_get {α : Type} :
    ∀ {l : List α} {i : Nat} {a : α} {r : List α},
      l.drop i = a :: r → l.get? i = some a ∧ l.drop (i + 1) = r := by
  intro l
  induction l with
  | nil => intro i a r h; rw [List.drop_nil] at h; cases h
  | cons x xs ih =>
    intro i a r h
    cases i with
    | zero =>
      rw [List.drop_zero] at h
      cases h
      exact ⟨rfl, rfl⟩
    | succ j =>
      rw [List.drop_succ_cons] at h
      have := ih h
      exact ⟨this.1, by rw [List.drop_succ_cons]; exact this.2⟩

theorem inferConfidence_not_low {l : String} (h : inferConfidence l ≠ .low) :
    inferConfidence l = (if hasUserInputSource l then .high else .medium) := by
  unfold inferConfidence at *
  by_cases h1 : hasUserInputSource l = true
  · simp [h1]
  · simp only [h1, Bool.false_eq_true, if_false] at *
    by_cases h2 : SANITIZER_PATTERNS.any (fun p => p l) = true
    · rw [if_pos h2] at h
      cases h rfl
    · rw [if_neg h2]

/-- One step of the scanner's line loop: the state advances to the next
index with zero or one new finding, and any new finding records line
`i + 1` with the confidence determined by the taint test. -/
theorem scanLinesGo_cons (path : String) (aliases : ChildProcessAliasSet)
    (i : Nat) (rawLine : String) (rest : List String)
    (findings : List SecuritySinkFinding) (seen : List String) :
    ∃ extra seen2,
      scanLinesGo path aliases i (rawLine :: rest) findings seen =
        scanLinesGo path aliases (i + 1) rest (findings ++ extra) seen2 ∧
      ∀ f ∈ extra, f.path = path ∧ f.line = i + 1 ∧
        f.confidence =
          (if hasUserInputSource (stripScanNoise rawLine) then .high else .medium) ∧
        ((f.category = "xss" ∨ f.category = "injection") →
          inferConfidence (stripScanNoise rawLine) ≠ .low) ∧
        (f.category = "path-traversal" →
          hasUserInputSource (stripScanNoise rawLine) = true) := by
  by_cases h1 : stripScanNoise rawLine = ""
  · exact ⟨[], seen, by simp [scanLinesGo, h1], by simp⟩
  · by_cases hx : xssPatterns.any (fun p => p (stripScanNoise rawLine)) = true
    · by_cases hlow : inferConfidence (stripScanNoise rawLine) = .low
      · exact ⟨[], seen, by simp [scanLinesGo, h1, hx, hlow], by simp⟩
      · by_cases hseen : (path ++ ":" ++ natDec (i + 1) ++ ":xss") ∈ seen
        · exact ⟨[], seen, by simp [scanLinesGo, h1, hx, hlow, hseen], by simp⟩
        · refine ⟨[⟨path, i + 1, "xss", jsSliceTo (stripScanNoise rawLine) 260,
            if hasUserInputSource (stripScanNoise rawLine) then .high else .medium,
            extractUserInputHint (stripScanNoise rawLine)⟩],
            seen ++ [path ++ ":" ++ natDec (i + 1) ++ ":xss"],
            by simp [scanLinesGo, h1, hx, hlow, hseen], ?_⟩
          intro f hf
          simp only [List.mem_singleton] at hf
          subst hf
          exact ⟨rfl, rfl, rfl, fun _ => hlow, (by intro h; simp at h)⟩
    · by_cases hinj : injectionPatterns.any (fun p => p (stripScanNoise rawLine)) = true
      · by_cases hlow : inferConfidence (stripScanNoise rawLine) = .low
        · exact ⟨[], seen, by simp [scanLinesGo, h1, hx, hinj, hlow], by simp⟩
        · by_cases hseen :
              (path ++ ":" ++ natDec (i + 1) ++ ":injection") ∈ seen
          · exact ⟨[], seen, by simp [scanLinesGo, h1, hx, hinj, hlow, hseen], by simp⟩
          · refine ⟨[⟨path, i + 1, "injection", jsSliceTo (stripScanNoise rawLine) 260,
              inferConfidence (stripScanNoise rawLine),
              extractUserInputHint (stripScanNoise rawLine)⟩],
              seen ++ [path ++ ":" ++ natDec (i + 1) ++ ":injection"],
              by simp [scanLinesGo, h1, hx, hinj, hlow, hseen], ?_⟩
            intro f hf
            simp only [List.mem_singleton] at hf
            subst hf
            refine ⟨rfl, rfl, inferConfidence_not_low hlow, fun _ => hlow, ?_⟩
            intro h
            simp at h
      · by_cases hcmd : hasChildProcessCall (stripScanNoise rawLine) aliases = true
        · by_cases hseen : (path ++ ":" ++ natDec (i + 1) ++ ":cmd") ∈ seen
          · exact ⟨[], seen, by simp [scanLinesGo, h1, hx, hinj, hcmd, hseen], by simp⟩
          · refine ⟨[⟨path, i + 1, "cmd-injection", jsSliceTo (stripScanNoise rawLine) 260,
              if hasUserInputSource (stripScanNoise rawLine) then .high else .medium,
              extractUserInputHint (stripScanNoise rawLine)⟩],
              seen ++ [path ++ ":" ++ natDec (i + 1) ++ ":cmd"],
              by simp [scanLinesGo, h1, hx, hinj, hcmd, hseen], ?_⟩
            intro f hf
            simp only [List.mem_singleton] at hf
            subst hf
            exact ⟨rfl, rfl, rfl, (by intro h; rcases h with h | h <;> simp at h),
              (by intro h; simp at h)⟩
        · by_cases hpt : pathTraversalPatterns.any (fun p => p (stripScanNoise rawLine)) = true
              ∧ hasUserInputSource (stripScanNoise rawLine) = true
          · by_cases hseen : (path ++ ":" ++ natDec (i + 1) ++ ":path") ∈ seen
            · exact ⟨[], seen,
                by simp [scanLinesGo, h1, hx, hinj, hcmd, hpt.1, hpt.2, hseen], by simp⟩
            · refine ⟨[⟨path, i + 1, "path-traversal", jsSliceTo (stripScanNoise rawLine) 260,
                .high, extractUserInputHint (stripScanNoise rawLine)⟩],
                seen ++ [path ++ ":" ++ natDec (i + 1) ++ ":path"],
                by simp [scanLinesGo, h1, hx, hinj, hcmd, hpt.1, hpt.2, hseen], ?_⟩
              intro f hf
              simp only [List.mem_singleton] at hf
              subst hf
              refine ⟨rfl, rfl, (by rw [hpt.2]; rfl),
                (by intro h; rcases h with h | h <;> simp at h), fun _ => hpt.2⟩
          · refine ⟨[], seen, ?_, by simp⟩
            rw [List.append_nil]
            simp only [scanLinesGo, h1, hx, hinj, hcmd]
            simp only [Bool.false_eq_true, if_false]
            rw [if_neg hpt]


theorem fileLineAt_of (fs : Fs) (root path abs content : String) (n : Nat)
    (hres : resolveRepoPath root path = .ok abs)
    (hread : fsReadFile fs abs = .ok content) :
    fileLineAt fs root path n = (splitCRLF content).get? (n - 1) := by
  unfold fileLineAt
  rw [hres]
  show (match fsReadFile fs abs with
    | Except.error _ => none
    | Except.ok content => (splitCRLF content).get? (n - 1)) =
      (splitCRLF content).get? (n - 1)
  rw [hread]

theorem scanLinesGo_accurate (fs : Fs) (root : String) (path abs content : String)
    (aliases : ChildProcessAliasSet)
    (hres : resolveRepoPath root path = .ok abs)
    (hread : fsReadFile fs abs = .ok content) :
    ∀ (tail : List String) (i : Nat) (findings : List SecuritySinkFinding)
      (seen : List String),
      tail = (splitCRLF content).drop i →
      (∀ f ∈ findings, FindingAccurate fs root f) →
      ∀ f ∈ (scanLinesGo path aliases i tail findings seen).1,
        FindingAccurate fs root f := by
  intro tail
  induction tail with
  | nil =>
    intro i findings seen _ hacc f hf
    exact hacc f hf
  | cons rawLine rest ih =>
    intro i findings seen htail hacc f hf
    obtain ⟨hget, hdrop⟩ := drop_cons_get htail.symm
    obtain ⟨extra, seen2, heq, hextra⟩ := scanLinesGo_cons path aliases i rawLine rest
      findings seen
    rw [heq] at hf
    refine ih (i + 1) (findings ++ extra) seen2 hdrop.symm ?_ f hf
    intro g hg
    rcases List.mem_append.mp hg with h1 | h2
    · exact hacc g h1
    · obtain ⟨hp, hl, hconf, hcat, hpt⟩ := hextra g h2
      refine ⟨rawLine, ?_, ?_, ?_, ?_⟩
      · rw [hp, hl, fileLineAt_of fs root path abs content (i + 1) hres hread]
        simpa using hget
      · rw [hconf]
      · exact hcat
      · exact hpt

/-- C5 amended: every finding of `scan_security_sinks` comes from a real
line of the scanned file, and its confidence is `high` exactly when a
recognised tainted-input marker occurs on that comment-stripped line and
`medium` otherwise; no finding ever has confidence `low`. Sanitizer-only
lines (sanitizer call, no taint marker) are dropped for the `xss` and
`injection` categories, are kept with confidence `medium` (not `low`) for
`cmd-injection`, and can never be reported as `path-traversal`, which
requires a taint marker. -/
theorem C5_confidence_amended (fs : Fs) (root : String) (changed : List String)
    (f : SecuritySinkFinding) (hf : f ∈ scanSecuritySinksCore fs root changed) :
    ∃ raw, fileLineAt fs root f.path f.line = some raw ∧
      f.confidence =
        (if hasUserInputSource (stripScanNoise raw) then .high else .medium) ∧
      f.confidence ≠ .low ∧
      ((f.category = "xss" ∨ f.category = "injection") →
        inferConfidence (stripScanNoise raw) ≠ .low) ∧
      (f.category = "path-traversal" → hasUserInputSource (stripScanNoise raw) = true) := by
  have main : ∀ (paths : List String) (findings : List SecuritySinkFinding)
      (seen : List String), (∀ g ∈ findings, FindingAccurate fs root g) →
      ∀ g ∈ scanFilesGo fs root paths findings seen, FindingAccurate fs root g := by
    intro paths
    induction paths with
    | nil => intro findings seen hacc g hg; exact hacc g hg
    | cons path rest ih =>
      intro findings seen hacc g hg
      unfold scanFilesGo at hg
      by_cases hscan : isScannableFile path = true
      · rw [if_neg (by simp [hscan])] at hg
        cases hres : resolveRepoPath root path with
        | error e => rw [hres] at hg; exact ih findings seen hacc g hg
        | ok abs =>
          rw [hres] at hg
          have hg2 : g ∈ (match fsStatIsFile fs abs with
            | Except.error _ => scanFilesGo fs root rest findings seen
            | Except.ok false => scanFilesGo fs root rest findings seen
            | Except.ok true =>
              match fsReadFile fs abs with
              | Except.error _ => scanFilesGo fs root rest findings seen
              | Except.ok content =>
                scanFilesGo fs root rest
                  (scanLinesGo path (collectChildProcessAliases (splitCRLF content)) 0
                    (splitCRLF content) findings seen).1
                  (scanLinesGo path (collectChildProcessAliases (splitCRLF content)) 0
                    (splitCRLF content) findings seen).2) := hg
          cases hstat : fsStatIsFile fs abs with
          | error e => rw [hstat] at hg2; exact ih findings seen hacc g hg2
          | ok isfile =>
            rw [hstat] at hg2
            cases isfile with
            | false => exact ih findings seen hacc g hg2
            | true =>
              cases hread : fsReadFile fs abs with
              | error e => rw [hread] at hg2; exact ih findings seen hacc g hg2
              | ok content =>
                rw [hread] at hg2
                refine ih _ _ ?_ g hg2
                intro h hh
                exact scanLinesGo_accurate fs root path abs content
                  (collectChildProcessAliases (splitCRLF content)) hres hread
                  (splitCRLF content) 0 findings seen (by rw [List.drop_zero]) hacc h hh
      · rw [if_pos (by simp [hscan])] at hg
        exact ih findings seen hacc g hg
  have hg := main changed [] [] (by simp) f hf
  obtain ⟨raw, h1, h2, h3, h4⟩ := hg
  refine ⟨raw, h1, h2, ?_, h3, h4⟩
  rw [h2]
  by_cases h : hasUserInputSource (stripScanNoise raw) = true <;> simp [h]

/-- C5 witness: the amended description applied to the concrete
sanitizer-only `cmd-injection` finding of the fixture repository. -/
theorem C5_confidence_witness :
    ∃ raw, fileLineAt fsSanitizedCmd "/repo" "a.ts" 1 = some raw ∧
      SecurityScanConfidence.medium =
        (if hasUserInputSource (stripScanNoise raw) then .high else .medium) ∧
      SecurityScanConfidence.medium ≠ .low ∧
      (("cmd-injection" = "xss" ∨ "cmd-injection" = "injection") →
        inferConfidence (stripScanNoise raw) ≠ .low) ∧
      ("cmd-injection" = "path-traversal" →
        hasUserInputSource (stripScanNoise raw) = true) :=
  C5_confidence_amended fsSanitizedCmd "/repo" ["a.ts"]
    ⟨"a.ts", 1, "cmd-injection", "child_process.exec(sanitizeHtml(x))", .medium, none⟩
    (by rw [C5_confidence_counterexample.1]; simp)

/-! ### C2: path normalisation and confinement -/

theorem listStartsWith_refl : ∀ p : List Char, listStartsWith p p = true
  | [] => rfl
  | c :: cs => by
    unfold listStartsWith
    rw [if_pos rfl]
    exact listStartsWith_refl cs

theorem listStartsWith_append : ∀ (p s t : List Char),
    listStartsWith p s = true → listStartsWith p (s ++ t) = true
  | [], _, _, _ => rfl
  | p :: ps, [], t, h => by cases h
  | p :: ps, c :: cs, t, h => by
    unfold listStartsWith at h
    show (if p = c then listStartsWith ps (cs ++ t) else false) = true
    by_cases hpc : p = c
    · rw [if_pos hpc]
      rw [if_pos hpc] at h
      exact listStartsWith_append ps cs t h
    · rw [if_neg hpc] at h
      cases h

/-- Prefix survives appending to the subject. -/
theorem jsStartsWith_append (s t p : String) (h : jsStartsWith s p = true) :
    jsStartsWith (s ++ t) p = true := by
  unfold jsStartsWith at h ⊢
  rw [String.data_append]
  exact listStartsWith_append p.data s.data t.data h

/-- A path the confinement check accepts. -/
def ConfinedDir (root a : String) : Prop :=
  a = root ∨ jsStartsWith a (safeRoot root) = true

theorem safeRoot_self_prefix (root : String) :
    jsStartsWith (safeRoot root) (safeRoot root) = true := by
  unfold jsStartsWith
  exact listStartsWith_refl _

theorem confined_nodeJoin {root a : String} (h : ConfinedDir root a) (name : String) :
    ConfinedDir root (nodeJoin a name) := by
  right
  rcases h with h | h
  · subst h
    unfold nodeJoin safeRoot
    by_cases he : jsEndsWith a "/" = true
    · rw [if_pos he, if_pos he]
      exact jsStartsWith_append a name a (by unfold jsStartsWith; exact listStartsWith_refl _)
    · rw [if_neg he, if_neg he]
      rw [show a ++ "/" ++ name = (a ++ "/") ++ name from by rw [String.append_assoc]]
      exact jsStartsWith_append (a ++ "/") name (a ++ "/")
        (by unfold jsStartsWith; exact listStartsWith_refl _)
  · unfold nodeJoin
    by_cases he : jsEndsWith a "/" = true
    · rw [if_pos he]
      exact jsStartsWith_append a name _ h
    · rw [if_neg he]
      rw [show a ++ "/" ++ name = (a ++ "/") ++ name from by rw [String.append_assoc]]
      exact jsStartsWith_append (a ++ "/") name _ (jsStartsWith_append a "/" _ h)

/-- Confinement of `resolveRepoPath`: a successful resolution is the root
itself or has the slash-terminated root as a prefix. -/
theorem resolveRepoPath_confined (root input out : String)
    (h : resolveRepoPath root input = .ok out) : ConfinedDir root out := by
  unfold resolveRepoPath at h
  cases hn : normalizeRepoRelativePath input with
  | error e => rw [hn] at h; cases h
  | ok n =>
    rw [hn] at h
    have h2 : (if (if n = "." then root else nodeResolve root n) ≠ root ∧
        ¬ jsStartsWith (if n = "." then root else nodeResolve root n) (safeRoot root) = true
        then (Except.error "Path escaped repository root." : Except String String)
        else Except.ok (if n = "." then root else nodeResolve root n)) = Except.ok out := h
    by_cases hc : (if n = "." then root else nodeResolve root n) ≠ root ∧
        ¬ jsStartsWith (if n = "." then root else nodeResolve root n) (safeRoot root) = true
    · rw [if_pos hc] at h2
      cases h2
    · rw [if_neg hc] at h2
      cases h2
      unfold ConfinedDir
      by_cases h1 : (if n = "." then root else nodeResolve root n) = root
      · exact Or.inl h1
      · right
        by_cases h2 : jsStartsWith (if n = "." then root else nodeResolve root n)
            (safeRoot root) = true
        · exact h2
        · exact absurd ⟨h1, h2⟩ hc

/-- The bad-path conditions of the claim, on the backslash-replaced and
trimmed argument. -/
def BadPathArg (input : String) : Prop :=
  let p := jsTrim (String.mk (mapReplace '\\' '/' input.data))
  p ≠ "" ∧ p ≠ "." ∧
    (jsStartsWith p "/" = true ∨ hasDrivePrefixSlash p.data = true ∨
      ".." ∈ (splitChar '/' p.data).map String.mk)

/-- Bad paths never pass normalisation. -/
theorem normalize_rejects_bad (input : String) (h : BadPathArg input) :
    ∃ msg, normalizeRepoRelativePath input = .error msg := by
  obtain ⟨h1, h2, h3⟩ := h
  unfold normalizeRepoRelativePath
  rw [if_neg (by push_neg; exact ⟨h1, h2⟩)]
  by_cases habs : jsStartsWith (jsTrim (String.mk (mapReplace '\\' '/' input.data))) "/" = true
      ∨ hasDrivePrefixSlash (jsTrim (String.mk (mapReplace '\\' '/' input.data))).data = true
  · rw [if_pos habs]
    exact ⟨_, rfl⟩
  · rw [if_neg habs]
    have hdd : ".." ∈ (splitChar '/'
        (jsTrim (String.mk (mapReplace '\\' '/' input.data))).data).map String.mk := by
      rcases h3 with h3 | h3 | h3
      · exact absurd (Or.inl h3) habs
      · exact absurd (Or.inr h3) habs
      · exact h3
    rw [if_pos (List.contains_iff_exists_mem_beq.mpr ⟨"..", hdd, by simp⟩)]
    exact ⟨_, rfl⟩

theorem fsReadFile_congr {fs fs' : Fs} {q : String} (h : fs q = fs' q) :
    fsReadFile fs q = fsReadFile fs' q := by
  unfold fsReadFile
  rw [h]

theorem fsStatIsFile_congr {fs fs' : Fs} {q : String} (h : fs q = fs' q) :
    fsStatIsFile fs q = fsStatIsFile fs' q := by
  unfold fsStatIsFile
  rw [h]

theorem fsReaddir_congr {fs fs' : Fs} {q : String} (h : fs q = fs' q) :
    fsReaddir fs q = fsReaddir fs' q := by
  unfold fsReaddir
  rw [h]

/-- Two filesystems that agree on every path inside the confinement root. -/
def AgreeIn (root : String) (fs fs' : Fs) : Prop :=
  ∀ q, ConfinedDir root q → fs q = fs' q

theorem walkEntries_congr (resolvedMax : Nat) (root : String)
    (descend descend' : Option (String → String → List String → Except String (List String)))
    (hrel : (descend = none ∧ descend' = none) ∨
      (∃ f f', descend = some f ∧ descend' = some f' ∧
        ∀ a2 r2 o2, ConfinedDir root a2 → f a2 r2 o2 = f' a2 r2 o2)) :
    ∀ (es : List (String × Bool)) (a rel : String) (out : List String), ConfinedDir root a →
      walkEntries resolvedMax descend es a rel out =
        walkEntries resolvedMax descend' es a rel out := by
  intro es
  induction es with
  | nil => intro a rel out _; rfl
  | cons e rest ih =>
    intro a rel out hconf
    simp only [walkEntries]
    by_cases hmax : out.length ≥ resolvedMax
    · simp only [if_pos hmax]
    · simp only [if_neg hmax]
      by_cases hf : EXCLUDED_DIRS.contains e.1 = true ∨ isHiddenSecretFile e.1 = true
      · simp only [if_pos hf]
        exact ih a rel out hconf
      · simp only [if_neg hf]
        rcases hrel with ⟨hd, hd2⟩ | ⟨f, f2, hd, hd2, hff⟩
        · subst hd; subst hd2
          rfl
        · subst hd; subst hd2
          by_cases he : e.2 = true
          · simp only [if_pos he]
            show (match f (nodeJoin a e.1) (if rel = "." then e.1 else rel ++ "/" ++ e.1)
                (out ++ [(if rel = "." then e.1 else rel ++ "/" ++ e.1) ++ "/"]) with
              | Except.error er => Except.error er
              | Except.ok o3 => walkEntries resolvedMax (some f) rest a rel o3) =
              (match f2 (nodeJoin a e.1) (if rel = "." then e.1 else rel ++ "/" ++ e.1)
                (out ++ [(if rel = "." then e.1 else rel ++ "/" ++ e.1) ++ "/"]) with
              | Except.error er => Except.error er
              | Except.ok o3 => walkEntries resolvedMax (some f2) rest a rel o3)
            rw [hff (nodeJoin a e.1) _ _ (confined_nodeJoin hconf e.1)]
            cases hc : f2 (nodeJoin a e.1) (if rel = "." then e.1 else rel ++ "/" ++ e.1)
                (out ++ [(if rel = "." then e.1 else rel ++ "/" ++ e.1) ++ "/"]) with
            | error er => rfl
            | ok o3 => exact ih a rel o3 hconf
          · simp only [if_neg he]
            exact ih a rel _ hconf

theorem walkDir_congr (root : String) (fs fs' : Fs) (hagree : AgreeIn root fs fs')
    (resolvedMax : Nat) :
    ∀ (depth : Nat) (a rel : String) (out : List String), ConfinedDir root a →
      walkDir fs resolvedMax depth a rel out = walkDir fs' resolvedMax depth a rel out := by
  intro depth
  induction depth with
  | zero =>
    intro a rel out hconf
    simp only [walkDir]
    by_cases hmax : out.length ≥ resolvedMax
    · simp only [if_pos hmax]
    · simp only [if_neg hmax]
      rw [fsReaddir_congr (hagree a hconf)]
  | succ d ih =>
    intro a rel out hconf
    simp only [walkDir]
    by_cases hmax : out.length ≥ resolvedMax
    · simp only [if_pos hmax]
    · simp only [if_neg hmax]
      rw [fsReaddir_congr (hagree a hconf)]
      cases hrd : fsReaddir fs' a with
      | error e => rfl
      | ok entries =>
        exact walkEntries_congr resolvedMax root
          (some (fun a2 r2 o2 => walkDir fs resolvedMax d a2 r2 o2))
          (some (fun a2 r2 o2 => walkDir fs' resolvedMax d a2 r2 o2))
          (Or.inr ⟨_, _, rfl, rfl, fun a2 r2 o2 h2 => ih a2 r2 o2 h2⟩)
          (sortEntries entries) a rel out hconf

theorem listDirCore_congr (root : String) (fs fs' : Fs) (hagree : AgreeIn root fs fs')
    (path : String) (depth maxEntries : Int) (depthCap maxCap : Nat) :
    listDirCore fs root path depth maxEntries depthCap maxCap =
      listDirCore fs' root path depth maxEntries depthCap maxCap := by
  unfold listDirCore
  cases hn : normalizeRepoRelativePath path with
  | error e => rfl
  | ok rel =>
    show (match resolveRepoPath root rel with
      | Except.error e => Except.error e
      | Except.ok startDir =>
        walkDir fs (max 1 (min maxEntries (maxCap : Int))).toNat
          (max 0 (min depth (depthCap : Int))).toNat startDir
          (if rel = "" then "." else rel) []) =
      (match resolveRepoPath root rel with
      | Except.error e => Except.error e
      | Except.ok startDir =>
        walkDir fs' (max 1 (min maxEntries (maxCap : Int))).toNat
          (max 0 (min depth (depthCap : Int))).toNat startDir
          (if rel = "" then "." else rel) [])
    cases hr : resolveRepoPath root rel with
    | error e => rfl
    | ok startDir =>
      exact walkDir_congr root fs fs' hagree _ _ startDir _ []
        (resolveRepoPath_confined root rel startDir hr)


theorem searchFilesGo_congr (root : String) (fs fs' : Fs) (hagree : AgreeIn root fs fs')
    (q : String) (m : Nat) :
    ∀ (paths : List String) (hits : List SearchHit),
      searchFilesGo fs root q m paths hits = searchFilesGo fs' root q m paths hits := by
  intro paths
  induction paths with
  | nil => intro hits; rfl
  | cons p rest ih =>
    intro hits
    simp only [searchFilesGo]
    by_cases hh : isHiddenSecretFile (basename p) = true
    · simp only [if_pos hh]
      exact ih hits
    · simp only [if_neg hh]
      cases hr : resolveRepoPath root p with
      | error e => exact ih hits
      | ok abs =>
        simp only []
        rw [fsStatIsFile_congr (hagree abs (resolveRepoPath_confined root p abs hr)),
          fsReadFile_congr (hagree abs (resolveRepoPath_confined root p abs hr))]
        cases hs : fsStatIsFile fs' abs with
        | error e => exact ih hits
        | ok isf =>
          cases isf with
          | false => exact ih hits
          | true =>
            simp only []
            cases hc : fsReadFile fs' abs with
            | error e => exact ih hits
            | ok content =>
              simp only []
              cases hsl : searchFileLines p q m 0 (splitCRLF content) hits with
              | mk hits2 flag =>
                cases flag with
                | false => exact ih hits2
                | true => rfl

theorem scanFilesGo_congr (root : String) (fs fs' : Fs) (hagree : AgreeIn root fs fs') :
    ∀ (paths : List String) (findings : List SecuritySinkFinding) (seen : List String),
      scanFilesGo fs root paths findings seen = scanFilesGo fs' root paths findings seen := by
  intro paths
  induction paths with
  | nil => intro findings seen; rfl
  | cons p rest ih =>
    intro findings seen
    simp only [scanFilesGo]
    by_cases hsc : ¬ isScannableFile p = true
    · simp only [if_pos hsc]
      exact ih findings seen
    · simp only [if_neg hsc]
      cases hr : resolveRepoPath root p with
      | error e => exact ih findings seen
      | ok abs =>
        simp only []
        rw [fsStatIsFile_congr (hagree abs (resolveRepoPath_confined root p abs hr)),
          fsReadFile_congr (hagree abs (resolveRepoPath_confined root p abs hr))]
        cases hs : fsStatIsFile fs' abs with
        | error e => exact ih findings seen
        | ok isf =>
          cases isf with
          | false => exact ih findings seen
          | true =>
            simp only []
            cases hc : fsReadFile fs' abs with
            | error e => exact ih findings seen
            | ok content => exact ih _ _

theorem scanSecuritySinksCore_congr (root : String) (fs fs' : Fs)
    (hagree : AgreeIn root fs fs') (changed : List String) :
    scanSecuritySinksCore fs root changed = scanSecuritySinksCore fs' root changed := by
  unfold scanSecuritySinksCore
  exact scanFilesGo_congr root fs fs' hagree changed [] []

theorem readGuidelineDocsCore_congr (root : String) (fs fs' : Fs)
    (hagree : AgreeIn root fs fs') :
    readGuidelineDocsCore fs root = readGuidelineDocsCore fs' root := by
  unfold readGuidelineDocsCore
  apply List.map_congr_left
  intro file _
  refine congrArg (Prod.mk file) ?_
  cases hr : resolveRepoPath root file with
  | error e => rfl
  | ok abs =>
    simp only []
    rw [fsReadFile_congr (hagree abs (resolveRepoPath_confined root file abs hr))]

theorem Conservative.readFileOp_congr_cons (fs fs' : Fs) (o : VirtualIdeOptions)
    (hagree : AgreeIn o.rootDir fs fs') (s : SessionState) (p : String) (a b : Int) :
    readFileOp fs o s p a b = readFileOp fs' o s p a b := by
  unfold readFileOp
  cases h1 : ensureBudget s.budgets BKind.readFile with
  | mk r b2 =>
    cases r with
    | error e => rfl
    | ok u =>
      simp only []
      by_cases hlt : b < a
      · simp only [if_pos hlt]
      · simp only [if_neg hlt]
        by_cases hspan : b - a + 1 > 200
        · simp only [if_pos hspan]
        · simp only [if_neg hspan]
          cases hn : normalizeRepoRelativePath p with
          | error e => rfl
          | ok rel =>
            simp only []
            by_cases hna : (!isAllowedReadPath o rel) = true
            · simp only [if_pos hna]
            · simp only [if_neg hna]
              by_cases hsec : isHiddenSecretFile (basename rel) = true
              · simp only [if_pos hsec]
              · simp only [if_neg hsec]
                by_cases htot : s.totalReadLines + (b - a + 1) > 2000
                · simp only [if_pos htot]
                · simp only [if_neg htot]
                  cases hr : resolveRepoPath o.rootDir rel with
                  | error e => rfl
                  | ok abs =>
                    simp only []
                    rw [fsReadFile_congr
                      (hagree abs (resolveRepoPath_confined o.rootDir rel abs hr))]

theorem High.readFileOp_congr_high (fs fs' : Fs) (o : VirtualIdeOptions)
    (hagree : AgreeIn o.rootDir fs fs') (s : SessionState) (p : String) (a b : Int) :
    readFileOp fs o s p a b = readFileOp fs' o s p a b := by
  unfold readFileOp
  cases h1 : ensureBudget s.budgets BKind.readFile with
  | mk r b2 =>
    cases r with
    | error e => rfl
    | ok u =>
      simp only []
      by_cases hlt : b < a
      · simp only [if_pos hlt]
      · simp only [if_neg hlt]
        cases hn : normalizeRepoRelativePath p with
        | error e => rfl
        | ok rel =>
          simp only []
          by_cases hna : (!isAllowedReadPath o rel) = true
          · simp only [if_pos hna]
          · simp only [if_neg hna]
            by_cases hsec : isHiddenSecretFile (basename rel) = true
            · simp only [if_pos hsec]
            · simp only [if_neg hsec]
              cases hr : resolveRepoPath o.rootDir rel with
              | error e => rfl
              | ok abs =>
                simp only []
                rw [fsReadFile_congr
                  (hagree abs (resolveRepoPath_confined o.rootDir rel abs hr))]

theorem listDirCore_badpath (fs : Fs) (root input : String) (h : BadPathArg input)
    (d m : Int) (dc mc : Nat) : isErr (listDirCore fs root input d m dc mc) = true := by
  obtain ⟨msg, hmsg⟩ := normalize_rejects_bad input h
  unfold listDirCore
  rw [hmsg]
  rfl

theorem Conservative.readFileOp_badpath_cons (fs : Fs) (o : VirtualIdeOptions)
    (s : SessionState) (input : String) (a b : Int) (h : BadPathArg input) :
    isErr (readFileOp fs o s input a b).1 = true := by
  obtain ⟨msg, hmsg⟩ := normalize_rejects_bad input h
  unfold readFileOp
  cases h1 : ensureBudget s.budgets BKind.readFile with
  | mk r b2 =>
    cases r with
    | error e => rfl
    | ok u =>
      simp only []
      by_cases hlt : b < a
      · simp only [if_pos hlt]
        rfl
      · simp only [if_neg hlt]
        by_cases hspan : b - a + 1 > 200
        · simp only [if_pos hspan]
          rfl
        · simp only [if_neg hspan]
          rw [hmsg]
          rfl

theorem High.readFileOp_badpath_high (fs : Fs) (o : VirtualIdeOptions)
    (s : SessionState) (input : String) (a b : Int) (h : BadPathArg input) :
    isErr (readFileOp fs o s input a b).1 = true := by
  obtain ⟨msg, hmsg⟩ := normalize_rejects_bad input h
  unfold readFileOp
  cases h1 : ensureBudget s.budgets BKind.readFile with
  | mk r b2 =>
    cases r with
    | error e => rfl
    | ok u =>
      simp only []
      by_cases hlt : b < a
      · simp only [if_pos hlt]
        rfl
      · simp only [if_neg hlt]
        rw [hmsg]
        rfl

/-- C2 counterexample: `normalizeRepoRelativePath` does not collapse `.`
segments (only empty segments are dropped), and the difference is
observable: the changed file `a.ts` is readable as `"a.ts"` but the
equivalent spelling `"./a.ts"` is rejected by the allowlist check. -/
theorem C2_path_normalization_counterexample :
    normalizeRepoRelativePath "./a.ts" = .ok "./a.ts" ∧
    normalizeRepoRelativePath ".//a.ts" = .ok "./a.ts" ∧
    isErr (Conservative.readFileOp fsRepoA optsA Conservative.initialState "./a.ts" 1 1).1
      = true ∧
    (Conservative.readFileOp fsRepoA optsA Conservative.initialState "a.ts" 1 1).1 =
      .ok "1| hello" :=
  ⟨rfl, rfl, rfl, rfl⟩

/-- C2 amended: every path argument is normalized (backslashes replaced by
forward slashes, empty segments dropped, `.` segments preserved);
normalisation rejects absolute paths, drive-letter prefixes and `..`
segments, and each path-taking operation then fails before touching any
file; a successful resolution is confined to the root, and every tool
operation reads only paths confined to the root: its result is unchanged
under any modification of the filesystem outside the root. -/
theorem C2_path_confinement_amended :
    (∀ input, BadPathArg input → ∃ msg, normalizeRepoRelativePath input = .error msg) ∧
    (∀ root input out, resolveRepoPath root input = .ok out → ConfinedDir root out) ∧
    (∀ fs root input d m dc mc, BadPathArg input →
      isErr (listDirCore fs root input d m dc mc) = true) ∧
    (∀ fs o s input a b, BadPathArg input →
      isErr (Conservative.readFileOp fs o s input a b).1 = true) ∧
    (∀ fs o s input a b, BadPathArg input →
      isErr (High.readFileOp fs o s input a b).1 = true) ∧
    (∀ fs fs' root, AgreeIn root fs fs' →
      (∀ input d m dc mc,
        listDirCore fs root input d m dc mc = listDirCore fs' root input d m dc mc) ∧
      (∀ q m paths hits,
        searchFilesGo fs root q m paths hits = searchFilesGo fs' root q m paths hits) ∧
      (∀ changed, scanSecuritySinksCore fs root changed = scanSecuritySinksCore fs' root changed) ∧
      readGuidelineDocsCore fs root = readGuidelineDocsCore fs' root) ∧
    (∀ fs fs' o s input a b, AgreeIn o.rootDir fs fs' →
      Conservative.readFileOp fs o s input a b = Conservative.readFileOp fs' o s input a b) ∧
    (∀ fs fs' o s input a b, AgreeIn o.rootDir fs fs' →
      High.readFileOp fs o s input a b = High.readFileOp fs' o s input a b) := by
  refine ⟨normalize_rejects_bad, resolveRepoPath_confined,
    fun fs root input d m dc mc h => listDirCore_badpath fs root input h d m dc mc,
    fun fs o s input a b h => Conservative.readFileOp_badpath_cons fs o s input a b h,
    fun fs o s input a b h => High.readFileOp_badpath_high fs o s input a b h,
    fun fs fs' root hagree => ⟨fun input d m dc mc =>
        listDirCore_congr root fs fs' hagree input d m dc mc,
      fun q m paths hits => searchFilesGo_congr root fs fs' hagree q m paths hits,
      fun changed => scanSecuritySinksCore_congr root fs fs' hagree changed,
      readGuidelineDocsCore_congr root fs fs' hagree⟩,
    fun fs fs' o s input a b hagree =>
      Conservative.readFileOp_congr_cons fs fs' o hagree s input a b,
    fun fs fs' o s input a b hagree =>
      High.readFileOp_congr_high fs fs' o hagree s input a b⟩

theorem C2_path_confinement_witness :
    BadPathArg "../etc/passwd" ∧
    isErr (listDirCore fsRepoA "/repo" "../etc/passwd" 3 400 10 2000) = true ∧
    isErr (Conservative.readFileOp fsRepoA optsA Conservative.initialState
      "../etc/passwd" 1 1).1 = true ∧
    isErr (High.readFileOp fsRepoA optsA High.initialState
      "../etc/passwd" 1 1).1 = true ∧
    searchFilesGo fsRepoA "/repo" "req" 5 ["a.ts"] [] =
      searchFilesGo fsRepoA "/repo" "req" 5 ["a.ts"] [] := by
  have h := C2_path_confinement_amended
  have hb : BadPathArg "../etc/passwd" := by
    simp only [BadPathArg]
    decide
  refine ⟨hb, h.2.2.1 fsRepoA "/repo" "../etc/passwd" 3 400 10 2000 hb,
    h.2.2.2.1 fsRepoA optsA Conservative.initialState "../etc/passwd" 1 1 hb,
    h.2.2.2.2.1 fsRepoA optsA High.initialState "../etc/passwd" 1 1 hb,
    (h.2.2.2.2.2.1 fsRepoA fsRepoA "/repo" (fun q _ => rfl)).2.1 "req" 5 ["a.ts"] []⟩

/-! ### C4: extractPatchByFile on structured multi-file diffs -/

/-- One `diff --git` file section of a unified diff: the header line and
the lines that follow it (up to the next header). -/
structure DiffSection where
  header : String
  body : List String

def sectionLines (sec : DiffSection) : List String := sec.header :: sec.body

/-- The full line list of a diff: a preamble followed by the sections. -/
def mkDiffLines (pre : List String) (secs : List DiffSection) : List String :=
  pre ++ (secs.map sectionLines).flatten

/-- The second path of the section's header (its map key). -/
def secPath (sec : DiffSection) : String := (parseDiffHeader sec.header).getD ""

/-- "Contains at least one line starting with `@@ `". -/
def sectionHasHunk (sec : DiffSection) : Bool :=
  sec.body.any (fun l => jsStartsWith l "@@ ")

/-- The section's lines from the first hunk header onward, joined and
right-trimmed. -/
def hunkTail (body : List String) : String :=
  match body.findIdx? (fun l => jsStartsWith l "@@ ") with
  | none => ""
  | some i => jsTrimEnd (jsJoin "\n" (body.drop i))

def sectionPatch (sec : DiffSection) : String := hunkTail sec.body

/-- Well-formedness of one section of a unified diff. -/
def sectionWF (sec : DiffSection) : Prop :=
  jsStartsWith sec.header "diff --git " = true ∧
  (parseDiffHeader sec.header).isSome = true ∧
  (∀ l ∈ sec.body, jsStartsWith l "diff --git " = false) ∧
  (∀ l ∈ sec.body, jsStartsWith l "@@ " = true → jsStartsWith l "@@ -" = true)

theorem listStartsWith_iff : ∀ (p s : List Char),
    listStartsWith p s = true ↔ ∃ t, s = p ++ t
  | [], s => Iff.intro (fun _ => ⟨s, rfl⟩) (fun _ => rfl)
  | p :: ps, [] => by
    refine Iff.intro (fun h => ?_) (fun he => ?_)
    · cases h
    · obtain ⟨t, ht⟩ := he
      cases ht
  | p :: ps, c :: cs => by
    show (if p = c then listStartsWith ps cs else false) = true ↔ _
    by_cases hpc : p = c
    · rw [if_pos hpc, listStartsWith_iff ps cs]
      subst hpc
      refine Iff.intro (fun he => ?_) (fun he => ?_)
      · obtain ⟨t, ht⟩ := he
        exact ⟨t, by rw [List.cons_append, ht]⟩
      · obtain ⟨t, ht⟩ := he
        exact ⟨t, by injection ht⟩
    · rw [if_neg hpc]
      refine Iff.intro (fun h => ?_) (fun he => ?_)
      · cases h
      · obtain ⟨t, ht⟩ := he
        injection ht with h1 h2
        exact absurd h1.symm hpc

/-- `splitChar` of a separator-free list. -/
theorem splitChar_no_sep (c : Char) : ∀ l : List Char, c ∉ l → splitChar c l = [l]
  | [], _ => rfl
  | x :: xs, h => by
    have hx : ¬ x = c := fun he => h (he ▸ List.mem_cons_self x xs)
    have ih := splitChar_no_sep c xs (fun hm => h (List.mem_cons_of_mem x hm))
    show (match splitChar c xs with
      | [] => [[]]
      | h :: t => if x = c then [] :: h :: t else (x :: h) :: t) = [x :: xs]
    rw [ih]
    show (if x = c then [[], xs] else [x :: xs]) = [x :: xs]
    rw [if_neg hx]

theorem splitChar_ne_nil (c : Char) : ∀ l : List Char, splitChar c l ≠ []
  | [] => by
    show [[]] ≠ ([] : List (List Char))
    simp
  | x :: xs => by
    show (match splitChar c xs with
      | [] => [[]]
      | h :: t => if x = c then [] :: h :: t else (x :: h) :: t) ≠ []
    cases splitChar c xs with
    | nil => simp
    | cons h t =>
      simp only []
      by_cases hx : x = c
      · rw [if_pos hx]
        simp
      · rw [if_neg hx]
        simp

/-- `splitChar` peels a separator-free chunk before a separator. -/
theorem splitChar_chunk (c : Char) : ∀ (x rest : List Char), c ∉ x →
    splitChar c (x ++ c :: rest) = x :: splitChar c rest
  | [], rest, _ => by
    show (match splitChar c rest with
      | [] => [[]]
      | h :: t => if c = c then [] :: h :: t else (c :: h) :: t) = [] :: splitChar c rest
    cases hs : splitChar c rest with
    | nil => exact absurd hs (splitChar_ne_nil c rest)
    | cons h t =>
      simp only [if_true]
  | a :: x, rest, hmem => by
    have ha : ¬ a = c := fun he => hmem (he ▸ List.mem_cons_self a x)
    have ih := splitChar_chunk c x rest (fun hm => hmem (List.mem_cons_of_mem a hm))
    show (match splitChar c (x ++ c :: rest) with
      | [] => [[]]
      | h :: t => if a = c then [] :: h :: t else (a :: h) :: t) =
      (a :: x) :: splitChar c rest
    rw [ih]
    show (if a = c then [] :: x :: splitChar c rest else ((a :: x) :: splitChar c rest)) = _
    rw [if_neg ha]

/-- Splitting is a left inverse of joining for separator-free chunks. -/
theorem splitChar_joinWith (c : Char) : ∀ ls : List (List Char), ls ≠ [] →
    (∀ l ∈ ls, c ∉ l) → splitChar c (joinWith [c] ls) = ls
  | [], hne, _ => absurd rfl hne
  | [x], _, hmem => by
    show splitChar c x = [x]
    exact splitChar_no_sep c x (hmem x (List.mem_cons_self x []))
  | x :: y :: t, _, hmem => by
    show splitChar c (x ++ [c] ++ joinWith [c] (y :: t)) = x :: y :: t
    rw [List.append_assoc, List.singleton_append]
    rw [splitChar_chunk c x _ (hmem x (List.mem_cons_self x (y :: t)))]
    rw [splitChar_joinWith c (y :: t) (by simp) (fun l hl => hmem l (List.mem_cons_of_mem x hl))]

/-- `splitLines` undoes `jsJoin "\n"` on newline-free lines. -/
theorem splitLines_jsJoin (lines : List String) (hne : lines ≠ [])
    (hnl : ∀ l ∈ lines, Char.ofNat 10 ∉ l.data) :
    splitLines (jsJoin "\n" lines) = lines := by
  unfold splitLines jsJoin
  have hdata : (String.mk (joinWith (String.data "\n") (lines.map String.data))).data =
      joinWith (String.data "\n") (lines.map String.data) := rfl
  rw [hdata]
  have hsep : String.data "\n" = [Char.ofNat 10] := rfl
  rw [hsep]
  rw [splitChar_joinWith (Char.ofNat 10) (lines.map String.data)
    (by simpa using hne)
    (by
      intro l hl
      obtain ⟨l0, hl0, rfl⟩ := List.mem_map.mp hl
      exact hnl l0 hl0)]
  rw [List.map_map]
  have : (fun s => String.mk (String.data s)) = (id : String → String) := by
    funext s
    cases s
    rfl
  rw [show String.mk ∘ String.data = (fun s => String.mk (String.data s)) from rfl, this,
    List.map_id]

/-- Right-trimming keeps everything up to a non-whitespace character. -/
theorem trimRight_append_nonws (p : List Char) (d : Char) (t : List Char)
    (hd : jsWsChar d = false) :
    trimRightList ((p ++ [d]) ++ t) = (p ++ [d]) ++ trimRightList t := by
  unfold trimRightList
  rw [List.reverse_append, List.reverse_append]
  rw [List.dropWhile_append]
  by_cases he : (t.reverse.dropWhile (fun c => jsWsChar c)).isEmpty = true
  · rw [if_pos he]
    have ht : t.reverse.dropWhile (fun c => jsWsChar c) = [] := by
      cases hc : t.reverse.dropWhile (fun c => jsWsChar c) with
      | nil => rfl
      | cons a b => rw [hc] at he; cases he
    rw [ht, List.reverse_nil, List.append_nil]
    rw [List.reverse_singleton, List.singleton_append, List.dropWhile_cons_of_neg (by rw [hd]; exact Bool.false_ne_true)]
    rw [show d :: p.reverse = ([d] ++ p.reverse) from rfl, List.reverse_append,
      List.reverse_reverse, List.reverse_singleton]
  · rw [if_neg he]
    rw [List.reverse_append, List.reverse_append, List.reverse_reverse,
      List.reverse_singleton]
    simp

/-- A right-trimmed join whose first line starts `@@ -` keeps the `@@ `
prefix and is non-empty. -/
theorem trimEnd_hunk_prefix (l : String) (rest : List String)
    (h : jsStartsWith l "@@ -" = true) :
    jsStartsWith (jsTrimEnd (jsJoin "\n" (l :: rest))) "@@ " = true ∧
    jsTrimEnd (jsJoin "\n" (l :: rest)) ≠ "" := by
  have hd : (String.data "@@ -") = ['@', '@', ' ', '-'] := rfl
  unfold jsStartsWith at h
  rw [hd] at h
  obtain ⟨t, ht⟩ := (listStartsWith_iff _ _).mp h
  have hjoin : ∃ u, (jsJoin "\n" (l :: rest)).data = l.data ++ u := by
    cases rest with
    | nil =>
      refine ⟨[], ?_⟩
      show joinWith (String.data "\n") [l.data] = l.data ++ []
      rw [List.append_nil]
      rfl
    | cons r rs =>
      refine ⟨String.data "\n" ++ joinWith (String.data "\n") ((r :: rs).map String.data), ?_⟩
      show l.data ++ String.data "\n" ++ joinWith (String.data "\n") ((r :: rs).map String.data)
        = l.data ++ (String.data "\n" ++ joinWith (String.data "\n") ((r :: rs).map String.data))
      rw [List.append_assoc]
  obtain ⟨u, hu⟩ := hjoin
  rw [ht] at hu
  have hu2 : (jsJoin "\n" (l :: rest)).data = (['@', '@', ' '] ++ ['-']) ++ (t ++ u) := by
    rw [hu]
    simp
  have htrim : jsTrimEnd (jsJoin "\n" (l :: rest)) =
      String.mk ((['@', '@', ' '] ++ ['-']) ++ trimRightList (t ++ u)) := by
    unfold jsTrimEnd
    rw [hu2, trimRight_append_nonws ['@', '@', ' '] '-' (t ++ u) rfl]
  constructor
  · rw [htrim]
    unfold jsStartsWith
    refine (listStartsWith_iff _ _).mpr ⟨'-' :: trimRightList (t ++ u), ?_⟩
    show (['@', '@', ' '] ++ ['-']) ++ trimRightList (t ++ u) = _
    simp
  · rw [htrim]
    intro heq
    have h3 := congrArg String.data heq
    simp at h3

theorem mapSet_fresh {α β : Type} [DecidableEq α] :
    ∀ (m : List (α × β)) (k : α) (v : β), (∀ pr ∈ m, pr.1 ≠ k) →
      mapSet m k v = m ++ [(k, v)]
  | [], k, v, _ => rfl
  | (k2, v2) :: t, k, v, h => by
    show (if k2 = k then (k2, v) :: t else (k2, v2) :: mapSet t k v) = _
    rw [if_neg (h (k2, v2) (List.mem_cons_self _ _))]
    rw [mapSet_fresh t k v (fun pr hpr => h pr (List.mem_cons_of_mem _ hpr))]
    rfl

/-- Preamble lines before the first `diff --git` header are ignored. -/
theorem epPreFold : ∀ (pre : List String),
    (∀ l ∈ pre, jsStartsWith l "diff --git " = false) →
    pre.foldl epStep epInit = epInit
  | [], _ => rfl
  | l :: rest, h => by
    show rest.foldl epStep (epStep epInit l) = epInit
    have hst : epStep epInit l = epInit := by
      unfold epStep
      rw [h l (List.mem_cons_self _ _)]
      rfl
    rw [hst]
    exact epPreFold rest (fun l2 hl2 => h l2 (List.mem_cons_of_mem _ hl2))

/-- Non-header lines accumulate into the current section. -/
theorem epBodyFold : ∀ (body : List String) (p : String) (ls : List String)
    (res : List (String × String)),
    (∀ l ∈ body, jsStartsWith l "diff --git " = false) →
    body.foldl epStep ⟨some p, ls, res⟩ = ⟨some p, ls ++ body, res⟩
  | [], p, ls, res, _ => by simp
  | l :: rest, p, ls, res, h => by
    show rest.foldl epStep (epStep ⟨some p, ls, res⟩ l) = _
    have hst : epStep ⟨some p, ls, res⟩ l = ⟨some p, ls ++ [l], res⟩ := by
      unfold epStep
      rw [h l (List.mem_cons_self _ _)]
      rfl
    rw [hst, epBodyFold rest p (ls ++ [l]) res (fun l2 hl2 => h l2 (List.mem_cons_of_mem _ hl2))]
    simp

/-- Flushing a completed section appends exactly its entry (when it has a
hunk) to a result that does not contain its key yet. -/
theorem epFlushSection (p : String) (body : List String) (res : List (String × String))
    (hform : ∀ l ∈ body, jsStartsWith l "@@ " = true → jsStartsWith l "@@ -" = true)
    (hfresh : ∀ pr ∈ res, pr.1 ≠ p) :
    epFlush ⟨some p, body, res⟩ =
      res ++ (if body.any (fun l => jsStartsWith l "@@ ") then [(p, hunkTail body)] else []) := by
  unfold epFlush
  simp only []
  by_cases hb : body = []
  · subst hb
    rw [if_pos rfl]
    simp
  · rw [if_neg hb]
    cases hf : body.findIdx? (fun l => jsStartsWith l "@@ ") with
    | none =>
      have hany : body.any (fun l => jsStartsWith l "@@ ") = false := by
        have h2 := @List.findIdx?_isSome _ body (fun l => jsStartsWith l "@@ ")
        rw [hf] at h2
        exact h2.symm
      rw [hany]
      simp
    | some i =>
      obtain ⟨hlen, hpi, _⟩ := List.findIdx?_eq_some_iff_getElem.mp hf
      have hdrop : body.drop i = body.get ⟨i, hlen⟩ :: body.drop (i + 1) :=
        List.drop_eq_getElem_cons hlen
      have hmem : body.get ⟨i, hlen⟩ ∈ body := List.getElem_mem hlen
      have hpre := trimEnd_hunk_prefix (body.get ⟨i, hlen⟩) (body.drop (i + 1))
        (hform _ hmem hpi)
      have hany : body.any (fun l => jsStartsWith l "@@ ") = true := by
        have h2 := @List.findIdx?_isSome _ body (fun l => jsStartsWith l "@@ ")
        rw [hf] at h2
        exact h2.symm
      have hht : hunkTail body = jsTrimEnd (jsJoin "\n" (body.get ⟨i, hlen⟩ :: body.drop (i + 1))) := by
        unfold hunkTail
        rw [hf]
        simp only []
        rw [hdrop]
      simp only []
      rw [hdrop, if_neg hpre.2, mapSet_fresh res p _ hfresh, hany]
      rw [if_pos rfl, hht]

/-- Folding a run of well-formed sections accumulates exactly the entries
of the sections with a hunk, in order. -/
theorem epSecsFold : ∀ (secs : List DiffSection) (st : EPState),
    (∀ sec ∈ secs, sectionWF sec) →
    ((secs.map secPath).Nodup) →
    (∀ sec ∈ secs, ∀ pr ∈ epFlush st, pr.1 ≠ secPath sec) →
    epFlush (((secs.map sectionLines).flatten).foldl epStep st) =
      epFlush st ++
        (secs.filter sectionHasHunk).map (fun sec => (secPath sec, sectionPatch sec))
  | [], st, _, _, _ => by simp
  | sec :: rest, st, hwf, hnodup, hfresh => by
    obtain ⟨hstart, hsome, hbody, hform⟩ := hwf sec (List.mem_cons_self _ _)
    obtain ⟨p, hp⟩ := Option.isSome_iff_exists.mp hsome
    have hsp : secPath sec = p := by
      unfold secPath
      rw [hp]
      rfl
    show epFlush (((sec.header :: sec.body) ++ (rest.map sectionLines).flatten).foldl
      epStep st) = _
    rw [List.foldl_append]
    have hhd : epStep st sec.header = ⟨some p, [], epFlush st⟩ := by
      unfold epStep
      rw [hstart, if_pos rfl, hp]
    have hsec : (sec.header :: sec.body).foldl epStep st = ⟨some p, sec.body, epFlush st⟩ := by
      show sec.body.foldl epStep (epStep st sec.header) = _
      rw [hhd, epBodyFold sec.body p [] (epFlush st) hbody]
      rfl
    rw [hsec]
    have hflush1 : epFlush ⟨some p, sec.body, epFlush st⟩ =
        epFlush st ++ (if sectionHasHunk sec then [(p, hunkTail sec.body)] else []) :=
      epFlushSection p sec.body (epFlush st) hform
        (fun pr hpr => hsp ▸ hfresh sec (List.mem_cons_self _ _) pr hpr)
    have hnodup2 : secPath sec ∉ rest.map secPath ∧ (rest.map secPath).Nodup :=
      List.nodup_cons.mp hnodup
    have hih := epSecsFold rest ⟨some p, sec.body, epFlush st⟩
      (fun s2 hs2 => hwf s2 (List.mem_cons_of_mem _ hs2))
      hnodup2.2
      (fun s2 hs2 pr hpr => by
        rw [hflush1] at hpr
        rcases List.mem_append.mp hpr with hpr | hpr
        · exact hfresh s2 (List.mem_cons_of_mem _ hs2) pr hpr
        · by_cases hh : sectionHasHunk sec = true
          · rw [if_pos hh] at hpr
            have hpr2 : pr = (p, hunkTail sec.body) := by simpa using hpr
            rw [hpr2]
            intro heq
            have heq2 : p = secPath s2 := heq
            exact hnodup2.1 (by rw [hsp, heq2]; exact List.mem_map_of_mem secPath hs2)
          · rw [if_neg hh] at hpr
            cases hpr)
    rw [hih, hflush1]
    by_cases hh : sectionHasHunk sec = true
    · rw [if_pos hh]
      simp only [List.filter_cons_of_pos hh, List.map_cons]
      rw [hsp]
      rw [List.append_assoc]
      rfl
    · rw [if_neg hh, List.filter_cons_of_neg hh, List.append_nil]

def diffPreA : List String := ["some preamble"]

def diffSecsA : List DiffSection :=
  [⟨"diff --git a/a.ts b/a.ts",
    ["--- a/a.ts", "+++ b/a.ts", "@@ -1,1 +1,1 @@", "-a", "+b"]⟩,
   ⟨"diff --git a/bin b/bin", ["Binary files a/bin and b/bin differ"]⟩]

/-- C4: on a well-formed multi-file unified diff — every section headed by
a parsable `diff --git a/X b/Y` line, no body or preamble line looking
like a header, hunk-header lines of the usual `@@ -` shape, distinct
section paths, newline-free lines — `extractPatchByFile` returns exactly
one entry per section that contains a line starting with `@@ `, in order,
keyed by the second header path, whose value is that section's lines from
the first hunk header onward joined and right-trimmed; sections without a
hunk header (e.g. binary-only sections) are absent, and every stored
value starts with `@@ `. -/
theorem C4_extract_patch_by_file (pre : List String) (secs : List DiffSection)
    (hpre : ∀ l ∈ pre, jsStartsWith l "diff --git " = false)
    (hwf : ∀ sec ∈ secs, sectionWF sec)
    (hnl : ∀ l ∈ mkDiffLines pre secs, Char.ofNat 10 ∉ l.data)
    (hnodup : (secs.map secPath).Nodup)
    (hne : mkDiffLines pre secs ≠ []) :
    extractPatchByFile (jsJoin "\n" (mkDiffLines pre secs)) =
      (secs.filter sectionHasHunk).map (fun sec => (secPath sec, sectionPatch sec)) ∧
    ∀ pr ∈ extractPatchByFile (jsJoin "\n" (mkDiffLines pre secs)),
      jsStartsWith pr.2 "@@ " = true := by
  have hmain : extractPatchByFile (jsJoin "\n" (mkDiffLines pre secs)) =
      (secs.filter sectionHasHunk).map (fun sec => (secPath sec, sectionPatch sec)) := by
    unfold extractPatchByFile
    rw [splitLines_jsJoin _ hne hnl]
    unfold mkDiffLines
    rw [List.foldl_append]
    rw [epPreFold pre hpre]
    have h0 := epSecsFold secs epInit hwf hnodup (fun sec hsec pr hpr => by cases hpr)
    rw [h0]
    rfl
  refine ⟨hmain, ?_⟩
  rw [hmain]
  intro pr hpr
  obtain ⟨sec, hsec, hpr2⟩ := List.mem_map.mp hpr
  have hsecmem := List.mem_filter.mp hsec
  have hwfs := hwf sec hsecmem.1
  have hany : sec.body.any (fun l => jsStartsWith l "@@ ") = true := hsecmem.2
  have hisome : (sec.body.findIdx? (fun l => jsStartsWith l "@@ ")).isSome = true := by
    rw [List.findIdx?_isSome]
    exact hany
  obtain ⟨i, hf⟩ := Option.isSome_iff_exists.mp hisome
  obtain ⟨hlen, hpi, _⟩ := List.findIdx?_eq_some_iff_getElem.mp hf
  have hdrop : sec.body.drop i = sec.body.get ⟨i, hlen⟩ :: sec.body.drop (i + 1) :=
    List.drop_eq_getElem_cons hlen
  have hmem : sec.body.get ⟨i, hlen⟩ ∈ sec.body := List.getElem_mem hlen
  have hpre2 := trimEnd_hunk_prefix (sec.body.get ⟨i, hlen⟩) (sec.body.drop (i + 1))
    (hwfs.2.2.2 _ hmem hpi)
  have hht : sectionPatch sec =
      jsTrimEnd (jsJoin "\n" (sec.body.get ⟨i, hlen⟩ :: sec.body.drop (i + 1))) := by
    unfold sectionPatch hunkTail
    rw [hf]
    simp only []
    rw [hdrop]
  rw [← hpr2]
  show jsStartsWith (sectionPatch sec) "@@ " = true
  rw [hht]
  exact hpre2.1

theorem C4_extract_patch_witness :
    extractPatchByFile (jsJoin "\n" (mkDiffLines diffPreA diffSecsA)) =
      (diffSecsA.filter sectionHasHunk).map (fun sec => (secPath sec, sectionPatch sec)) ∧
    extractPatchByFile (jsJoin "\n" (mkDiffLines diffPreA diffSecsA)) =
      [("a.ts", "@@ -1,1 +1,1 @@" ++ "\n" ++ "-a" ++ "\n" ++ "+b")] := by
  have h := C4_extract_patch_by_file diffPreA diffSecsA (by decide)
    (by simp only [sectionWF]; decide) (by decide) (by decide) (by decide)
  exact ⟨h.1, by rw [h.1]; rfl⟩

/-! ### C9: buildReviewPayload comment assembly -/

theorem mapSet_mem {α β : Type} [DecidableEq α] :
    ∀ (m : List (α × β)) (k : α) (v : β) (pr : α × β),
      pr ∈ mapSet m k v → pr = (k, v) ∨ pr ∈ m
  | [], k, v, pr, h => by
    rcases List.mem_singleton.mp h with h2
    exact Or.inl h2
  | (k2, v2) :: t, k, v, pr, h => by
    revert h
    show pr ∈ (if k2 = k then (k2, v) :: t else (k2, v2) :: mapSet t k v) → _
    by_cases hk : k2 = k
    · rw [if_pos hk]
      subst hk
      intro h
      rcases List.mem_cons.mp h with h2 | h2
      · exact Or.inl h2
      · exact Or.inr (List.mem_cons_of_mem _ h2)
    · rw [if_neg hk]
      intro h
      rcases List.mem_cons.mp h with h2 | h2
      · exact Or.inr (h2 ▸ List.mem_cons_self _ _)
      · rcases mapSet_mem t k v pr h2 with h3 | h3
        · exact Or.inl h3
        · exact Or.inr (List.mem_cons_of_mem _ h3)

theorem mapGet?_mem {α β : Type} [DecidableEq α] :
    ∀ (m : List (α × β)) (k : α) (v : β), mapGet? m k = some v → (k, v) ∈ m
  | [], k, v, h => by cases h
  | (k2, v2) :: t, k, v, h => by
    revert h
    show (if k2 = k then some v2 else mapGet? t k) = some v → _
    by_cases hk : k2 = k
    · rw [if_pos hk]
      intro h
      injection h with h2
      subst hk
      subst h2
      exact List.mem_cons_self _ _
    · rw [if_neg hk]
      intro h
      exact List.mem_cons_of_mem _ (mapGet?_mem t k v h)

/-- One `posStep` either keeps the map or records position `+ 1`. -/
theorem posStep_map_cases (st : PosState) (line : String) :
    (posStep st line).map = st.map ∨
    (posStep st line).map = mapSet st.map st.newLine (st.position + 1) := by
  unfold posStep
  by_cases h1 : jsStartsWith line "@@ " = true
  · rw [if_pos h1]
    cases parseHunkHeader line with
    | none => exact Or.inl rfl
    | some h => exact Or.inl rfl
  · rw [if_neg h1]
    by_cases h2 : (!st.hasActiveHunk) = true
    · rw [if_pos h2]
      exact Or.inl rfl
    · rw [if_neg h2]
      by_cases h3 : jsStartsWith line "\\" = true
      · rw [if_pos h3]
        exact Or.inl rfl
      · rw [if_neg h3]
        by_cases h4 : (jsStartsWith line "+" && !jsStartsWith line "+++") = true
        · rw [if_pos h4]
          exact Or.inr rfl
        · rw [if_neg h4]
          by_cases h5 : (jsStartsWith line "-" && !jsStartsWith line "---") = true
          · rw [if_pos h5]
            exact Or.inl rfl
          · rw [if_neg h5]
            by_cases h6 : jsStartsWith line " " = true
            · rw [if_pos h6]
              exact Or.inl rfl
            · rw [if_neg h6]
              exact Or.inl rfl

theorem posRun_map_ge_one :
    ∀ (lines : List String) (st : PosState), (∀ pr ∈ st.map, 1 ≤ pr.2) →
      ∀ pr ∈ (lines.foldl posStep st).map, 1 ≤ pr.2
  | [], st, hst, pr, hpr => hst pr hpr
  | l :: rest, st, hst, pr, hpr => by
    refine posRun_map_ge_one rest (posStep st l) ?_ pr hpr
    intro pr2 hpr2
    rcases posStep_map_cases st l with hc | hc
    · exact hst pr2 (hc ▸ hpr2)
    · rw [hc] at hpr2
      rcases mapSet_mem st.map st.newLine (st.position + 1) pr2 hpr2 with h2 | h2
      · rw [h2]
        exact Nat.succ_le_succ (Nat.zero_le _)
      · exact hst pr2 h2

/-- Every position stored in the added-line map is at least 1 (never the
JS-falsy 0). -/
theorem buildMap_pos_ge_one (patch : String) (k v : Nat)
    (h : mapGet? (buildAddedLineToPositionMap patch) k = some v) : 1 ≤ v := by
  unfold buildAddedLineToPositionMap at h
  exact posRun_map_ge_one (splitLines patch) posInit (fun pr hpr => by cases hpr)
    (k, v) (mapGet?_mem _ k v h)

theorem digitChar_ne_colon : ∀ d : Nat, digitChar d ≠ ':'
  | 0 => by decide
  | 1 => by decide
  | 2 => by decide
  | 3 => by decide
  | 4 => by decide
  | 5 => by decide
  | 6 => by decide
  | 7 => by decide
  | 8 => by decide
  | n + 9 => by
    intro h
    have h2 : Char.ofNat 57 = Char.ofNat 58 := h
    exact absurd h2 (by decide)

theorem digitToNat_digitChar : ∀ d : Nat, d < 10 → digitToNat (digitChar d) = d := by
  intro d h
  interval_cases d <;> rfl

theorem natDecGo_append : ∀ (fuel n : Nat) (acc : List Char),
    natDecGo fuel n acc = natDecGo fuel n [] ++ acc
  | 0, n, acc => rfl
  | fuel + 1, n, acc => by
    show (if n < 10 then digitChar n :: acc
      else natDecGo fuel (n / 10) (digitChar (n % 10) :: acc)) = _
    by_cases h : n < 10
    · rw [if_pos h]
      show _ = (if n < 10 then digitChar n :: ([] : List Char)
        else natDecGo fuel (n / 10) (digitChar (n % 10) :: [])) ++ acc
      rw [if_pos h]
      rfl
    · rw [if_neg h]
      show _ = (if n < 10 then digitChar n :: ([] : List Char)
        else natDecGo fuel (n / 10) (digitChar (n % 10) :: [])) ++ acc
      rw [if_neg h]
      rw [natDecGo_append fuel (n / 10) (digitChar (n % 10) :: acc),
        natDecGo_append fuel (n / 10) (digitChar (n % 10) :: [])]
      simp

theorem digitsVal_snoc (ds : List Char) (c : Char) :
    digitsVal (ds ++ [c]) = 10 * digitsVal ds + digitToNat c := by
  unfold digitsVal
  rw [List.foldl_append]
  rfl

theorem natDecGo_val : ∀ (fuel n : Nat), n ≤ fuel ∨ n < 10 →
    digitsVal (natDecGo fuel n []) = n
  | 0, n, h => by
    have hn : n < 10 := by omega
    show digitsVal [digitChar n] = n
    have h2 : digitsVal [digitChar n] = digitToNat (digitChar n) := by
      unfold digitsVal
      simp [digitToNat]
    rw [h2]
    exact digitToNat_digitChar n hn
  | fuel + 1, n, h => by
    show digitsVal (if n < 10 then [digitChar n]
      else natDecGo fuel (n / 10) (digitChar (n % 10) :: [])) = n
    by_cases hn : n < 10
    · rw [if_pos hn]
      have h2 : digitsVal [digitChar n] = digitToNat (digitChar n) := by
        unfold digitsVal
        simp [digitToNat]
      rw [h2]
      exact digitToNat_digitChar n hn
    · rw [if_neg hn]
      rw [natDecGo_append fuel (n / 10) (digitChar (n % 10) :: [])]
      rw [digitsVal_snoc]
      have hdiv : n / 10 < n := Nat.div_lt_self (by omega) (by omega)
      rw [natDecGo_val fuel (n / 10) (by omega)]
      rw [digitToNat_digitChar (n % 10) (Nat.mod_lt n (by omega))]
      omega

/-- Decimal rendering is injective. -/
theorem natDec_inj (m n : Nat) (h : natDec m = natDec n) : m = n := by
  have h2 := congrArg (fun s => digitsVal s.data) h
  have h3 : digitsVal (natDec m).data = digitsVal (natDec n).data := h2
  have hm : digitsVal (natDec m).data = m := natDecGo_val m m (Or.inl (Nat.le_refl m))
  have hn : digitsVal (natDec n).data = n := natDecGo_val n n (Or.inl (Nat.le_refl n))
  rw [hm, hn] at h3
  exact h3

theorem natDecGo_colonfree : ∀ (fuel n : Nat) (acc : List Char),
    (∀ c ∈ acc, c ≠ ':') → ∀ c ∈ natDecGo fuel n acc, c ≠ ':'
  | 0, n, acc, hacc, c, hc => by
    rcases List.mem_cons.mp hc with h2 | h2
    · exact h2 ▸ digitChar_ne_colon n
    · exact hacc c h2
  | fuel + 1, n, acc, hacc, c, hc => by
    revert hc
    show c ∈ (if n < 10 then digitChar n :: acc
      else natDecGo fuel (n / 10) (digitChar (n % 10) :: acc)) → _
    by_cases hn : n < 10
    · rw [if_pos hn]
      intro hc
      rcases List.mem_cons.mp hc with h2 | h2
      · exact h2 ▸ digitChar_ne_colon n
      · exact hacc c h2
    · rw [if_neg hn]
      intro hc
      refine natDecGo_colonfree fuel (n / 10) (digitChar (n % 10) :: acc) ?_ c hc
      intro c2 hc2
      rcases List.mem_cons.mp hc2 with h2 | h2
      · exact h2 ▸ digitChar_ne_colon (n % 10)
      · exact hacc c2 h2

theorem natDec_colonfree (n : Nat) : ':' ∉ (natDec n).data := by
  intro h
  exact natDecGo_colonfree n n [] (fun c hc => by cases hc) ':' h rfl

/-- Cancellation at the first colon of colon-free prefixes. -/
theorem colon_split : ∀ (x1 x2 y1 y2 : List Char), ':' ∉ x1 → ':' ∉ x2 →
    x1 ++ ':' :: y1 = x2 ++ ':' :: y2 → x1 = x2 ∧ y1 = y2
  | [], [], y1, y2, _, _, h => by
    injection h with h1 h2
    exact ⟨rfl, h2⟩
  | [], c :: x2, y1, y2, _, h2, h => by
    injection h with ha hb
    exact absurd (ha ▸ List.mem_cons_self c x2) h2
  | c :: x1, [], y1, y2, h1, _, h => by
    injection h with ha hb
    exact absurd (ha ▸ List.mem_cons_self c x1) h1
  | c1 :: x1, c2 :: x2, y1, y2, h1, h2, h => by
    injection h with ha hb
    have ih := colon_split x1 x2 y1 y2 (fun hm => h1 (List.mem_cons_of_mem _ hm))
      (fun hm => h2 (List.mem_cons_of_mem _ hm)) hb
    exact ⟨by rw [ha, ih.1], ih.2⟩

/-- `path:nat:tail` keys are injective when the paths are colon-free. -/
theorem commentKey_inj (p1 p2 : String) (n1 n2 : Nat) (b1 b2 : String)
    (h1 : ':' ∉ p1.data) (h2 : ':' ∉ p2.data)
    (heq : commentKey p1 n1 b1 = commentKey p2 n2 b2) :
    p1 = p2 ∧ n1 = n2 ∧ b1 = b2 := by
  have hd := congrArg String.data heq
  have hd2 : p1.data ++ ':' :: ((natDec n1).data ++ ':' :: b1.data) =
      p2.data ++ ':' :: ((natDec n2).data ++ ':' :: b2.data) := by
    have he : ∀ (p : String) (n : Nat) (b : String),
        (commentKey p n b).data = p.data ++ ':' :: ((natDec n).data ++ ':' :: b.data) := by
      intro p n b
      unfold commentKey
      rw [String.data_append, String.data_append, String.data_append, String.data_append]
      simp
    rw [he, he] at hd
    exact hd
  obtain ⟨hp, htail⟩ := colon_split _ _ _ _ h1 h2 hd2
  obtain ⟨hn, hb⟩ := colon_split _ _ _ _ (natDec_colonfree n1) (natDec_colonfree n2) htail
  refine ⟨?_, ?_, ?_⟩
  · cases p1
    cases p2
    exact congrArg String.mk hp
  · refine natDec_inj n1 n2 ?_
    cases hm : natDec n1
    cases hn2 : natDec n2
    rw [hm] at hn
    rw [hn2] at hn
    exact congrArg String.mk hn
  · cases b1
    cases b2
    exact congrArg String.mk hb

def keyOfComment (c : ReviewCommentInput) : String := commentKey c.path c.position c.body

def tagOfReason (r : String) : String :=
  if r = "patch is unavailable" then "missing-patch" else "not-added"

def keyOfFallback (fb : FallbackSuggestion) : String :=
  fallbackKey fb.path fb.line (tagOfReason fb.reason)

/-- Per-candidate outcome of the `buildReviewPayload` loop: the inline
comment it yields, or `none` when it falls back. -/
def candTriple (fileMap : List (String × GitHubPullRequestFile))
    (sg : SuggestionCandidate) : Option ReviewCommentInput :=
  match truthyPatch fileMap (normalizePath sg.path) with
  | none => none
  | some patch =>
    let pos? := mapGet? (buildAddedLineToPositionMap patch) sg.line
    if pos?.getD 0 = 0 then none
    else some ⟨normalizePath sg.path, pos?.getD 0, sg.body⟩

theorem contains_eq_exists (l : List String) (k : String) :
    l.contains k = true ↔ ∃ x ∈ l, x = k := by
  rw [List.contains_iff_exists_mem_beq]
  constructor
  · intro he
    obtain ⟨x, hx, hbeq⟩ := he
    exact ⟨x, hx, (by simpa using hbeq : k = x).symm⟩
  · intro he
    obtain ⟨x, hx, hbeq⟩ := he
    exact ⟨x, hx, by simp [hbeq]⟩

theorem nodup_snoc {α : Type} (l : List α) (a : α) (hl : l.Nodup) (ha : a ∉ l) :
    (l ++ [a]).Nodup := by
  rw [List.nodup_append]
  exact ⟨hl, List.nodup_singleton a, fun x hx hxa => ha ((List.mem_singleton.mp hxa) ▸ hx)⟩

/-- Main invariant run of the `buildReviewPayload` suggestion loop. -/
theorem brpGo_spec (fileMap : List (String × GitHubPullRequestFile)) :
    ∀ (sgs : List SuggestionCandidate) (st : BRPState),
    (∀ sg ∈ sgs, ':' ∉ (normalizePath sg.path).data) →
    st.seen = st.comments.map keyOfComment →
    st.fallbackSeen = st.fallbackItems.map keyOfFallback →
    (∀ c ∈ st.comments, ':' ∉ c.path.data) →
    (∀ fb ∈ st.fallbackItems,
      (fb.reason = "patch is unavailable" ∨ fb.reason = "line is not an added diff line") ∧
      ':' ∉ fb.path.data) →
    st.comments.Nodup →
    st.comments.length < 20 →
    (∃ d, (brpGo fileMap sgs st).comments = st.comments ++ d ∧
      d.Sublist (sgs.filterMap (candTriple fileMap))) ∧
    (∃ df, (brpGo fileMap sgs st).fallbackItems = st.fallbackItems ++ df) ∧
    (brpGo fileMap sgs st).comments.Nodup ∧
    (brpGo fileMap sgs st).comments.length ≤ 20 ∧
    (∀ fb ∈ (brpGo fileMap sgs st).fallbackItems,
      (fb.reason = "patch is unavailable" ∨ fb.reason = "line is not an added diff line") ∧
      ':' ∉ fb.path.data) ∧
    ((brpGo fileMap sgs st).comments.length < 20 →
      (∀ sg ∈ sgs, ∀ c, candTriple fileMap sg = some c → c ∈ (brpGo fileMap sgs st).comments) ∧
      (∀ sg ∈ sgs,
        (truthyPatch fileMap (normalizePath sg.path) = none →
          (⟨normalizePath sg.path, sg.line, "patch is unavailable"⟩ : FallbackSuggestion)
            ∈ (brpGo fileMap sgs st).fallbackItems) ∧
        (∀ patch, truthyPatch fileMap (normalizePath sg.path) = some patch →
          (mapGet? (buildAddedLineToPositionMap patch) sg.line).getD 0 = 0 →
          (⟨normalizePath sg.path, sg.line, "line is not an added diff line"⟩ : FallbackSuggestion)
            ∈ (brpGo fileMap sgs st).fallbackItems)))
  | [], st, hcf, hseen, hfseen, hccf, hfre, hnodup, hlen => by
    refine ⟨⟨[], ?_, List.nil_sublist _⟩, ⟨[], ?_⟩, hnodup, ?_, hfre, ?_⟩
    · show st.comments = st.comments ++ []
      rw [List.append_nil]
    · show st.fallbackItems = st.fallbackItems ++ []
      rw [List.append_nil]
    · show st.comments.length ≤ 20
      omega
    · intro _
      exact ⟨(fun sg hsg => by cases hsg), (fun sg hsg => by cases hsg)⟩
  | sg :: rest, st, hcf, hseen, hfseen, hccf, hfre, hnodup, hlen => by
    have hcfh := hcf sg (List.mem_cons_self _ _)
    have hcft : ∀ sg2 ∈ rest, ':' ∉ (normalizePath sg2.path).data :=
      fun sg2 h2 => hcf sg2 (List.mem_cons_of_mem _ h2)
    cases htp : truthyPatch fileMap (normalizePath sg.path) with
    | none =>
      have hct : candTriple fileMap sg = none := by
        unfold candTriple
        rw [htp]
      have hfm : (sg :: rest).filterMap (candTriple fileMap) =
          rest.filterMap (candTriple fileMap) := List.filterMap_cons_none hct
      by_cases hdup : st.fallbackSeen.contains
          (fallbackKey (normalizePath sg.path) sg.line "missing-patch") = true
      · have hstep : brpGo fileMap (sg :: rest) st = brpGo fileMap rest st := by
          simp only [brpGo]
          rw [htp]
          simp only []
          rw [if_pos hdup]
        obtain ⟨fb, hfbmem, hfbkey⟩ : ∃ fb ∈ st.fallbackItems,
            keyOfFallback fb = fallbackKey (normalizePath sg.path) sg.line "missing-patch" := by
          obtain ⟨x, hx, hxk⟩ := (contains_eq_exists _ _).mp hdup
          rw [hfseen] at hx
          obtain ⟨fb, hfb, hfbx⟩ := List.mem_map.mp hx
          exact ⟨fb, hfb, by rw [hfbx, hxk]⟩
        have hfb0 : fb = ⟨normalizePath sg.path, sg.line, "patch is unavailable"⟩ := by
          have hinj := commentKey_inj fb.path (normalizePath sg.path) fb.line sg.line
            (tagOfReason fb.reason) "missing-patch" (hfre fb hfbmem).2 hcfh hfbkey
          have hre : fb.reason = "patch is unavailable" := by
            rcases (hfre fb hfbmem).1 with hr | hr
            · exact hr
            · exfalso
              have htag : tagOfReason fb.reason = "missing-patch" := hinj.2.2
              rw [hr] at htag
              rw [show tagOfReason "line is not an added diff line" = "not-added" from rfl]
                at htag
              exact absurd htag (by decide)
          cases fb
          simp only [] at hinj hre
          rw [hinj.1, hinj.2.1, hre]
        rw [hstep]
        have ih := brpGo_spec fileMap rest st hcft hseen hfseen hccf hfre hnodup hlen
        obtain ⟨⟨d, hd, hds⟩, hdf, hnd, hle, hre2, hadm⟩ := ih
        refine ⟨⟨d, hd, by rw [hfm]; exact hds⟩, hdf, hnd, hle, hre2, ?_⟩
        intro hlt
        obtain ⟨hadm1, hadm2⟩ := hadm hlt
        refine ⟨?_, ?_⟩
        · intro sg2 hsg2 c hc
          rcases List.mem_cons.mp hsg2 with h2 | h2
          · rw [h2] at hc
            rw [hct] at hc
            cases hc
          · exact hadm1 sg2 h2 c hc
        · intro sg2 hsg2
          rcases List.mem_cons.mp hsg2 with h2 | h2
          · subst h2
            refine ⟨fun _ => ?_, fun patch hp => ?_⟩
            · obtain ⟨df, hdf2⟩ := hdf
              rw [hdf2]
              exact List.mem_append_left _ (hfb0 ▸ hfbmem)
            · rw [htp] at hp
              cases hp
          · exact hadm2 sg2 h2
      · have hstep : brpGo fileMap (sg :: rest) st = brpGo fileMap rest
            ⟨st.comments,
              st.fallbackItems ++ [⟨normalizePath sg.path, sg.line, "patch is unavailable"⟩],
              st.seen,
              st.fallbackSeen ++ [fallbackKey (normalizePath sg.path) sg.line "missing-patch"]⟩ := by
          simp only [brpGo]
          rw [htp]
          simp only []
          rw [if_neg hdup]
        rw [hstep]
        have hkey : keyOfFallback ⟨normalizePath sg.path, sg.line, "patch is unavailable"⟩ =
            fallbackKey (normalizePath sg.path) sg.line "missing-patch" := rfl
        have ih := brpGo_spec fileMap rest
          ⟨st.comments,
            st.fallbackItems ++ [⟨normalizePath sg.path, sg.line, "patch is unavailable"⟩],
            st.seen,
            st.fallbackSeen ++ [fallbackKey (normalizePath sg.path) sg.line "missing-patch"]⟩
          hcft hseen
          (by
            show st.fallbackSeen ++ _ = (st.fallbackItems ++ _).map keyOfFallback
            rw [List.map_append, ← hfseen]
            rfl)
          hccf
          (by
            intro fb hfb
            rcases List.mem_append.mp hfb with h2 | h2
            · exact hfre fb h2
            · rw [List.mem_singleton.mp h2]
              exact ⟨Or.inl rfl, hcfh⟩)
          hnodup hlen
        obtain ⟨⟨d, hd, hds⟩, ⟨df, hdf⟩, hnd, hle, hre2, hadm⟩ := ih
        refine ⟨⟨d, hd, by rw [hfm]; exact hds⟩,
          ⟨⟨normalizePath sg.path, sg.line, "patch is unavailable"⟩ :: df,
            by rw [hdf]; simp⟩, hnd, hle, hre2, ?_⟩
        intro hlt
        obtain ⟨hadm1, hadm2⟩ := hadm hlt
        refine ⟨?_, ?_⟩
        · intro sg2 hsg2 c hc
          rcases List.mem_cons.mp hsg2 with h2 | h2
          · rw [h2] at hc
            rw [hct] at hc
            cases hc
          · exact hadm1 sg2 h2 c hc
        · intro sg2 hsg2
          rcases List.mem_cons.mp hsg2 with h2 | h2
          · subst h2
            refine ⟨fun _ => ?_, fun patch hp => ?_⟩
            · rw [hdf]
              refine List.mem_append_left _ (List.mem_append_right _ ?_)
              exact List.mem_singleton.mpr rfl
            · rw [htp] at hp
              cases hp
          · exact hadm2 sg2 h2
    | some patch =>
      by_cases hp0 : (mapGet? (buildAddedLineToPositionMap patch) sg.line).getD 0 = 0
      · have hct : candTriple fileMap sg = none := by
          unfold candTriple
          rw [htp]
          simp only []
          rw [if_pos hp0]
        have hfm : (sg :: rest).filterMap (candTriple fileMap) =
            rest.filterMap (candTriple fileMap) := List.filterMap_cons_none hct
        by_cases hdup : st.fallbackSeen.contains
            (fallbackKey (normalizePath sg.path) sg.line "not-added") = true
        · have hstep : brpGo fileMap (sg :: rest) st = brpGo fileMap rest st := by
            simp only [brpGo]
            rw [htp]
            simp only []
            rw [if_pos hp0, if_pos hdup]
          obtain ⟨fb, hfbmem, hfbkey⟩ : ∃ fb ∈ st.fallbackItems,
              keyOfFallback fb = fallbackKey (normalizePath sg.path) sg.line "not-added" := by
            obtain ⟨x, hx, hxk⟩ := (contains_eq_exists _ _).mp hdup
            rw [hfseen] at hx
            obtain ⟨fb, hfb, hfbx⟩ := List.mem_map.mp hx
            exact ⟨fb, hfb, by rw [hfbx, hxk]⟩
          have hfb0 : fb = ⟨normalizePath sg.path, sg.line, "line is not an added diff line"⟩ := by
            have hinj := commentKey_inj fb.path (normalizePath sg.path) fb.line sg.line
              (tagOfReason fb.reason) "not-added" (hfre fb hfbmem).2 hcfh hfbkey
            have hre : fb.reason = "line is not an added diff line" := by
              rcases (hfre fb hfbmem).1 with hr | hr
              · exfalso
                have htag : tagOfReason fb.reason = "not-added" := hinj.2.2
                rw [hr] at htag
                rw [show tagOfReason "patch is unavailable" = "missing-patch" from rfl] at htag
                exact absurd htag (by decide)
              · exact hr
            cases fb
            simp only [] at hinj hre
            rw [hinj.1, hinj.2.1, hre]
          rw [hstep]
          have ih := brpGo_spec fileMap rest st hcft hseen hfseen hccf hfre hnodup hlen
          obtain ⟨⟨d, hd, hds⟩, hdf, hnd, hle, hre2, hadm⟩ := ih
          refine ⟨⟨d, hd, by rw [hfm]; exact hds⟩, hdf, hnd, hle, hre2, ?_⟩
          intro hlt
          obtain ⟨hadm1, hadm2⟩ := hadm hlt
          refine ⟨?_, ?_⟩
          · intro sg2 hsg2 c hc
            rcases List.mem_cons.mp hsg2 with h2 | h2
            · rw [h2] at hc
              rw [hct] at hc
              cases hc
            · exact hadm1 sg2 h2 c hc
          · intro sg2 hsg2
            rcases List.mem_cons.mp hsg2 with h2 | h2
            · subst h2
              refine ⟨fun hp => ?_, fun patch2 hp hz => ?_⟩
              · rw [htp] at hp
                cases hp
              · obtain ⟨df, hdf2⟩ := hdf
                rw [hdf2]
                exact List.mem_append_left _ (hfb0 ▸ hfbmem)
            · exact hadm2 sg2 h2
        · have hstep : brpGo fileMap (sg :: rest) st = brpGo fileMap rest
              ⟨st.comments,
                st.fallbackItems ++
                  [⟨normalizePath sg.path, sg.line, "line is not an added diff line"⟩],
                st.seen,
                st.fallbackSeen ++ [fallbackKey (normalizePath sg.path) sg.line "not-added"]⟩ := by
            simp only [brpGo]
            rw [htp]
            simp only []
            rw [if_pos hp0, if_neg hdup]
          rw [hstep]
          have ih := brpGo_spec fileMap rest
            ⟨st.comments,
              st.fallbackItems ++
                [⟨normalizePath sg.path, sg.line, "line is not an added diff line"⟩],
              st.seen,
              st.fallbackSeen ++ [fallbackKey (normalizePath sg.path) sg.line "not-added"]⟩
            hcft hseen
            (by
              show st.fallbackSeen ++ _ = (st.fallbackItems ++ _).map keyOfFallback
              rw [List.map_append, ← hfseen]
              rfl)
            hccf
            (by
              intro fb hfb
              rcases List.mem_append.mp hfb with h2 | h2
              · exact hfre fb h2
              · rw [List.mem_singleton.mp h2]
                exact ⟨Or.inr rfl, hcfh⟩)
            hnodup hlen
          obtain ⟨⟨d, hd, hds⟩, ⟨df, hdf⟩, hnd, hle, hre2, hadm⟩ := ih
          refine ⟨⟨d, hd, by rw [hfm]; exact hds⟩,
            ⟨⟨normalizePath sg.path, sg.line, "line is not an added diff line"⟩ :: df,
              by rw [hdf]; simp⟩, hnd, hle, hre2, ?_⟩
          intro hlt
          obtain ⟨hadm1, hadm2⟩ := hadm hlt
          refine ⟨?_, ?_⟩
          · intro sg2 hsg2 c hc
            rcases List.mem_cons.mp hsg2 with h2 | h2
            · rw [h2] at hc
              rw [hct] at hc
              cases hc
            · exact hadm1 sg2 h2 c hc
          · intro sg2 hsg2
            rcases List.mem_cons.mp hsg2 with h2 | h2
            · subst h2
              refine ⟨fun hp => ?_, fun patch2 hp hz => ?_⟩
              · rw [htp] at hp
                cases hp
              · rw [hdf]
                refine List.mem_append_left _ (List.mem_append_right _ ?_)
                exact List.mem_singleton.mpr rfl
            · exact hadm2 sg2 h2
      · have hct : candTriple fileMap sg = some
            ⟨normalizePath sg.path,
              (mapGet? (buildAddedLineToPositionMap patch) sg.line).getD 0, sg.body⟩ := by
          unfold candTriple
          rw [htp]
          simp only []
          rw [if_neg hp0]
        have hfm : (sg :: rest).filterMap (candTriple fileMap) =
            (⟨normalizePath sg.path,
              (mapGet? (buildAddedLineToPositionMap patch) sg.line).getD 0, sg.body⟩ :
                ReviewCommentInput) :: rest.filterMap (candTriple fileMap) :=
          List.filterMap_cons_some hct
        by_cases hdup : st.seen.contains
            (commentKey (normalizePath sg.path)
              ((mapGet? (buildAddedLineToPositionMap patch) sg.line).getD 0) sg.body) = true
        · have hstep : brpGo fileMap (sg :: rest) st = brpGo fileMap rest st := by
            simp only [brpGo]
            rw [htp]
            simp only []
            rw [if_neg hp0, if_pos hdup]
          obtain ⟨c0, hc0mem, hc0key⟩ : ∃ c0 ∈ st.comments,
              keyOfComment c0 = commentKey (normalizePath sg.path)
                ((mapGet? (buildAddedLineToPositionMap patch) sg.line).getD 0) sg.body := by
            obtain ⟨x, hx, hxk⟩ := (contains_eq_exists _ _).mp hdup
            rw [hseen] at hx
            obtain ⟨c0, hc0, hc0x⟩ := List.mem_map.mp hx
            exact ⟨c0, hc0, by rw [hc0x, hxk]⟩
          have hc0 : c0 = ⟨normalizePath sg.path,
              (mapGet? (buildAddedLineToPositionMap patch) sg.line).getD 0, sg.body⟩ := by
            have hinj := commentKey_inj c0.path (normalizePath sg.path) c0.position
              ((mapGet? (buildAddedLineToPositionMap patch) sg.line).getD 0) c0.body sg.body
              (hccf c0 hc0mem) hcfh hc0key
            cases c0
            simp only [] at hinj
            rw [hinj.1, hinj.2.1, hinj.2.2]
          rw [hstep]
          have ih := brpGo_spec fileMap rest st hcft hseen hfseen hccf hfre hnodup hlen
          obtain ⟨⟨d, hd, hds⟩, hdf, hnd, hle, hre2, hadm⟩ := ih
          refine ⟨⟨d, hd, by rw [hfm]; exact hds.cons _⟩, hdf, hnd, hle, hre2, ?_⟩
          intro hlt
          obtain ⟨hadm1, hadm2⟩ := hadm hlt
          refine ⟨?_, ?_⟩
          · intro sg2 hsg2 c hc
            rcases List.mem_cons.mp hsg2 with h2 | h2
            · rw [h2] at hc
              rw [hct] at hc
              injection hc with hc2
              obtain ⟨d2, hd2, _⟩ : ∃ d2, (brpGo fileMap rest st).comments =
                  st.comments ++ d2 ∧ d2.Sublist (rest.filterMap (candTriple fileMap)) :=
                ⟨d, hd, hds⟩
              rw [hd2]
              exact List.mem_append_left _ (hc2 ▸ hc0 ▸ hc0mem)
            · exact hadm1 sg2 h2 c hc
          · intro sg2 hsg2
            rcases List.mem_cons.mp hsg2 with h2 | h2
            · subst h2
              refine ⟨fun hp => ?_, fun patch2 hp hz => ?_⟩
              · rw [htp] at hp
                cases hp
              · rw [htp] at hp
                injection hp with hp2
                subst hp2
                exact absurd hz hp0
            · exact hadm2 sg2 h2
        · have hnotmem : (⟨normalizePath sg.path,
              (mapGet? (buildAddedLineToPositionMap patch) sg.line).getD 0, sg.body⟩ :
                ReviewCommentInput) ∉ st.comments := by
            intro hmem
            refine absurd ((contains_eq_exists _ _).mpr ?_) hdup
            refine ⟨commentKey (normalizePath sg.path)
              ((mapGet? (buildAddedLineToPositionMap patch) sg.line).getD 0) sg.body, ?_, rfl⟩
            rw [hseen]
            exact List.mem_map_of_mem keyOfComment hmem
          simp only [brpGo]
          rw [htp]
          simp only []
          rw [if_neg hp0, if_neg hdup]
          have hlen2 : (st.comments ++ [(⟨normalizePath sg.path,
              (mapGet? (buildAddedLineToPositionMap patch) sg.line).getD 0, sg.body⟩ :
                ReviewCommentInput)]).length = st.comments.length + 1 := by simp
          by_cases hbreak : (st.comments ++ [(⟨normalizePath sg.path,
              (mapGet? (buildAddedLineToPositionMap patch) sg.line).getD 0, sg.body⟩ :
                ReviewCommentInput)]).length ≥ 20
          · rw [if_pos hbreak]
            refine ⟨⟨[(⟨normalizePath sg.path,
                (mapGet? (buildAddedLineToPositionMap patch) sg.line).getD 0, sg.body⟩ :
                  ReviewCommentInput)],
                ?_, ?_⟩, ⟨[], ?_⟩, ?_, ?_, hfre, ?_⟩
            · rfl
            · rw [hfm]
              exact (List.nil_sublist _).cons₂ _
            · show st.fallbackItems = st.fallbackItems ++ []
              rw [List.append_nil]
            · exact nodup_snoc _ _ hnodup hnotmem
            · have h21 : (st.comments ++ [(⟨normalizePath sg.path,
                  (mapGet? (buildAddedLineToPositionMap patch) sg.line).getD 0, sg.body⟩ :
                    ReviewCommentInput)]).length ≤ 20 := by
                rw [hlen2]
                omega
              exact h21
            · intro hlt
              have hlt2 : (st.comments ++ [(⟨normalizePath sg.path,
                  (mapGet? (buildAddedLineToPositionMap patch) sg.line).getD 0, sg.body⟩ :
                    ReviewCommentInput)]).length < 20 := hlt
              rw [hlen2] at hlt2
              rw [hlen2] at hbreak
              omega
          · rw [if_neg hbreak]
            have ih := brpGo_spec fileMap rest
              ⟨st.comments ++ [(⟨normalizePath sg.path,
                (mapGet? (buildAddedLineToPositionMap patch) sg.line).getD 0, sg.body⟩ :
                  ReviewCommentInput)],
                st.fallbackItems,
                st.seen ++ [commentKey (normalizePath sg.path)
                  ((mapGet? (buildAddedLineToPositionMap patch) sg.line).getD 0) sg.body],
                st.fallbackSeen⟩
              hcft
              (by
                show st.seen ++ _ = (st.comments ++ _).map keyOfComment
                rw [List.map_append, ← hseen]
                rfl)
              hfseen
              (by
                intro c hc
                rcases List.mem_append.mp hc with h2 | h2
                · exact hccf c h2
                · rw [List.mem_singleton.mp h2]
                  exact hcfh)
              hfre
              (nodup_snoc _ _ hnodup hnotmem)
              (by
                rw [hlen2] at hbreak ⊢
                omega)
            obtain ⟨⟨d, hd, hds⟩, hdf, hnd, hle, hre2, hadm⟩ := ih
            refine ⟨⟨(⟨normalizePath sg.path,
                (mapGet? (buildAddedLineToPositionMap patch) sg.line).getD 0, sg.body⟩ :
                  ReviewCommentInput) :: d,
                ?_, ?_⟩, hdf, hnd, hle, hre2, ?_⟩
            · rw [hd]
              simp
            · rw [hfm]
              exact hds.cons₂ _
            · intro hlt
              obtain ⟨hadm1, hadm2⟩ := hadm hlt
              refine ⟨?_, ?_⟩
              · intro sg2 hsg2 c hc
                rcases List.mem_cons.mp hsg2 with h2 | h2
                · rw [h2] at hc
                  rw [hct] at hc
                  injection hc with hc2
                  rw [hd]
                  refine List.mem_append_left _ (List.mem_append_right _ ?_)
                  exact List.mem_singleton.mpr hc2.symm
                · exact hadm1 sg2 h2 c hc
              · intro sg2 hsg2
                rcases List.mem_cons.mp hsg2 with h2 | h2
                · subst h2
                  refine ⟨(fun hp => ?_), (fun patch2 hp hz => ?_)⟩
                  · rw [htp] at hp
                    cases hp
                  · rw [htp] at hp
                    injection hp with hp2
                    subst hp2
                    exact absurd hz hp0
                · exact hadm2 sg2 h2

/-- C9 amended: the loop deduplicates by the string key
`path:position:body`, which conflates distinct triples when a normalized
path contains a colon (see the counterexample); on suggestion lists whose
normalized paths are colon-free the keys are faithful and the
`buildReviewPayload` loop (a) emits inline comments that are, in order, a
subsequence of the per-candidate outcomes, deduplicated and capped at 20;
(b) gives a candidate whose file has a usable patch and whose line is a
key of that patch's position map an inline comment carrying the mapped
position (never the raw line); (c) unless the cap ended the loop, admits
every positioned candidate's triple and records a fallback entry with
reason "patch is unavailable" or "line is not an added diff line" for
every unpositioned candidate; (d) produces only those two fallback
reasons; and (e) never aborts: `buildReviewPayload` returns `none` only
with no inline comments, and otherwise a payload carrying exactly the
loop's comments. -/
theorem C9_review_payload_amended (suggestions : List SuggestionCandidate)
    (overallComment : Option String) (files : List GitHubPullRequestFile)
    (hcf : ∀ sg ∈ suggestions, ':' ∉ (normalizePath sg.path).data) :
    (brpGo (buildFileMap files) suggestions brpInit).comments.Sublist
      (suggestions.filterMap (candTriple (buildFileMap files))) ∧
    (brpGo (buildFileMap files) suggestions brpInit).comments.Nodup ∧
    (brpGo (buildFileMap files) suggestions brpInit).comments.length ≤ 20 ∧
    (∀ sg ∈ suggestions, ∀ patch pos,
      truthyPatch (buildFileMap files) (normalizePath sg.path) = some patch →
      mapGet? (buildAddedLineToPositionMap patch) sg.line = some pos →
      candTriple (buildFileMap files) sg = some ⟨normalizePath sg.path, pos, sg.body⟩) ∧
    ((brpGo (buildFileMap files) suggestions brpInit).comments.length < 20 →
      ∀ sg ∈ suggestions, ∀ c, candTriple (buildFileMap files) sg = some c →
        c ∈ (brpGo (buildFileMap files) suggestions brpInit).comments) ∧
    ((brpGo (buildFileMap files) suggestions brpInit).comments.length < 20 →
      ∀ sg ∈ suggestions,
        (truthyPatch (buildFileMap files) (normalizePath sg.path) = none →
          (⟨normalizePath sg.path, sg.line, "patch is unavailable"⟩ : FallbackSuggestion)
            ∈ (brpGo (buildFileMap files) suggestions brpInit).fallbackItems) ∧
        (∀ patch, truthyPatch (buildFileMap files) (normalizePath sg.path) = some patch →
          (mapGet? (buildAddedLineToPositionMap patch) sg.line).getD 0 = 0 →
          (⟨normalizePath sg.path, sg.line, "line is not an added diff line"⟩ :
              FallbackSuggestion)
            ∈ (brpGo (buildFileMap files) suggestions brpInit).fallbackItems)) ∧
    (∀ fb ∈ (brpGo (buildFileMap files) suggestions brpInit).fallbackItems,
      fb.reason = "patch is unavailable" ∨ fb.reason = "line is not an added diff line") ∧
    ((buildReviewPayload suggestions overallComment files = none ∧
        (brpGo (buildFileMap files) suggestions brpInit).comments = []) ∨
      (∃ body, buildReviewPayload suggestions overallComment files =
        some ⟨(brpGo (buildFileMap files) suggestions brpInit).comments, body⟩)) := by
  have hspec := brpGo_spec (buildFileMap files) suggestions brpInit hcf rfl rfl
    (fun c hc => by cases hc) (fun fb hfb => by cases hfb) List.nodup_nil (by decide)
  obtain ⟨⟨d, hd, hds⟩, _, hnd, hle, hre2, hadm⟩ := hspec
  have hd2 : (brpGo (buildFileMap files) suggestions brpInit).comments = d :=
    hd.trans (List.nil_append d)
  refine ⟨by rw [hd2]; exact hds, hnd, hle, ?_, ?_, ?_, ?_, ?_⟩
  · intro sg hsg patch pos htp hpos
    unfold candTriple
    rw [htp]
    simp only []
    rw [hpos]
    simp only [Option.getD_some]
    have hge := buildMap_pos_ge_one patch sg.line pos hpos
    rw [if_neg (by omega)]
  · intro hlt sg hsg c hc
    exact (hadm hlt).1 sg hsg c hc
  · intro hlt sg hsg
    exact (hadm hlt).2 sg hsg
  · intro fb hfb
    exact (hre2 fb hfb).1
  · have hgen : ∀ (stx : BRPState) (bodyx : Option String),
        ((if stx.comments.length = 0 ∧ bodyx = none then (none : Option ReviewPayload)
          else some ⟨stx.comments, bodyx⟩) = none ∧ stx.comments = []) ∨
        (∃ b, (if stx.comments.length = 0 ∧ bodyx = none then (none : Option ReviewPayload)
          else some ⟨stx.comments, bodyx⟩) = some ⟨stx.comments, b⟩) := by
      intro stx bodyx
      by_cases hc : stx.comments.length = 0 ∧ bodyx = none
      · rw [if_pos hc]
        exact Or.inl ⟨rfl, List.length_eq_zero.mp hc.1⟩
      · rw [if_neg hc]
        exact Or.inr ⟨bodyx, rfl⟩
    exact hgen _ _

def collFiles : List GitHubPullRequestFile :=
  [⟨"p:1", some ("@@ -1,1 +1,2 @@" ++ "\n" ++ " a" ++ "\n" ++ "+b")⟩,
   ⟨"p", some ("@@ -1,0 +1,1 @@" ++ "\n" ++ "+x")⟩]

/-- C9 counterexample: the dedup key is the string `path:position:body`,
so for a path containing a colon two distinct triples collide —
`("p:1", 2, "b")` and `("p", 1, "2:b")` both key to `"p:1:2:b"` — and the
second, distinct positioned candidate is dropped even though the
20-comment cap was never reached: deduplication is not by the triple
(path, position, body). -/
theorem C9_dedup_collision_counterexample :
    candTriple (buildFileMap collFiles) ⟨"p:1", 2, "b"⟩ = some ⟨"p:1", 2, "b"⟩ ∧
    candTriple (buildFileMap collFiles) ⟨"p", 1, "2:b"⟩ = some ⟨"p", 1, "2:b"⟩ ∧
    (⟨"p:1", 2, "b"⟩ : ReviewCommentInput) ≠ ⟨"p", 1, "2:b"⟩ ∧
    commentKey "p:1" 2 "b" = commentKey "p" 1 "2:b" ∧
    (brpGo (buildFileMap collFiles) [⟨"p:1", 2, "b"⟩, ⟨"p", 1, "2:b"⟩] brpInit).comments =
      [⟨"p:1", 2, "b"⟩] ∧
    (brpGo (buildFileMap collFiles) [⟨"p:1", 2, "b"⟩, ⟨"p", 1, "2:b"⟩]
      brpInit).comments.length < 20 :=
  ⟨rfl, rfl, by decide, rfl, rfl, by decide⟩

def payloadFilesA : List GitHubPullRequestFile :=
  [⟨"a.ts", some ("@@ -1,1 +1,2 @@" ++ "\n" ++ " a" ++ "\n" ++ "+b")⟩, ⟨"b.ts", none⟩]

def payloadSugsA : List SuggestionCandidate :=
  [⟨"a.ts", 2, "fix"⟩, ⟨"b.ts", 1, "x"⟩]

theorem C9_review_payload_witness :
    (brpGo (buildFileMap payloadFilesA) payloadSugsA brpInit).comments.Nodup ∧
    (brpGo (buildFileMap payloadFilesA) payloadSugsA brpInit).comments.length ≤ 20 ∧
    candTriple (buildFileMap payloadFilesA) ⟨"a.ts", 2, "fix"⟩ =
      some ⟨"a.ts", 2, "fix"⟩ ∧
    (⟨"a.ts", 2, "fix"⟩ : ReviewCommentInput) ∈
      (brpGo (buildFileMap payloadFilesA) payloadSugsA brpInit).comments ∧
    (⟨"b.ts", 1, "patch is unavailable"⟩ : FallbackSuggestion) ∈
      (brpGo (buildFileMap payloadFilesA) payloadSugsA brpInit).fallbackItems := by
  have h := C9_review_payload_amended payloadSugsA none payloadFilesA (by decide)
  refine ⟨h.2.1, h.2.2.1, ?_, ?_, ?_⟩
  · exact h.2.2.2.1 ⟨"a.ts", 2, "fix"⟩ (List.mem_cons_self _ _)
      ("@@ -1,1 +1,2 @@" ++ "\n" ++ " a" ++ "\n" ++ "+b") 2 rfl rfl
  · refine h.2.2.2.2.1 (by decide) ⟨"a.ts", 2, "fix"⟩ (List.mem_cons_self _ _)
      ⟨"a.ts", 2, "fix"⟩ ?_
    rfl
  · exact (h.2.2.2.2.2.1 (by decide) ⟨"b.ts", 1, "x"⟩ (by decide)).1 rfl

end Harbor
